import Mathlib

/-!
# flutter_bspatch: a shallow embedding of `src/flutter_bspatch.c`

Bytes (`uint8_t`) are natural numbers below 256, buffers are lists of bytes,
`int64_t` values are integers and every `int64_t` operation of the source is
followed by `wrap64` (two's complement wrap-around modulo `2^64`).
A pointer `p + k` into a buffer is the pair of the buffer and the offset `k`.
-/

namespace FlutterBspatch

/-! ## Machine integers -/

/-- The value an `int64_t` holds after an operation whose exact result is `x`. -/
def wrap64 (x : Int) : Int := (x + 9223372036854775808) % 18446744073709551616 - 9223372036854775808

/-- The value an `int` (32 bits) holds after a conversion from `x`. -/
def wrap32 (x : Int) : Int := (x + 2147483648) % 4294967296 - 2147483648

/-- The conversion `(unsigned int)x`. -/
def to_uint (x : Int) : Nat := (x % 4294967296).toNat

/-- The exact result `x` is representable in an `int64_t`. -/
def inInt64 (x : Int) : Prop := -9223372036854775808 ≤ x ∧ x ≤ 9223372036854775807

instance (x : Int) : Decidable (inInt64 x) := by
  unfold inInt64; exact inferInstance

/-- Every element of the buffer is a byte. -/
def isBytes (l : List Nat) : Prop := ∀ x ∈ l, x < 256

instance (l : List Nat) : Decidable (isBytes l) := by
  unfold isBytes; exact inferInstance

/-! ## Error codes (`flutter_bspatch.h`) -/

def BSPATCH_SUCCESS : Int := 0
def BSPATCH_ERROR_INVALID_PATCH : Int := -1
def BSPATCH_ERROR_CORRUPT_PATCH : Int := -2
def BSPATCH_ERROR_MEMORY : Int := -3
def BSPATCH_ERROR_IO : Int := -4
def BSPATCH_ERROR_SIZE_MISMATCH : Int := -5

/-! ## Magic markers and header sizes -/

/-- The bytes of `"BSDIFF40"`. -/
def BSPATCH_MAGIC_40 : List Nat := [66, 83, 68, 73, 70, 70, 52, 48]

/-- The bytes of `"ENDSLEY/BSDIFF43"`. -/
def BSPATCH_MAGIC_43 : List Nat :=
  [69, 78, 68, 83, 76, 69, 89, 47, 66, 83, 68, 73, 70, 70, 52, 51]

def HEADER_SIZE_40 : Int := 32
def HEADER_SIZE_43 : Int := 24

/-! ## `read_offset` -/

/-- The byte `buf[i]`. -/
def byteAt (buf : List Nat) (i : Nat) : Nat := buf.getD i 0

/-- One line `y = y * 256; y += b;` of `read_offset`, in `int64_t` arithmetic. -/
def shift_add (y : Int) (b : Nat) : Int := wrap64 (wrap64 (y * 256) + (b : Int))

/-- The value of `y` in `read_offset(buf + off)` before the sign is applied. -/
def read_offset_magnitude (buf : List Nat) (off : Nat) : Int :=
  let y : Int := ((byteAt buf (off + 7) &&& 0x7F : Nat) : Int)
  let y := shift_add y (byteAt buf (off + 6))
  let y := shift_add y (byteAt buf (off + 5))
  let y := shift_add y (byteAt buf (off + 4))
  let y := shift_add y (byteAt buf (off + 3))
  let y := shift_add y (byteAt buf (off + 2))
  let y := shift_add y (byteAt buf (off + 1))
  let y := shift_add y (byteAt buf off)
  y

/-- The function `read_offset(buf + off)`. -/
def read_offset (buf : List Nat) (off : Nat) : Int :=
  let y := read_offset_magnitude buf off
  if byteAt buf (off + 7) &&& 0x80 ≠ 0 then wrap64 (-y) else y

/-- The exact (unwrapped) results of the two operations of one line
`y = y * 256; y += b;` started from the stored value `y`. -/
def shift_add_exact (y : Int) (b : Nat) : List Int := [y * 256, wrap64 (y * 256) + (b : Int)]

/-- The exact results of all `int64_t` operations `read_offset(buf + off)`
performs, in program order, each computed from the stored operands. -/
def read_offset_exact (buf : List Nat) (off : Nat) : List Int :=
  let y0 : Int := ((byteAt buf (off + 7) &&& 0x7F : Nat) : Int)
  let y1 := shift_add y0 (byteAt buf (off + 6))
  let y2 := shift_add y1 (byteAt buf (off + 5))
  let y3 := shift_add y2 (byteAt buf (off + 4))
  let y4 := shift_add y3 (byteAt buf (off + 3))
  let y5 := shift_add y4 (byteAt buf (off + 2))
  let y6 := shift_add y5 (byteAt buf (off + 1))
  let y7 := shift_add y6 (byteAt buf off)
  shift_add_exact y0 (byteAt buf (off + 6)) ++ shift_add_exact y1 (byteAt buf (off + 5)) ++
  shift_add_exact y2 (byteAt buf (off + 4)) ++ shift_add_exact y3 (byteAt buf (off + 3)) ++
  shift_add_exact y4 (byteAt buf (off + 2)) ++ shift_add_exact y5 (byteAt buf (off + 1)) ++
  shift_add_exact y6 (byteAt buf off) ++
  (if byteAt buf (off + 7) &&& 0x80 ≠ 0 then [-y7] else [])

/-! ## `detect_format` and `bspatch_new_size` -/

inductive patch_format_t where
  | PATCH_FORMAT_UNKNOWN
  | PATCH_FORMAT_40
  | PATCH_FORMAT_43
deriving DecidableEq, Repr

open patch_format_t

/-- The function `detect_format`; `memcmp(p, m, k) == 0` compares the first `k` bytes. -/
def detect_format (patch_data : List Nat) (patch_size : Int) : patch_format_t :=
  if patch_size ≥ HEADER_SIZE_40 ∧ patch_data.take 8 = BSPATCH_MAGIC_40 then PATCH_FORMAT_40
  else if patch_size ≥ HEADER_SIZE_43 ∧ patch_data.take 16 = BSPATCH_MAGIC_43 then PATCH_FORMAT_43
  else PATCH_FORMAT_UNKNOWN

/-- The function `bspatch_new_size`; `none` is the null pointer. -/
def bspatch_new_size (patch_data : Option (List Nat)) (patch_size : Int) : Int :=
  match patch_data with
  | none => BSPATCH_ERROR_INVALID_PATCH
  | some p =>
    match detect_format p patch_size with
    | PATCH_FORMAT_40 =>
      let newsize := read_offset p 24
      if newsize < 0 then BSPATCH_ERROR_CORRUPT_PATCH else newsize
    | PATCH_FORMAT_43 =>
      let newsize := read_offset p 16
      if newsize < 0 then BSPATCH_ERROR_CORRUPT_PATCH else newsize
    | PATCH_FORMAT_UNKNOWN => BSPATCH_ERROR_INVALID_PATCH

/-! ## The decompression engine and the streams over a patch segment -/

/-- The status of a `BZ2_bzDecompress` call as the source tests it: `BZ_OK`,
`BZ_STREAM_END`, or any other value. -/
inductive bz_ret where
  | BZ_OK
  | BZ_STREAM_END
  | BZ_OTHER
deriving DecidableEq, Repr

open bz_ret

/-- Modelled from the spec: what one call of the block-decompression engine
(bzip2, kept under third_party and treated by the spec as a black box) does to
a stream: its status, its new internal state, how many of the offered input
bytes it consumed and the bytes it stored at `next_out`. -/
structure bz_step (σ : Type) where
  ret : bz_ret
  state : σ
  consumed : Nat
  produced : List Nat

/-- Modelled from the spec: the decompression engine. `init k` is the state
the `k`-th `BZ2_bzDecompressInit` of a run leaves in its stream (`none` when the
call does not return `BZ_OK`); `decompress s input avail_out` is one
`BZ2_bzDecompress` call on a stream in state `s` that is offered the bytes
`input` (`next_in[0 .. avail_in)`) and room for `avail_out` output bytes. -/
structure bz_engine (σ : Type) where
  init : Nat → Option σ
  decompress : σ → List Nat → Nat → bz_step σ

/-- A `bz_stream` together with the source segment it is fed from: the fields
`strm`, `data`, `size`, `pos` of `bz2_mem_context`, and one of the three groups
`*_strm`, `*_data`, `*_size`, `*_pos` of `bz2_40_context`. Pointers into the
patch buffer are offsets from `patch_data`. -/
structure mem_stream (σ : Type) where
  state : σ
  next_in : Int
  avail_in : Nat
  data : Int
  size : Int
  pos : Int
deriving DecidableEq

/-- The memory reachable from the output pointer `new_data`, by offset. -/
abbrev Mem := Int → Nat

/-- The bytes `bytes` stored at `mem[off], mem[off + 1], ...`. -/
def write_bytes (mem : Mem) (off : Int) (bytes : List Nat) : Mem :=
  fun j => if off ≤ j ∧ j < off + bytes.length then byteAt bytes (j - off).toNat else mem j

/-- The refill at the head of every pull loop:
`if (avail_in == 0 && pos < size) { chunk = min(4096, size - pos); ... }`. -/
def refill {σ : Type} (s : mem_stream σ) : mem_stream σ :=
  if s.avail_in = 0 ∧ s.pos < s.size then
    let remaining := wrap64 (s.size - s.pos)
    let chunk : Nat := if remaining > 4096 then 4096 else to_uint remaining
    { s with next_in := s.data + s.pos, avail_in := chunk, pos := wrap64 (s.pos + chunk) }
  else s

/-- One `BZ2_bzDecompress(&strm)` call with `avail_out` bytes of room: the engine
sees the bytes `next_in[0 .. avail_in)` of the patch buffer, takes at most
`avail_in` of them and stores at most `avail_out` bytes. Returns the status,
the stream afterwards and the bytes stored. -/
def BZ2_bzDecompress {σ : Type} (E : bz_engine σ) (patch : List Nat) (s : mem_stream σ)
    (avail_out : Nat) : bz_ret × mem_stream σ × List Nat :=
  let r := E.decompress s.state ((patch.drop s.next_in.toNat).take s.avail_in) avail_out
  let c := min r.consumed s.avail_in
  (r.ret, { s with state := r.state, next_in := s.next_in + c, avail_in := s.avail_in - c },
    r.produced.take avail_out)

/-- The pull loop `while (strm.avail_out > 0) { refill; ret = BZ2_bzDecompress;
if (ret != BZ_OK && ret != BZ_STREAM_END) fail; }` that `apply_bsdiff40` runs on
its control, diff and extra streams. `acc` are the bytes stored so far. The
result is `none` when the loop is still running after `fuel` engine calls, and
otherwise whether it ended normally, the stream, and all bytes stored. -/
def pull40 {σ : Type} (E : bz_engine σ) (patch : List Nat) :
    Nat → mem_stream σ → Nat → List Nat → Option (Bool × mem_stream σ × List Nat)
  | fuel, s, avail_out, acc =>
    if avail_out = 0 then some (true, s, acc)
    else match fuel with
      | 0 => none
      | fuel + 1 =>
        match BZ2_bzDecompress E patch (refill s) avail_out with
        | (ret, s1, out) =>
          if ret ≠ BZ_OK ∧ ret ≠ BZ_STREAM_END then some (false, s1, acc ++ out)
          else pull40 E patch fuel s1 (avail_out - out.length) (acc ++ out)

/-- The loop of `bz2_mem_read` after `avail_out = (unsigned int)length`: the
same loop with the extra test `if (ret == BZ_STREAM_END && avail_out > 0) return -1`. -/
def bz2_mem_read_loop {σ : Type} (E : bz_engine σ) (patch : List Nat) :
    Nat → mem_stream σ → Nat → List Nat → Option (Int × mem_stream σ × List Nat)
  | fuel, s, avail_out, acc =>
    if avail_out = 0 then some (0, s, acc)
    else match fuel with
      | 0 => none
      | fuel + 1 =>
        match BZ2_bzDecompress E patch (refill s) avail_out with
        | (ret, s1, out) =>
          if ret ≠ BZ_OK ∧ ret ≠ BZ_STREAM_END then some (-1, s1, acc ++ out)
          else if ret = BZ_STREAM_END ∧ avail_out - out.length > 0 then some (-1, s1, acc ++ out)
          else bz2_mem_read_loop E patch fuel s1 (avail_out - out.length) (acc ++ out)

/-- The function `bz2_mem_read(stream, buffer, length)` on the context `ctx`:
the return value, the context afterwards and the bytes stored at `buffer`. -/
def bz2_mem_read {σ : Type} (E : bz_engine σ) (patch : List Nat) (fuel : Nat)
    (ctx : mem_stream σ) (length : Int) : Option (Int × mem_stream σ × List Nat) :=
  bz2_mem_read_loop E patch fuel ctx (to_uint length) []

/-- A stream over the segment of `size` bytes at offset `data` of the patch
buffer, as it stands after `memset(&ctx, 0, sizeof(ctx))`, the assignments of
`data` and `size`, and an initialisation that left the engine in state `s0`. -/
def segment_stream {σ : Type} (s0 : σ) (data size : Int) : mem_stream σ :=
  { state := s0, next_in := 0, avail_in := 0, data := data, size := size, pos := 0 }

/-! ## `apply_bsdiff40` -/

/-- The three streams of `bz2_40_context`. -/
structure bz2_40_context (σ : Type) where
  ctrl : mem_stream σ
  diff : mem_stream σ
  extra : mem_stream σ

/-- The variables of the replay loop of `apply_bsdiff40`. -/
structure loop_state (σ : Type) where
  ctx : bz2_40_context σ
  oldpos : Int
  newpos : Int
  new_data : Mem

/-- How one pass through the body of `while (newpos < new_size)` ends:
`goto cleanup` with a value of `result`, or the end of the body. -/
inductive body_result (σ : Type) where
  | cleanup (result : Int) (st : loop_state σ)
  | next (st : loop_state σ)

/-- One round of the control loop `for (i = 0; i < 3; i++)`: pull 8 bytes into
`buf` and decode them; the value is `none` when the pull took the
`goto cleanup` branch. -/
def read_ctrl {σ : Type} (E : bz_engine σ) (patch : List Nat) (fuel : Nat) (s : mem_stream σ) :
    Option (Option Int × mem_stream σ) :=
  match pull40 E patch fuel s 8 [] with
  | none => none
  | some (false, s1, _) => some (none, s1)
  | some (true, s1, buf) => some (some (read_offset buf 0), s1)

/-- The loop `for (i = 0; i < ctrl[0]; i++) if (oldpos + i >= 0 && oldpos + i < old_size)
new_data[newpos + i] += old_data[oldpos + i];` with `count` rounds left, at index `i`. -/
def add_old (old_data : List Nat) (old_size oldpos newpos : Int) : Nat → Int → Mem → Mem
  | 0, _, mem => mem
  | count + 1, i, mem =>
    let mem1 : Mem :=
      if wrap64 (oldpos + i) ≥ 0 ∧ wrap64 (oldpos + i) < old_size then
        Function.update mem (wrap64 (newpos + i))
          ((mem (wrap64 (newpos + i)) + byteAt old_data (wrap64 (oldpos + i)).toNat) % 256)
      else mem
    add_old old_data old_size oldpos newpos count (wrap64 (i + 1)) mem1

/-- The body of `while (newpos < new_size)` in `apply_bsdiff40`. -/
def loop_body {σ : Type} (E : bz_engine σ) (patch old_data : List Nat) (old_size new_size : Int)
    (fuel : Nat) (st : loop_state σ) : Option (body_result σ) :=
  match read_ctrl E patch fuel st.ctx.ctrl with
  | none => none
  | some (none, c1) =>
    some (.cleanup BSPATCH_ERROR_CORRUPT_PATCH { st with ctx := { st.ctx with ctrl := c1 } })
  | some (some ctrl0, c1) =>
  match read_ctrl E patch fuel c1 with
  | none => none
  | some (none, c2) =>
    some (.cleanup BSPATCH_ERROR_CORRUPT_PATCH { st with ctx := { st.ctx with ctrl := c2 } })
  | some (some ctrl1, c2) =>
  match read_ctrl E patch fuel c2 with
  | none => none
  | some (none, c3) =>
    some (.cleanup BSPATCH_ERROR_CORRUPT_PATCH { st with ctx := { st.ctx with ctrl := c3 } })
  | some (some ctrl2, c3) =>
  if ctrl0 < 0 ∨ ctrl1 < 0 ∨ wrap64 (st.newpos + ctrl0) > new_size then
    some (.cleanup BSPATCH_ERROR_CORRUPT_PATCH { st with ctx := { st.ctx with ctrl := c3 } })
  else
  match pull40 E patch fuel st.ctx.diff (to_uint ctrl0) [] with
  | none => none
  | some (ok, d1, out) =>
  let mem1 := write_bytes st.new_data st.newpos out
  if ok = false then
    some (.cleanup BSPATCH_ERROR_CORRUPT_PATCH
      { st with ctx := { st.ctx with ctrl := c3, diff := d1 }, new_data := mem1 })
  else
  let mem2 := add_old old_data old_size st.oldpos st.newpos ctrl0.toNat 0 mem1
  let newpos := wrap64 (st.newpos + ctrl0)
  let oldpos := wrap64 (st.oldpos + ctrl0)
  if wrap64 (newpos + ctrl1) > new_size then
    some (.cleanup BSPATCH_ERROR_CORRUPT_PATCH
      { ctx := { st.ctx with ctrl := c3, diff := d1 }, oldpos := oldpos, newpos := newpos,
        new_data := mem2 })
  else
  match pull40 E patch fuel st.ctx.extra (to_uint ctrl1) [] with
  | none => none
  | some (ok, e1, out) =>
  let mem3 := write_bytes mem2 newpos out
  if ok = false then
    some (.cleanup BSPATCH_ERROR_CORRUPT_PATCH
      { ctx := { ctrl := c3, diff := d1, extra := e1 }, oldpos := oldpos, newpos := newpos,
        new_data := mem3 })
  else
    some (.next
      { ctx := { ctrl := c3, diff := d1, extra := e1 }, oldpos := wrap64 (oldpos + ctrl2),
        newpos := wrap64 (newpos + ctrl1), new_data := mem3 })

/-- The loop `while (newpos < new_size) { ... }` followed by `cleanup:`; every
pull may use `fuel` engine calls and the loop has `rounds` passes left. The
result is `none` when that does not suffice, otherwise `result` and the final
state. -/
def replay {σ : Type} (E : bz_engine σ) (patch old_data : List Nat) (old_size new_size : Int)
    (fuel : Nat) : Nat → loop_state σ → Option (Int × loop_state σ)
  | rounds, st =>
    if ¬ st.newpos < new_size then some (BSPATCH_SUCCESS, st)
    else match rounds with
      | 0 => none
      | rounds + 1 =>
        match loop_body E patch old_data old_size new_size fuel st with
        | none => none
        | some (.cleanup result st1) => some (result, st1)
        | some (.next st1) => replay E patch old_data old_size new_size fuel rounds st1

/-- The function `apply_bsdiff40`: its return value and the output memory, or
`none` when it has not returned within the fuel. -/
def apply_bsdiff40 {σ : Type} (E : bz_engine σ) (fuel : Nat) (old_data : List Nat)
    (old_size : Int) (patch_data : List Nat) (patch_size : Int) (new_data : Mem)
    (new_size : Int) : Option (Int × Mem) :=
  let ctrl_len := read_offset patch_data 8
  let diff_len := read_offset patch_data 16
  if ctrl_len < 0 ∨ diff_len < 0 then some (BSPATCH_ERROR_CORRUPT_PATCH, new_data)
  else
  let ctrl_block : Int := 32
  let diff_block : Int := ctrl_block + ctrl_len
  let extra_block : Int := diff_block + diff_len
  let extra_len := wrap64 (wrap64 (wrap64 (patch_size - 32) - ctrl_len) - diff_len)
  if extra_len < 0 then some (BSPATCH_ERROR_CORRUPT_PATCH, new_data)
  else
  match E.init 0, E.init 1, E.init 2 with
  | some s0, some s1, some s2 =>
    let ctx : bz2_40_context σ :=
      { ctrl := segment_stream s0 ctrl_block ctrl_len,
        diff := segment_stream s1 diff_block diff_len,
        extra := segment_stream s2 extra_block extra_len }
    match replay E patch_data old_data old_size new_size fuel fuel
        { ctx := ctx, oldpos := 0, newpos := 0, new_data := new_data } with
    | none => none
    | some (result, st) => some (result, st.new_data)
  | _, _, _ => some (BSPATCH_ERROR_MEMORY, new_data)

/-! ## `apply_bsdiff43` and `bspatch_apply_bytes` -/

/-- The type of the routine `bspatch(old, oldsize, new, newsize, stream)` of
third_party/bsdiff, which is not part of the sources at hand: it is given the
old data, the output memory and size, the `read` callback of the stream and
the callback's context, and yields its return value and the output memory
(`none` when it does not return). -/
abbrev bspatch_fn (σ : Type) :=
  List Nat → Int → Mem → Int →
    (mem_stream σ → Int → Option (Int × mem_stream σ × List Nat)) → mem_stream σ →
    Option (Int × Mem)

/-- The function `apply_bsdiff43`. -/
def apply_bsdiff43 {σ : Type} (E : bz_engine σ) (bspatch : bspatch_fn σ) (fuel : Nat)
    (old_data : List Nat) (old_size : Int) (patch_data : List Nat) (patch_size : Int)
    (new_data : Mem) (new_size : Int) : Option (Int × Mem) :=
  match E.init 0 with
  | none => some (BSPATCH_ERROR_MEMORY, new_data)
  | some s0 =>
    let ctx : mem_stream σ := segment_stream s0 HEADER_SIZE_43 (wrap64 (patch_size - HEADER_SIZE_43))
    match bspatch old_data old_size new_data new_size (bz2_mem_read E patch_data fuel) ctx with
    | none => none
    | some (result, mem) =>
      some (if result ≠ 0 then BSPATCH_ERROR_CORRUPT_PATCH else BSPATCH_SUCCESS, mem)

/-- What a call of `bspatch_apply_bytes` leaves behind: the return value, the
output memory and the value of `*new_size`. -/
structure apply_result where
  ret : Int
  new_data : Mem
  new_size : Int

/-- The function `bspatch_apply_bytes` behind its null-pointer test. -/
def bspatch_apply_bytes_nonnull {σ : Type} (E : bz_engine σ) (bspatch : bspatch_fn σ)
    (fuel : Nat) (old_data : List Nat) (old_size : Int) (patch_data : List Nat)
    (patch_size : Int) (new_data : Mem) (new_size : Int) : Option apply_result :=
  let expected_size := bspatch_new_size (some patch_data) patch_size
  if expected_size < 0 then some ⟨wrap32 expected_size, new_data, new_size⟩
  else if new_size < expected_size then
    some ⟨BSPATCH_ERROR_SIZE_MISMATCH, new_data, expected_size⟩
  else
    let run : Option (Option (Int × Mem)) :=
      match detect_format patch_data patch_size with
      | PATCH_FORMAT_40 =>
        some (apply_bsdiff40 E fuel old_data old_size patch_data patch_size new_data expected_size)
      | PATCH_FORMAT_43 =>
        some (apply_bsdiff43 E bspatch fuel old_data old_size patch_data patch_size new_data
          expected_size)
      | PATCH_FORMAT_UNKNOWN => none
    match run with
    | none => some ⟨BSPATCH_ERROR_INVALID_PATCH, new_data, new_size⟩
    | some none => none
    | some (some (result, mem)) =>
      some ⟨result, mem, if result = BSPATCH_SUCCESS then expected_size else new_size⟩

/-- The function `bspatch_apply_bytes`; a `none` argument is a null pointer
(`new_data` and `new_size` then have nothing to report, so the result carries
the memory and size of the non-null case only). `none` as a result means the
call has not returned within the fuel. -/
def bspatch_apply_bytes {σ : Type} (E : bz_engine σ) (bspatch : bspatch_fn σ) (fuel : Nat)
    (old_data : Option (List Nat)) (old_size : Int) (patch_data : Option (List Nat))
    (patch_size : Int) (new_data : Option Mem) (new_size : Option Int) :
    Option (Int × Option Mem × Option Int) :=
  match old_data, patch_data, new_data, new_size with
  | some od, some pd, some nd, some ns =>
    (bspatch_apply_bytes_nonnull E bspatch fuel od old_size pd patch_size nd ns).map
      fun r => (r.ret, some r.new_data, some r.new_size)
  | _, _, _, _ => some (BSPATCH_ERROR_INVALID_PATCH, new_data, new_size)

/-! ## A small concrete engine

The claims quantify over the engine. To run the code on concrete patches a
tiny stored-block format is decoded: a stream is a length byte `n` followed by
`n` literal bytes. -/

/-- The state of the stored-block engine: before the length byte, inside a
block with `k` bytes to go, or after the end of the stream. -/
inductive stored_state where
  | header
  | body (k : Nat)
  | idle
deriving DecidableEq, Repr

open stored_state

/-- The stored-block engine at the start of a stream: it takes the length byte. -/
def stored_header (input : List Nat) : bz_step stored_state :=
  match input with
  | [] => ⟨BZ_OK, header, 0, []⟩
  | n :: _ => if n = 0 then ⟨BZ_STREAM_END, idle, 1, []⟩ else ⟨BZ_OK, body n, 1, []⟩

/-- One decompress call of the stored-block engine. At the end of the block it
reports `BZ_STREAM_END`. A call after the end of the stream reports an error
when `resume` is false (as a one-shot decoder does) and starts on the next
block when `resume` is true (a decoder of concatenated streams). -/
def stored_decompress (resume : Bool) (s : stored_state) (input : List Nat) (avail_out : Nat) :
    bz_step stored_state :=
  match s with
  | header => stored_header input
  | body k =>
    let m := min k (min input.length avail_out)
    ⟨if m = k then BZ_STREAM_END else BZ_OK, if m = k then idle else body (k - m), m, input.take m⟩
  | idle => if resume then stored_header input else ⟨BZ_OTHER, idle, 0, []⟩

/-- The stored-block engine; every initialisation succeeds. -/
def stored_engine (resume : Bool) : bz_engine stored_state :=
  { init := fun _ => some header, decompress := stored_decompress resume }

/-- A stand-in for the absent `bspatch` routine that fails at once. -/
def bspatch_stub : bspatch_fn stored_state := fun _ _ mem _ _ _ => some (-1, mem)

/-- The 8-byte sign-magnitude field holding a small non-negative `v < 256`. -/
def field (v : Nat) : List Nat := [v, 0, 0, 0, 0, 0, 0, 0]

/-- The return value of a finished call and the first `k` bytes of its output memory. -/
def observe (k : Nat) (r : Option (Int × Option Mem × Option Int)) :
    Option (Int × List Nat × Option Int) :=
  match r with
  | some (ret, some mem, sz) => some (ret, (List.range k).map (fun i => mem i), sz)
  | _ => none

/-- A BSDIFF40 patch turning `hello` into `world`. -/
def hello_patch : List Nat :=
  BSPATCH_MAGIC_40 ++ field 25 ++ field 6 ++ field 5 ++
  ([24] ++ field 5 ++ field 0 ++ field 0) ++
  [5, (119 + 256 - 104) % 256, (111 + 256 - 101) % 256, (114 + 256 - 108) % 256,
      (108 + 256 - 108) % 256, (100 + 256 - 111) % 256] ++
  [0]

/-! ## The offset codec as the specification words it -/

/-- The magnitude `b[0] + 256 b[1] + ... + 256^6 b[6] + 256^7 (b[7] mod 128)` of an
8-byte field, as the specification of the codec states it. -/
def spec_magnitude (b : List Nat) : Int :=
  (byteAt b 0 : Int) + 256 * (byteAt b 1 : Int) + 65536 * (byteAt b 2 : Int)
    + 16777216 * (byteAt b 3 : Int) + 4294967296 * (byteAt b 4 : Int)
    + 1099511627776 * (byteAt b 5 : Int) + 281474976710656 * (byteAt b 6 : Int)
    + 72057594037927936 * ((byteAt b 7 % 128 : Nat) : Int)

/-- Modelled from the spec: the encoder of the offset codec, which the sources
at hand do not contain ("`encode` is the inverse" of the decoder): the
magnitude of `x` in the low 63 bits, little-endian, and the sign of `x` in the
top bit of the last byte. -/
def encode_offset (x : Int) : List Nat :=
  let m := x.natAbs
  [m % 256, m / 256 % 256, m / 65536 % 256, m / 16777216 % 256, m / 4294967296 % 256,
   m / 1099511627776 % 256, m / 281474976710656 % 256,
   m / 72057594037927936 % 128 + (if x < 0 then 128 else 0)]

/-- The encoding of zero. -/
def zero_field : List Nat := [0, 0, 0, 0, 0, 0, 0, 0]

/-- The encoding of negative zero: zero magnitude with the sign bit set. -/
def negative_zero_field : List Nat := [0, 0, 0, 0, 0, 0, 0, 128]

/-- The field `FF FF FF FF FF FF FF 7F`, which decodes to `2^63 - 1`. -/
def max_field : List Nat := [255, 255, 255, 255, 255, 255, 255, 127]

/-- A 32-byte BSDIFF40 header declaring control and diff segments of `2^63 - 1`
bytes each and an output of 0 bytes, with no payload. -/
def overflow_patch : List Nat := BSPATCH_MAGIC_40 ++ max_field ++ max_field ++ field 0

/-- A BSDIFF40 patch for a 2-byte output whose control stream holds the tuples
`(1, 0, 0)` and `(2^63 - 1, 0, 0)` and whose diff stream holds the bytes 7, 8, 9. -/
def overshoot_patch : List Nat :=
  BSPATCH_MAGIC_40 ++ field 49 ++ field 4 ++ field 2 ++
  ([48] ++ field 1 ++ field 0 ++ field 0 ++ max_field ++ field 0 ++ field 0) ++
  [3, 7, 8, 9] ++
  [0]

/-- The `hello` to `world` patch with its control segment cut into two
streams: the first ends after 4 of the 24 control bytes. -/
def short_ctrl_patch : List Nat :=
  BSPATCH_MAGIC_40 ++ field 26 ++ field 6 ++ field 5 ++
  ([4, 5, 0, 0, 0] ++ [20, 0, 0, 0, 0] ++ field 0 ++ field 0) ++
  [5, (119 + 256 - 104) % 256, (111 + 256 - 101) % 256, (114 + 256 - 108) % 256,
      (108 + 256 - 108) % 256, (100 + 256 - 111) % 256] ++
  [0]

/-- The loop state a pass through the body ends in. -/
def body_result.state {σ : Type} : body_result σ → loop_state σ
  | .cleanup _ st => st
  | .next st => st

/-- A BSDIFF40 patch for a 6-byte output over 4 bytes of old data: the tuple
`(2, 0, -4)` leaves `oldpos` at -2, the tuple `(4, 0, 0)` then copies two bytes
with `oldpos + i < 0` and two with `oldpos + i` back in range. The diff bytes
are 10, 20, 30, 40, 50, 60. -/
def rewind_patch : List Nat :=
  BSPATCH_MAGIC_40 ++ field 49 ++ field 7 ++ field 6 ++
  ([48] ++ field 2 ++ field 0 ++ [4, 0, 0, 0, 0, 0, 0, 128] ++ field 4 ++ field 0 ++ field 0) ++
  [6, 10, 20, 30, 40, 50, 60] ++
  [0]

/-- The loop state of `apply_bsdiff40` on `rewind_patch` and the old data
1, 2, 3, 4 after the first pass through the loop body. -/
def rewind_state : loop_state stored_state :=
  { ctx :=
      { ctrl := { state := body 24, next_in := 57, avail_in := 24, data := 32, size := 49,
                  pos := 49 },
        diff := { state := body 4, next_in := 84, avail_in := 4, data := 81, size := 7,
                  pos := 7 },
        extra := segment_stream header 88 1 },
    oldpos := -2, newpos := 2,
    new_data := fun j => if j = 0 then 11 else if j = 1 then 22 else 0 }

/-! ## Predicates used to state the claims -/

/-- Within `budget` further engine calls the stream hands out exactly the
bytes `pending`, in order: as long as bytes are pending, a decompress call with
room for `k` bytes (`1 ≤ k ≤` number of pending bytes) reports `BZ_OK` or
`BZ_STREAM_END` and stores some, possibly none, of the next pending bytes. This
is what "the decompressed stream of the segment is `pending`" says of an
engine that is a black box. -/
def stream_yields {σ : Type} (E : bz_engine σ) (patch : List Nat) :
    Nat → mem_stream σ → List Nat → Prop
  | _, _, [] => True
  | 0, _, _ :: _ => False
  | budget + 1, s, d :: ds =>
    ∀ k : Nat, 0 < k → k ≤ (d :: ds).length →
      (BZ2_bzDecompress E patch (refill s) k).1 ≠ BZ_OTHER ∧
      (BZ2_bzDecompress E patch (refill s) k).2.2 =
        (d :: ds).take (BZ2_bzDecompress E patch (refill s) k).2.2.length ∧
      stream_yields E patch budget (BZ2_bzDecompress E patch (refill s) k).2.1
        ((d :: ds).drop (BZ2_bzDecompress E patch (refill s) k).2.2.length)

/-- The byte-wise difference `new[i] - old[i]` modulo 256. -/
def byte_diff (new old : List Nat) : List Nat :=
  List.zipWith (fun n o => (n + 256 - o) % 256) new old

/-! ## `bspatch_error_string` -/

/-- The function `bspatch_error_string`. -/
def bspatch_error_string (error_code : Int) : String :=
  if error_code = BSPATCH_SUCCESS then "Success"
  else if error_code = BSPATCH_ERROR_INVALID_PATCH then "Invalid patch file"
  else if error_code = BSPATCH_ERROR_CORRUPT_PATCH then "Corrupt patch file"
  else if error_code = BSPATCH_ERROR_MEMORY then "Memory allocation failed"
  else if error_code = BSPATCH_ERROR_IO then "I/O error"
  else if error_code = BSPATCH_ERROR_SIZE_MISMATCH then "Buffer size mismatch"
  else "Unknown error"

/-! ## The reads of the old data, checked -/

/-- The read `old_data[index]` of a buffer that holds `old_size` bytes, with the
bounds of the buffer checked: `none` when the index lies outside
`[0, old_size)` or outside the buffer. -/
def old_read (old_data : List Nat) (old_size : Int) (index : Int) : Option Nat :=
  if 0 ≤ index ∧ index < old_size ∧ index.toNat < old_data.length then
    some (byteAt old_data index.toNat)
  else none

/-- The addition loop `for (i = 0; i < ctrl[0]; i++) if (oldpos + i >= 0 && oldpos + i < old_size)
new_data[newpos + i] += old_data[oldpos + i];` with its one read of `old_data`
done by `old_read`: `none` when a read is out of bounds. -/
def add_old_checked (old_data : List Nat) (old_size oldpos newpos : Int) :
    Nat → Int → Mem → Option Mem
  | 0, _, mem => some mem
  | count + 1, i, mem =>
    if wrap64 (oldpos + i) ≥ 0 ∧ wrap64 (oldpos + i) < old_size then
      match old_read old_data old_size (wrap64 (oldpos + i)) with
      | none => none
      | some b =>
        add_old_checked old_data old_size oldpos newpos count (wrap64 (i + 1))
          (Function.update mem (wrap64 (newpos + i)) ((mem (wrap64 (newpos + i)) + b) % 256))
    else add_old_checked old_data old_size oldpos newpos count (wrap64 (i + 1)) mem

/-- A BSDIFF40 patch of 60 bytes that declares an output of 2^32 bytes and
holds the single control tuple `(2^32, 0, 0)`; its diff stream holds one byte
and its extra stream none. -/
def big_copy_patch : List Nat :=
  BSPATCH_MAGIC_40 ++ field 25 ++ field 2 ++ [0, 0, 0, 0, 1, 0, 0, 0] ++
  ([24] ++ [0, 0, 0, 0, 1, 0, 0, 0] ++ field 0 ++ field 0) ++
  [1, 99] ++
  [0]

/-- One decompress call of a stored-block engine that takes the end of its
input for the end of the stream: with no input at hand, or after the end of
the stream, it reports `BZ_STREAM_END` and does nothing else. -/
def sticky_decompress (s : stored_state) (input : List Nat) (avail_out : Nat) :
    bz_step stored_state :=
  if s = idle ∨ input = [] then ⟨BZ_STREAM_END, idle, 0, []⟩
  else stored_decompress false s input avail_out

/-- The stored-block engine with `sticky_decompress`. -/
def sticky_engine : bz_engine stored_state :=
  { init := fun _ => some header, decompress := sticky_decompress }

/-- A BSDIFF40 patch of 36 bytes that declares an output of 5 bytes and whose
control segment is cut short: its block announces 24 bytes and the segment ends
after 3 of them. -/
def truncated_patch : List Nat :=
  BSPATCH_MAGIC_40 ++ field 4 ++ field 0 ++ field 5 ++ [24, 5, 0, 0]

/-- Every decompress call of the engine that is given room for output makes
progress: it takes input, stores output, or reports something other than
`BZ_OK` (the end of the stream or an error). -/
def makes_progress {σ : Type} (E : bz_engine σ) : Prop :=
  ∀ (s : σ) (input : List Nat) (avail_out : Nat), 0 < avail_out →
    (E.decompress s input avail_out).ret = BZ_OK →
    0 < min (E.decompress s input avail_out).consumed input.length ∨
    0 < ((E.decompress s input avail_out).produced.take avail_out).length

/-! ## The replay as the specification words it -/

/-- The first `n` control tuples `(copyLen, insertLen, oldSkip)` of a
decompressed control stream: three 8-byte offsets each. -/
def control_tuples (ctrl : List Nat) : Nat → List (Int × Int × Int)
  | 0 => []
  | n + 1 =>
    (read_offset ctrl 0, read_offset ctrl 8, read_offset ctrl 16) ::
      control_tuples (ctrl.drop 24) n

/-- The `copyLen` bytes a tuple reconstructs, as the specification states them:
byte `j` is the diff byte plus `old[oldpos + j]` modulo 256 when
`0 ≤ oldpos + j < old_size`, and the diff byte otherwise. -/
def reference_copy (old_data : List Nat) (old_size oldpos : Int) (diff : List Nat)
    (copyLen : Nat) : List Nat :=
  (List.range copyLen).map fun (j : Nat) =>
    if 0 ≤ oldpos + (j : Int) ∧ oldpos + (j : Int) < old_size then
      (byteAt diff j + byteAt old_data (oldpos + (j : Int)).toNat) % 256
    else byteAt diff j

/-- The output of the replay, as the specification states it: tuple by tuple,
the `copyLen` reconstructed bytes followed by `insertLen` bytes of the extra
stream; the diff and extra streams are used up in order, and the old cursor, a
signed 64-bit value, moves on by `copyLen + oldSkip`. -/
def reference_replay (old_data : List Nat) (old_size : Int) :
    List (Int × Int × Int) → Int → List Nat → List Nat → List Nat
  | [], _, _, _ => []
  | (copyLen, insertLen, oldSkip) :: ts, oldpos, diff, extra =>
    reference_copy old_data old_size oldpos diff copyLen.toNat ++ extra.take insertLen.toNat ++
      reference_replay old_data old_size ts (wrap64 (oldpos + (copyLen + oldSkip)))
        (diff.drop copyLen.toNat) (extra.drop insertLen.toNat)

/-- The sum of the copy lengths of the tuples. -/
def copy_total (ts : List (Int × Int × Int)) : Int := (ts.map fun t => t.1).sum

/-- The sum of the insert lengths of the tuples. -/
def insert_total (ts : List (Int × Int × Int)) : Int := (ts.map fun t => t.2.1).sum

/-- Every tuple has copy and insert lengths in `[0, 2^32)`. -/
def tuples_valid (ts : List (Int × Int × Int)) : Prop :=
  ∀ t ∈ ts, 0 ≤ t.1 ∧ t.1 < 4294967296 ∧ 0 ≤ t.2.1 ∧ t.2.1 < 4294967296

instance (ts : List (Int × Int × Int)) : Decidable (tuples_valid ts) := by
  unfold tuples_valid; exact inferInstance

/-- The 48 bytes of the control tuples `(2, 1, -4)` and `(3, 0, 0)`. -/
def mixed_ctrl : List Nat :=
  field 2 ++ field 1 ++ [4, 0, 0, 0, 0, 0, 0, 128] ++ field 3 ++ field 0 ++ field 0

/-- The diff bytes of `mixed_patch`. -/
def mixed_diff : List Nat := [10, 20, 30, 40, 50]

/-- The extra bytes of `mixed_patch`. -/
def mixed_extra : List Nat := [77]

/-- A BSDIFF40 patch for a 6-byte output with the control tuples `(2, 1, -4)`
and `(3, 0, 0)`, the diff bytes 10, 20, 30, 40, 50 and the extra byte 77. -/
def mixed_patch : List Nat :=
  BSPATCH_MAGIC_40 ++ field 49 ++ field 6 ++ field 6 ++
  ([48] ++ mixed_ctrl) ++ ([5] ++ mixed_diff) ++ ([1] ++ mixed_extra)

/-! ## End of stream with output missing -/

theorem wrap64_of_inInt64 {x : Int} (h : inInt64 x) : wrap64 x = x := by
  unfold inInt64 at h; unfold wrap64; omega

theorem wrap64_inInt64 (x : Int) : inInt64 (wrap64 x) := by
  unfold inInt64 wrap64; omega

theorem land_127 (b : Nat) : b &&& 0x7F = b % 128 := by
  have := Nat.and_pow_two_sub_one_eq_mod b 7
  simpa using this

set_option maxRecDepth 100000 in
theorem land_128 (b : Nat) (hb : b < 256) : (b &&& 0x80 ≠ 0) ↔ 128 ≤ b := by
  revert b; decide

theorem list_length_eight (b : List Nat) (hl : b.length = 8) :
    ∃ b0 b1 b2 b3 b4 b5 b6 b7, b = [b0, b1, b2, b3, b4, b5, b6, b7] := by
  match b, hl with
  | [b0, b1, b2, b3, b4, b5, b6, b7], _ => exact ⟨b0, b1, b2, b3, b4, b5, b6, b7, rfl⟩

/-! ## `read_offset` -/

theorem shift_add_eq (y : Int) (b : Nat) (hy0 : 0 ≤ y) (hy : y < 36028797018963968)
    (hb : b < 256) : shift_add y b = y * 256 + b := by
  unfold shift_add wrap64; omega

/-- The magnitude computed by `read_offset` on eight bytes at offset 0. -/
theorem read_offset_magnitude_eq (b0 b1 b2 b3 b4 b5 b6 b7 : Nat) (h0 : b0 < 256) (h1 : b1 < 256)
    (h2 : b2 < 256) (h3 : b3 < 256) (h4 : b4 < 256) (h5 : b5 < 256) (h6 : b6 < 256) :
    read_offset_magnitude [b0, b1, b2, b3, b4, b5, b6, b7] 0 =
      spec_magnitude [b0, b1, b2, b3, b4, b5, b6, b7] := by
  simp only [read_offset_magnitude, spec_magnitude, byteAt, List.getD_cons_succ,
    List.getD_cons_zero, Nat.zero_add, land_127]
  have h7 : b7 % 128 < 128 := Nat.mod_lt _ (by norm_num)
  generalize b7 % 128 = c at *
  rw [shift_add_eq _ _ (by omega) (by omega) h6]
  rw [shift_add_eq _ _ (by omega) (by omega) h5]
  rw [shift_add_eq _ _ (by omega) (by omega) h4]
  rw [shift_add_eq _ _ (by omega) (by omega) h3]
  rw [shift_add_eq _ _ (by omega) (by omega) h2]
  rw [shift_add_eq _ _ (by omega) (by omega) h1]
  rw [shift_add_eq _ _ (by omega) (by omega) h0]
  omega

theorem spec_magnitude_bounds (b0 b1 b2 b3 b4 b5 b6 b7 : Nat) (h0 : b0 < 256) (h1 : b1 < 256)
    (h2 : b2 < 256) (h3 : b3 < 256) (h4 : b4 < 256) (h5 : b5 < 256) (h6 : b6 < 256) :
    0 ≤ spec_magnitude [b0, b1, b2, b3, b4, b5, b6, b7] ∧
      spec_magnitude [b0, b1, b2, b3, b4, b5, b6, b7] ≤ 9223372036854775807 := by
  simp only [spec_magnitude, byteAt, List.getD_cons_succ, List.getD_cons_zero]
  have h7 : b7 % 128 < 128 := Nat.mod_lt _ (by norm_num)
  omega

/-- The value of `read_offset` on eight bytes at offset 0. -/
theorem read_offset_eq (b0 b1 b2 b3 b4 b5 b6 b7 : Nat) (h0 : b0 < 256) (h1 : b1 < 256)
    (h2 : b2 < 256) (h3 : b3 < 256) (h4 : b4 < 256) (h5 : b5 < 256) (h6 : b6 < 256)
    (h7 : b7 < 256) :
    read_offset [b0, b1, b2, b3, b4, b5, b6, b7] 0 =
      if b7 < 128 then spec_magnitude [b0, b1, b2, b3, b4, b5, b6, b7]
      else -spec_magnitude [b0, b1, b2, b3, b4, b5, b6, b7] := by
  have hm := read_offset_magnitude_eq b0 b1 b2 b3 b4 b5 b6 b7 h0 h1 h2 h3 h4 h5 h6
  have hb := spec_magnitude_bounds b0 b1 b2 b3 b4 b5 b6 b7 h0 h1 h2 h3 h4 h5 h6
  have hs : byteAt [b0, b1, b2, b3, b4, b5, b6, b7] (0 + 7) = b7 := rfl
  unfold read_offset
  simp only [hm, hs]
  by_cases hlt : b7 < 128
  · have : ¬ (b7 &&& 0x80 ≠ 0) := by rw [land_128 b7 h7]; omega
    rw [if_neg this, if_pos hlt]
  · have : b7 &&& 0x80 ≠ 0 := by rw [land_128 b7 h7]; omega
    rw [if_pos this, if_neg hlt]
    apply wrap64_of_inInt64
    unfold inInt64; omega

theorem read_offset_exact_inInt64 (b0 b1 b2 b3 b4 b5 b6 b7 : Nat) (h0 : b0 < 256)
    (h1 : b1 < 256) (h2 : b2 < 256) (h3 : b3 < 256) (h4 : b4 < 256) (h5 : b5 < 256)
    (h6 : b6 < 256) :
    ∀ v ∈ read_offset_exact [b0, b1, b2, b3, b4, b5, b6, b7] 0, inInt64 v := by
  simp only [read_offset_exact, shift_add_exact, byteAt, List.getD_cons_succ,
    List.getD_cons_zero, Nat.zero_add, land_127]
  have h7 : b7 % 128 < 128 := Nat.mod_lt _ (by norm_num)
  generalize b7 % 128 = c at *
  rw [shift_add_eq _ _ (by omega) (by omega) h6]
  rw [shift_add_eq _ _ (by omega) (by omega) h5]
  rw [shift_add_eq _ _ (by omega) (by omega) h4]
  rw [shift_add_eq _ _ (by omega) (by omega) h3]
  rw [shift_add_eq _ _ (by omega) (by omega) h2]
  rw [shift_add_eq _ _ (by omega) (by omega) h1]
  rw [shift_add_eq _ _ (by omega) (by omega) h0]
  have hlast : ∀ (l : List Int), (∀ v ∈ l, inInt64 v) →
      ∀ v ∈ (if b7 &&& 0x80 ≠ 0 then l else []), inInt64 v := by
    intro l hl v hv
    split at hv
    · exact hl v hv
    · simp at hv
  simp only [List.forall_mem_append, List.forall_mem_cons, List.not_mem_nil, false_implies,
    implies_true, and_true]
  refine ⟨⟨⟨⟨⟨⟨⟨⟨?_, ?_⟩, ?_, ?_⟩, ?_, ?_⟩, ?_, ?_⟩, ?_, ?_⟩, ?_, ?_⟩, ?_, ?_⟩, hlast _ ?_⟩
  all_goals first
    | (unfold inInt64 wrap64; omega)
    | (unfold inInt64; omega)
    | (intro v hv; simp only [List.mem_singleton] at hv; subst hv; unfold inInt64; omega)

/-- C7: `read_offset` decodes sign-magnitude. For every 8-byte input `b` with
magnitude `m = b[0] + 256 b[1] + ... + 256^6 b[6] + 256^7 (b[7] mod 128)` the
result is `m` when the top bit of `b[7]` is clear and `-m` when it is set; a
zero magnitude decodes to 0 whatever the sign bit; the result lies in
`[-(2^63 - 1), 2^63 - 1]`; and the exact result of every intermediate
`int64_t` operation is representable, so none overflows. -/
theorem read_offset_sign_magnitude (b : List Nat) (hl : b.length = 8) (hb : isBytes b) :
    read_offset b 0 = (if byteAt b 7 < 128 then spec_magnitude b else -spec_magnitude b) ∧
    (spec_magnitude b = 0 → read_offset b 0 = 0) ∧
    (-9223372036854775807 ≤ read_offset b 0 ∧ read_offset b 0 ≤ 9223372036854775807) ∧
    (∀ v ∈ read_offset_exact b 0, inInt64 v) := by
  obtain ⟨b0, b1, b2, b3, b4, b5, b6, b7, rfl⟩ := list_length_eight b hl
  have h0 : b0 < 256 := hb b0 (by simp)
  have h1 : b1 < 256 := hb b1 (by simp)
  have h2 : b2 < 256 := hb b2 (by simp)
  have h3 : b3 < 256 := hb b3 (by simp)
  have h4 : b4 < 256 := hb b4 (by simp)
  have h5 : b5 < 256 := hb b5 (by simp)
  have h6 : b6 < 256 := hb b6 (by simp)
  have h7 : b7 < 256 := hb b7 (by simp)
  have hr := read_offset_eq b0 b1 b2 b3 b4 b5 b6 b7 h0 h1 h2 h3 h4 h5 h6 h7
  have hm := spec_magnitude_bounds b0 b1 b2 b3 b4 b5 b6 b7 h0 h1 h2 h3 h4 h5 h6
  have hs : byteAt [b0, b1, b2, b3, b4, b5, b6, b7] 7 = b7 := rfl
  rw [hs, hr]
  refine ⟨rfl, ?_, ?_, read_offset_exact_inInt64 b0 b1 b2 b3 b4 b5 b6 b7 h0 h1 h2 h3 h4 h5 h6⟩
  · intro hz; rw [hz]; simp
  · split <;> omega

/-- C7 at the field `05 01 00 00 00 00 00 80`, which decodes to `-261`. -/
theorem read_offset_sign_magnitude_witness :
    read_offset [5, 1, 0, 0, 0, 0, 0, 128] 0 = -261 ∧
    (∀ v ∈ read_offset_exact [5, 1, 0, 0, 0, 0, 0, 128] 0, inInt64 v) := by
  have h := read_offset_sign_magnitude [5, 1, 0, 0, 0, 0, 0, 128] (by decide) (by decide)
  refine ⟨?_, h.2.2.2⟩
  rw [h.1]; decide

/-- Decoding the encoding of `x` gives `x` back, for every `x` the codec can hold. -/
theorem read_offset_encode_offset (x : Int) (hlo : -9223372036854775807 ≤ x)
    (hhi : x ≤ 9223372036854775807) :
    (encode_offset x).length = 8 ∧ isBytes (encode_offset x) ∧
      read_offset (encode_offset x) 0 = x := by
  refine ⟨rfl, ?_, ?_⟩
  · intro v hv
    simp only [encode_offset, List.mem_cons, List.mem_singleton, List.not_mem_nil, or_false] at hv
    rcases hv with hv | hv | hv | hv | hv | hv | hv | hv <;> subst hv <;>
      first | omega | (split <;> omega)
  · unfold encode_offset
    rw [read_offset_eq _ _ _ _ _ _ _ _ (by omega) (by omega) (by omega) (by omega) (by omega)
      (by omega) (by omega) (by split <;> omega)]
    simp only [spec_magnitude, byteAt, List.getD_cons_succ, List.getD_cons_zero]
    by_cases hx : x < 0
    · simp only [hx, if_true]
      rw [if_neg (by omega)]
      omega
    · simp only [hx, if_false]
      rw [if_pos (by omega)]
      omega

/-- Encoding the decoding of `b` gives `b` back unless `b` is negative zero. -/
theorem encode_offset_read_offset (b : List Nat) (hl : b.length = 8) (hb : isBytes b)
    (hnz : b ≠ negative_zero_field) : encode_offset (read_offset b 0) = b := by
  obtain ⟨b0, b1, b2, b3, b4, b5, b6, b7, rfl⟩ := list_length_eight b hl
  have h0 : b0 < 256 := hb b0 (by simp)
  have h1 : b1 < 256 := hb b1 (by simp)
  have h2 : b2 < 256 := hb b2 (by simp)
  have h3 : b3 < 256 := hb b3 (by simp)
  have h4 : b4 < 256 := hb b4 (by simp)
  have h5 : b5 < 256 := hb b5 (by simp)
  have h6 : b6 < 256 := hb b6 (by simp)
  have h7 : b7 < 256 := hb b7 (by simp)
  rw [read_offset_eq b0 b1 b2 b3 b4 b5 b6 b7 h0 h1 h2 h3 h4 h5 h6 h7]
  simp only [spec_magnitude, byteAt, List.getD_cons_succ, List.getD_cons_zero]
  have hne : ¬ (b0 = 0 ∧ b1 = 0 ∧ b2 = 0 ∧ b3 = 0 ∧ b4 = 0 ∧ b5 = 0 ∧ b6 = 0 ∧ b7 = 128) := by
    rintro ⟨rfl, rfl, rfl, rfl, rfl, rfl, rfl, rfl⟩
    exact hnz rfl
  unfold encode_offset
  by_cases hlt : b7 < 128
  · rw [if_pos hlt]
    simp only [List.cons.injEq, and_true]
    refine ⟨?_, ?_, ?_, ?_, ?_, ?_, ?_, ?_⟩ <;> first | omega | (split <;> omega)
  · rw [if_neg hlt]
    simp only [List.cons.injEq, and_true]
    refine ⟨?_, ?_, ?_, ?_, ?_, ?_, ?_, ?_⟩ <;> first | omega | (split <;> omega)

/-- A field that decodes to zero is one of the two encodings of zero. -/
theorem read_offset_eq_zero (b : List Nat) (hl : b.length = 8) (hb : isBytes b)
    (hz : read_offset b 0 = 0) : b = zero_field ∨ b = negative_zero_field := by
  by_cases hnz : b = negative_zero_field
  · exact Or.inr hnz
  · left
    rw [← encode_offset_read_offset b hl hb hnz, hz]
    rfl

/-- C8: `read_offset` is a bijection from 8-byte fields onto the integers of
`[-(2^63 - 1), 2^63 - 1]` except for negative zero. Two fields with the same
decoding are equal or are both encodings of zero (all magnitude bits zero,
differing only in the sign bit); every integer of the range is the decoding of
some field; and the sign-magnitude encoder returns every field other than
negative zero from its decoding. -/
theorem read_offset_bijection :
    (∀ a b : List Nat, a.length = 8 → b.length = 8 → isBytes a → isBytes b →
      read_offset a 0 = read_offset b 0 →
      a = b ∨ ((a = zero_field ∨ a = negative_zero_field) ∧
        (b = zero_field ∨ b = negative_zero_field))) ∧
    (∀ x : Int, -9223372036854775807 ≤ x → x ≤ 9223372036854775807 →
      ∃ a : List Nat, a.length = 8 ∧ isBytes a ∧ read_offset a 0 = x) ∧
    (∀ b : List Nat, b.length = 8 → isBytes b → b ≠ negative_zero_field →
      encode_offset (read_offset b 0) = b) := by
  refine ⟨?_, ?_, encode_offset_read_offset⟩
  · intro a b hla hlb ha hb h
    by_cases hza : read_offset a 0 = 0
    · right
      exact ⟨read_offset_eq_zero a hla ha hza, read_offset_eq_zero b hlb hb (h ▸ hza)⟩
    · left
      have hna : a ≠ negative_zero_field := by
        rintro rfl; exact hza (by decide)
      have hnb : b ≠ negative_zero_field := by
        rintro rfl; exact hza (h.trans (by decide))
      rw [← encode_offset_read_offset a hla ha hna, ← encode_offset_read_offset b hlb hb hnb, h]
  · intro x hlo hhi
    exact ⟨encode_offset x, read_offset_encode_offset x hlo hhi⟩

/-- C8 at concrete fields: `-261` is decoded from and encoded to
`05 01 00 00 00 00 00 80`, and both encodings of zero decode to 0. -/
theorem read_offset_bijection_witness :
    encode_offset (read_offset [5, 1, 0, 0, 0, 0, 0, 128] 0) = [5, 1, 0, 0, 0, 0, 0, 128] ∧
    read_offset zero_field 0 = read_offset negative_zero_field 0 :=
  ⟨read_offset_bijection.2.2 [5, 1, 0, 0, 0, 0, 0, 128] (by decide) (by decide) (by decide),
   by decide⟩

/-! ## Format detection, `bspatch_new_size` and the entry checks of `bspatch_apply_bytes` -/

theorem magic_43_excludes_40 (p : List Nat) (h : p.take 16 = BSPATCH_MAGIC_43) :
    p.take 8 ≠ BSPATCH_MAGIC_40 := by
  have h8 : p.take 8 = (p.take 16).take 8 := by rw [List.take_take]; rfl
  rw [h8, h]; decide

theorem detect_format_unknown (patch_data : List Nat) (patch_size : Int)
    (h : patch_size < 24 ∨ (patch_data.take 8 = BSPATCH_MAGIC_40 ∧ patch_size < 32) ∨
      (patch_data.take 8 ≠ BSPATCH_MAGIC_40 ∧ patch_data.take 16 ≠ BSPATCH_MAGIC_43)) :
    detect_format patch_data patch_size = PATCH_FORMAT_UNKNOWN := by
  unfold detect_format HEADER_SIZE_40 HEADER_SIZE_43
  rcases h with h | ⟨h8, h⟩ | ⟨h8, h16⟩
  · rw [if_neg (by omega), if_neg (by omega)]
  · rw [if_neg (by omega), if_neg]
    rintro ⟨_, h16⟩
    exact magic_43_excludes_40 _ h16 h8
  · rw [if_neg (fun hc => h8 hc.2), if_neg (fun hc => h16 hc.2)]

/-- C4: a buffer shorter than 24 bytes, or one that begins with `BSDIFF40` but
is shorter than 32 bytes, or one that begins with neither magic marker, makes
`bspatch_new_size` return `BSPATCH_ERROR_INVALID_PATCH`; and
`bspatch_apply_bytes` with non-null arguments returns the same code for it,
whatever the old data and the capacity, leaving output and capacity as they were. -/
theorem invalid_patch_rejected {σ : Type} (E : bz_engine σ) (bspatch : bspatch_fn σ)
    (fuel : Nat) (old_data : List Nat) (old_size : Int) (patch_data : List Nat)
    (patch_size : Int) (new_data : Mem) (new_size : Int)
    (h : patch_size < 24 ∨ (patch_data.take 8 = BSPATCH_MAGIC_40 ∧ patch_size < 32) ∨
      (patch_data.take 8 ≠ BSPATCH_MAGIC_40 ∧ patch_data.take 16 ≠ BSPATCH_MAGIC_43)) :
    bspatch_new_size (some patch_data) patch_size = BSPATCH_ERROR_INVALID_PATCH ∧
    bspatch_apply_bytes E bspatch fuel (some old_data) old_size (some patch_data) patch_size
        (some new_data) (some new_size)
      = some (BSPATCH_ERROR_INVALID_PATCH, some new_data, some new_size) := by
  have hd := detect_format_unknown patch_data patch_size h
  have hn : bspatch_new_size (some patch_data) patch_size = BSPATCH_ERROR_INVALID_PATCH := by
    simp only [bspatch_new_size, hd]
  refine ⟨hn, ?_⟩
  simp only [bspatch_apply_bytes, bspatch_apply_bytes_nonnull, hn]
  rfl

/-- C4 at the 32-byte buffer that starts with `ABCDEFGH`. -/
theorem invalid_patch_rejected_witness :
    bspatch_new_size (some ([65, 66, 67, 68, 69, 70, 71, 72] ++ List.replicate 24 0)) 32
      = BSPATCH_ERROR_INVALID_PATCH ∧
    bspatch_apply_bytes (stored_engine false) bspatch_stub 10 (some [1, 2, 3]) 3
        (some ([65, 66, 67, 68, 69, 70, 71, 72] ++ List.replicate 24 0)) 32
        (some (fun _ => 0)) (some 100)
      = some (BSPATCH_ERROR_INVALID_PATCH, some (fun _ => 0), some 100) :=
  invalid_patch_rejected (stored_engine false) bspatch_stub 10 [1, 2, 3] 3
    ([65, 66, 67, 68, 69, 70, 71, 72] ++ List.replicate 24 0) 32 (fun _ => 0) 100
    (Or.inr (Or.inr ⟨by decide, by decide⟩))

theorem bspatch_new_size_40 (patch_data : List Nat) (patch_size : Int)
    (hd : detect_format patch_data patch_size = PATCH_FORMAT_40) :
    bspatch_new_size (some patch_data) patch_size =
      if read_offset patch_data 24 < 0 then BSPATCH_ERROR_CORRUPT_PATCH
      else read_offset patch_data 24 := by
  simp only [bspatch_new_size, hd]

theorem bspatch_new_size_43 (patch_data : List Nat) (patch_size : Int)
    (hd : detect_format patch_data patch_size = PATCH_FORMAT_43) :
    bspatch_new_size (some patch_data) patch_size =
      if read_offset patch_data 16 < 0 then BSPATCH_ERROR_CORRUPT_PATCH
      else read_offset patch_data 16 := by
  simp only [bspatch_new_size, hd]

theorem bspatch_new_size_unknown (patch_data : List Nat) (patch_size : Int)
    (hd : detect_format patch_data patch_size = PATCH_FORMAT_UNKNOWN) :
    bspatch_new_size (some patch_data) patch_size = BSPATCH_ERROR_INVALID_PATCH := by
  simp only [bspatch_new_size, hd]

/-- C5: on a buffer recognised as BSDIFF40 (respectively ENDSLEY/BSDIFF43)
`bspatch_new_size` returns the field decoded at offset 24 (respectively 16) when
it is non-negative and `BSPATCH_ERROR_CORRUPT_PATCH` when it is negative; the
result is non-negative exactly when the format was recognised and the field is
non-negative, and a negative result is one of the two error codes. -/
theorem new_size_resolved (patch_data : List Nat) (patch_size : Int) :
    (detect_format patch_data patch_size = PATCH_FORMAT_40 →
      bspatch_new_size (some patch_data) patch_size =
        if 0 ≤ read_offset patch_data 24 then read_offset patch_data 24
        else BSPATCH_ERROR_CORRUPT_PATCH) ∧
    (detect_format patch_data patch_size = PATCH_FORMAT_43 →
      bspatch_new_size (some patch_data) patch_size =
        if 0 ≤ read_offset patch_data 16 then read_offset patch_data 16
        else BSPATCH_ERROR_CORRUPT_PATCH) ∧
    (0 ≤ bspatch_new_size (some patch_data) patch_size ↔
      (detect_format patch_data patch_size = PATCH_FORMAT_40 ∧ 0 ≤ read_offset patch_data 24) ∨
      (detect_format patch_data patch_size = PATCH_FORMAT_43 ∧ 0 ≤ read_offset patch_data 16)) ∧
    (bspatch_new_size (some patch_data) patch_size < 0 →
      bspatch_new_size (some patch_data) patch_size = BSPATCH_ERROR_INVALID_PATCH ∨
      bspatch_new_size (some patch_data) patch_size = BSPATCH_ERROR_CORRUPT_PATCH) := by
  rcases hd : detect_format patch_data patch_size with _ | _ | _
  · rw [bspatch_new_size_unknown _ _ hd]
    simp [BSPATCH_ERROR_INVALID_PATCH]
  · rw [bspatch_new_size_40 _ _ hd]
    by_cases hs : read_offset patch_data 24 < 0
    · simp [hs, BSPATCH_ERROR_CORRUPT_PATCH]; omega
    · simp [hs, BSPATCH_ERROR_CORRUPT_PATCH]; omega
  · rw [bspatch_new_size_43 _ _ hd]
    by_cases hs : read_offset patch_data 16 < 0
    · simp [hs, BSPATCH_ERROR_CORRUPT_PATCH]; omega
    · simp [hs, BSPATCH_ERROR_CORRUPT_PATCH]; omega

/-- C2: when the magic is recognised, the declared output size `S` is
non-negative and the caller's capacity `c` is below `S`, `bspatch_apply_bytes`
returns `BSPATCH_ERROR_SIZE_MISMATCH`, stores exactly `S` in `*new_size` and
leaves the output memory as it was, for every engine and without any
decompression step (the result does not depend on the fuel). -/
theorem size_mismatch_reported {σ : Type} (E : bz_engine σ) (bspatch : bspatch_fn σ)
    (fuel : Nat) (old_data : List Nat) (old_size : Int) (patch_data : List Nat)
    (patch_size : Int) (new_data : Mem) (c S : Int)
    (hfmt : (detect_format patch_data patch_size = PATCH_FORMAT_40 ∧
        read_offset patch_data 24 = S) ∨
      (detect_format patch_data patch_size = PATCH_FORMAT_43 ∧ read_offset patch_data 16 = S))
    (hS : 0 ≤ S) (hc : c < S) :
    bspatch_apply_bytes E bspatch fuel (some old_data) old_size (some patch_data) patch_size
        (some new_data) (some c)
      = some (BSPATCH_ERROR_SIZE_MISMATCH, some new_data, some S) := by
  have hn : bspatch_new_size (some patch_data) patch_size = S := by
    rcases hfmt with ⟨hd, hr⟩ | ⟨hd, hr⟩
    · simp only [bspatch_new_size, hd, hr]; rw [if_neg (by omega)]
    · simp only [bspatch_new_size, hd, hr]; rw [if_neg (by omega)]
  simp only [bspatch_apply_bytes, bspatch_apply_bytes_nonnull, hn]
  rw [if_neg (by omega), if_pos hc]
  rfl

/-- C2 at the `hello` patch (declared size 5) with capacity 4. -/
theorem size_mismatch_reported_witness :
    bspatch_apply_bytes (stored_engine false) bspatch_stub 0 (some [104, 101, 108, 108, 111]) 5
        (some hello_patch) 63 (some (fun _ => 7)) (some 4)
      = some (BSPATCH_ERROR_SIZE_MISMATCH, some (fun _ => 7), some 5) :=
  size_mismatch_reported (stored_engine false) bspatch_stub 0 [104, 101, 108, 108, 111] 5
    hello_patch 63 (fun _ => 7) 4 5 (Or.inl ⟨by decide, by decide⟩) (by decide) (by decide)

theorem BZ2_bzDecompress_length_le {σ : Type} (E : bz_engine σ) (patch : List Nat)
    (s : mem_stream σ) (k : Nat) : (BZ2_bzDecompress E patch s k).2.2.length ≤ k := by
  simp only [BZ2_bzDecompress, List.length_take]
  omega

theorem stream_yields_nil {σ : Type} (E : bz_engine σ) (patch : List Nat) (b : Nat)
    (s : mem_stream σ) : stream_yields E patch b s [] := by
  cases b <;> simp [stream_yields]

theorem pull40_zero {σ : Type} (E : bz_engine σ) (patch : List Nat) (fuel : Nat)
    (s : mem_stream σ) (acc : List Nat) : pull40 E patch fuel s 0 acc = some (true, s, acc) := by
  unfold pull40; simp

theorem pull40_succ {σ : Type} (E : bz_engine σ) (patch : List Nat) (fuel : Nat)
    (s : mem_stream σ) (k : Nat) (acc : List Nat) (hk : 0 < k) :
    pull40 E patch (fuel + 1) s k acc =
      if (BZ2_bzDecompress E patch (refill s) k).1 ≠ BZ_OK ∧
          (BZ2_bzDecompress E patch (refill s) k).1 ≠ BZ_STREAM_END then
        some (false, (BZ2_bzDecompress E patch (refill s) k).2.1,
          acc ++ (BZ2_bzDecompress E patch (refill s) k).2.2)
      else pull40 E patch fuel (BZ2_bzDecompress E patch (refill s) k).2.1
        (k - (BZ2_bzDecompress E patch (refill s) k).2.2.length)
        (acc ++ (BZ2_bzDecompress E patch (refill s) k).2.2) := by
  rw [pull40]
  rw [if_neg (by omega)]

theorem stream_yields_mono {σ : Type} (E : bz_engine σ) (patch : List Nat) :
    ∀ (b : Nat) (s : mem_stream σ) (pending : List Nat),
      stream_yields E patch b s pending → stream_yields E patch (b + 1) s pending := by
  intro b
  induction b with
  | zero =>
    intro s pending h
    cases pending with
    | nil => exact stream_yields_nil E patch 1 s
    | cons d ds => simp [stream_yields] at h
  | succ b ih =>
    intro s pending h
    cases pending with
    | nil => exact stream_yields_nil E patch _ s
    | cons d ds =>
      intro k hk hkl
      obtain ⟨h1, h2, h3⟩ := h k hk hkl
      exact ⟨h1, h2, ih _ _ h3⟩

theorem prefix_append_take {α : Type} (L out : List α) (k : Nat)
    (hout : out = L.take out.length) (hle : out.length ≤ k) :
    out ++ (L.drop out.length).take (k - out.length) = L.take k := by
  have h := List.take_add L out.length (k - out.length)
  rw [Nat.add_sub_cancel' hle] at h
  rw [h, ← hout]

/-- A pull of `k` bytes from a stream that yields `pending` ends normally with
the first `k` pending bytes stored, and the stream then yields the rest. -/
theorem pull40_of_stream_yields {σ : Type} (E : bz_engine σ) (patch : List Nat) :
    ∀ (budget : Nat) (s : mem_stream σ) (pending : List Nat) (k : Nat) (acc : List Nat)
      (fuel : Nat), stream_yields E patch budget s pending → k ≤ pending.length →
      budget ≤ fuel →
      ∃ s1, pull40 E patch fuel s k acc = some (true, s1, acc ++ pending.take k) ∧
        stream_yields E patch budget s1 (pending.drop k) := by
  intro budget
  induction budget with
  | zero =>
    intro s pending k acc fuel hy hk _
    cases pending with
    | nil =>
      have : k = 0 := by simpa using hk
      subst this
      exact ⟨s, by simp [pull40_zero], stream_yields_nil E patch 0 s⟩
    | cons d ds => simp [stream_yields] at hy
  | succ b ih =>
    intro s pending k acc fuel hy hk hf
    rcases Nat.eq_zero_or_pos k with rfl | hpos
    · exact ⟨s, by simp [pull40_zero], by simpa using hy⟩
    · cases pending with
      | nil => simp at hk; omega
      | cons d ds =>
        obtain ⟨fuel, rfl⟩ : ∃ f, fuel = f + 1 := ⟨fuel - 1, by omega⟩
        obtain ⟨hret, hout, hrest⟩ := hy k hpos hk
        have hle := BZ2_bzDecompress_length_le E patch (refill s) k
        rw [pull40_succ E patch fuel s k acc hpos]
        have hnot : ¬ ((BZ2_bzDecompress E patch (refill s) k).1 ≠ BZ_OK ∧
            (BZ2_bzDecompress E patch (refill s) k).1 ≠ BZ_STREAM_END) := by
          intro ⟨h1, h2⟩
          cases hr : (BZ2_bzDecompress E patch (refill s) k).1 with
          | BZ_OK => exact h1 hr
          | BZ_STREAM_END => exact h2 hr
          | BZ_OTHER => exact hret hr
        rw [if_neg hnot]
        generalize (BZ2_bzDecompress E patch (refill s) k).2.2 = out at *
        generalize (BZ2_bzDecompress E patch (refill s) k).2.1 = s1 at *
        have hk' : k - out.length ≤ ((d :: ds).drop out.length).length := by
          simp only [List.length_drop]; omega
        obtain ⟨s2, hp, hy2⟩ := ih s1 ((d :: ds).drop out.length) (k - out.length) (acc ++ out)
          fuel hrest hk' (by omega)
        refine ⟨s2, ?_, ?_⟩
        · rw [hp, List.append_assoc, prefix_append_take (d :: ds) out k hout hle]
        · have hb := stream_yields_mono E patch b _ _ hy2
          rw [List.drop_drop] at hb
          have : out.length + (k - out.length) = k := by omega
          rwa [this] at hb

/-! ## The replay loop of `apply_bsdiff40` -/

theorem byteAt_take (l : List Nat) (n i : Nat) (h : i < n) : byteAt (l.take n) i = byteAt l i := by
  simp only [byteAt, List.getD_eq_getElem?_getD, List.getElem?_take_of_lt h]

theorem byteAt_drop (l : List Nat) (n i : Nat) : byteAt (l.drop n) i = byteAt l (n + i) := by
  simp only [byteAt, List.getD_eq_getElem?_getD, List.getElem?_drop]

theorem read_offset_take (l : List Nat) : read_offset (l.take 8) 0 = read_offset l 0 := by
  simp only [read_offset, read_offset_magnitude, Nat.zero_add]
  rw [byteAt_take l 8 7 (by omega), byteAt_take l 8 6 (by omega), byteAt_take l 8 5 (by omega),
    byteAt_take l 8 4 (by omega), byteAt_take l 8 3 (by omega), byteAt_take l 8 2 (by omega),
    byteAt_take l 8 1 (by omega), byteAt_take l 8 0 (by omega)]

theorem read_offset_drop (l : List Nat) (n : Nat) : read_offset (l.drop n) 0 = read_offset l n := by
  simp only [read_offset, read_offset_magnitude, Nat.zero_add, byteAt_drop, Nat.add_zero]

/-- Reading one control value from a stream that yields `pending`. -/
theorem read_ctrl_of_stream_yields {σ : Type} (E : bz_engine σ) (patch : List Nat)
    (budget fuel : Nat) (s : mem_stream σ) (pending : List Nat)
    (hy : stream_yields E patch budget s pending) (hlen : 8 ≤ pending.length)
    (hf : budget ≤ fuel) :
    ∃ s1, read_ctrl E patch fuel s = some (some (read_offset pending 0), s1) ∧
      stream_yields E patch budget s1 (pending.drop 8) := by
  obtain ⟨s1, hp, hy1⟩ := pull40_of_stream_yields E patch budget s pending 8 [] fuel hy hlen hf
  refine ⟨s1, ?_, hy1⟩
  simp only [read_ctrl, hp, List.nil_append, read_offset_take]

/-- The body of the replay loop when the three control values are read, both
bounds checks pass and both pulls end normally. -/
theorem loop_body_next {σ : Type} (E : bz_engine σ) (patch old_data : List Nat)
    (old_size new_size : Int) (fuel : Nat) (st : loop_state σ) (ctrl0 ctrl1 ctrl2 : Int)
    (c1 c2 c3 d1 e1 : mem_stream σ) (out_diff out_extra : List Nat)
    (h1 : read_ctrl E patch fuel st.ctx.ctrl = some (some ctrl0, c1))
    (h2 : read_ctrl E patch fuel c1 = some (some ctrl1, c2))
    (h3 : read_ctrl E patch fuel c2 = some (some ctrl2, c3))
    (hchk : ¬ (ctrl0 < 0 ∨ ctrl1 < 0 ∨ wrap64 (st.newpos + ctrl0) > new_size))
    (hd : pull40 E patch fuel st.ctx.diff (to_uint ctrl0) [] = some (true, d1, out_diff))
    (hchk2 : ¬ wrap64 (wrap64 (st.newpos + ctrl0) + ctrl1) > new_size)
    (he : pull40 E patch fuel st.ctx.extra (to_uint ctrl1) [] = some (true, e1, out_extra)) :
    loop_body E patch old_data old_size new_size fuel st =
      some (.next
        { ctx := { ctrl := c3, diff := d1, extra := e1 },
          oldpos := wrap64 (wrap64 (st.oldpos + ctrl0) + ctrl2),
          newpos := wrap64 (wrap64 (st.newpos + ctrl0) + ctrl1),
          new_data := write_bytes
            (add_old old_data old_size st.oldpos st.newpos ctrl0.toNat 0
              (write_bytes st.new_data st.newpos out_diff))
            (wrap64 (st.newpos + ctrl0)) out_extra }) := by
  simp only [loop_body, h1, h2, h3, hd, he, if_neg hchk, if_neg hchk2]
  simp

/-- What the addition loop leaves at offset `j`, when `newpos + i` cannot
overflow: the byte at `j` gets the old byte at `oldpos + (j - newpos)` added
exactly when `j` is one of the `count` positions from `newpos + i` on and that
old index (in `int64_t` arithmetic) lies in `[0, old_size)`. -/
theorem add_old_eq (old_data : List Nat) (old_size oldpos newpos : Int) :
    ∀ (count : Nat) (i : Int) (mem : Mem), 0 ≤ i → 0 ≤ newpos →
      newpos + i + count ≤ 9223372036854775807 → ∀ j : Int,
      add_old old_data old_size oldpos newpos count i mem j =
        if newpos + i ≤ j ∧ j < newpos + i + count ∧ 0 ≤ wrap64 (oldpos + (j - newpos)) ∧
            wrap64 (oldpos + (j - newpos)) < old_size then
          (mem j + byteAt old_data (wrap64 (oldpos + (j - newpos))).toNat) % 256
        else mem j := by
  intro count
  induction count with
  | zero =>
    intro i mem _ _ _ j
    rw [if_neg (by push_cast; omega)]
    rfl
  | succ n ih =>
    intro i mem hi hnp hb j
    have hw1 : wrap64 (i + 1) = i + 1 := wrap64_of_inInt64 (by unfold inInt64; omega)
    have hw2 : wrap64 (newpos + i) = newpos + i :=
      wrap64_of_inInt64 (by unfold inInt64; omega)
    simp only [add_old, hw1, hw2]
    rw [ih (i + 1) _ (by omega) hnp (by push_cast at hb ⊢; omega) j]
    by_cases hj : j = newpos + i
    · subst hj
      rw [if_neg (by omega)]
      have he : newpos + i - newpos = i := by omega
      rw [he]
      by_cases hc : wrap64 (oldpos + i) ≥ 0 ∧ wrap64 (oldpos + i) < old_size
      · rw [if_pos hc, Function.update_same, if_pos ⟨le_refl _, by push_cast; omega, hc.1, hc.2⟩]
      · rw [if_neg hc, if_neg (fun h => hc ⟨h.2.2.1, h.2.2.2⟩)]
    · have hm : (if wrap64 (oldpos + i) ≥ 0 ∧ wrap64 (oldpos + i) < old_size then
            Function.update mem (newpos + i)
              ((mem (newpos + i) + byteAt old_data (wrap64 (oldpos + i)).toNat) % 256)
          else mem) j = mem j := by
        split
        · exact Function.update_noteq hj _ _
        · rfl
      rw [hm]
      by_cases hc : newpos + i ≤ j ∧ j < newpos + i + ((n + 1 : Nat) : Int) ∧
          0 ≤ wrap64 (oldpos + (j - newpos)) ∧ wrap64 (oldpos + (j - newpos)) < old_size
      · rw [if_pos hc, if_pos ⟨by omega, by push_cast at hc ⊢; omega, hc.2.2.1, hc.2.2.2⟩]
      · rw [if_neg hc, if_neg]
        intro h
        exact hc ⟨by omega, by push_cast at h ⊢; omega, h.2.2.1, h.2.2.2⟩

theorem write_bytes_nil (mem : Mem) (off : Int) : write_bytes mem off [] = mem := by
  funext j
  simp only [write_bytes, List.length_nil]
  rw [if_neg (by push_cast; omega)]

theorem byte_diff_length (new old : List Nat) (h : old.length = new.length) :
    (byte_diff new old).length = new.length := by
  simp [byte_diff, h]

theorem byteAt_byte_diff (new old : List Nat) (i : Nat) (hn : i < new.length)
    (ho : i < old.length) :
    byteAt (byte_diff new old) i = (byteAt new i + 256 - byteAt old i) % 256 := by
  simp [byteAt, byte_diff, List.getD_eq_getElem?_getD, List.getElem?_zipWith,
    List.getElem?_eq_getElem hn, List.getElem?_eq_getElem ho]

theorem byteAt_lt (l : List Nat) (h : isBytes l) (i : Nat) : byteAt l i < 256 := by
  unfold byteAt
  rw [List.getD_eq_getElem?_getD]
  by_cases hi : i < l.length
  · rw [List.getElem?_eq_getElem hi]
    exact h _ (List.getElem_mem _)
  · rw [List.getElem?_eq_none (by omega)]
    simp

theorem detect_format_40_size (patch_data : List Nat) (patch_size : Int)
    (h : detect_format patch_data patch_size = PATCH_FORMAT_40) :
    32 ≤ patch_size ∧ patch_data.take 8 = BSPATCH_MAGIC_40 := by
  unfold detect_format HEADER_SIZE_40 at h
  by_cases hc : patch_size ≥ 32 ∧ patch_data.take 8 = BSPATCH_MAGIC_40
  · exact ⟨hc.1, hc.2⟩
  · rw [if_neg hc] at h
    split at h <;> cases h

theorem to_uint_of_lt (n : Nat) (h : n < 4294967296) : to_uint (n : Int) = n := by
  unfold to_uint; omega

theorem replay_done {σ : Type} (E : bz_engine σ) (patch old_data : List Nat)
    (old_size new_size : Int) (fuel rounds : Nat) (st : loop_state σ)
    (h : ¬ st.newpos < new_size) :
    replay E patch old_data old_size new_size fuel rounds st = some (BSPATCH_SUCCESS, st) := by
  unfold replay
  rw [if_pos h]

theorem replay_step {σ : Type} (E : bz_engine σ) (patch old_data : List Nat)
    (old_size new_size : Int) (fuel rounds : Nat) (st st1 : loop_state σ)
    (h : st.newpos < new_size)
    (hb : loop_body E patch old_data old_size new_size fuel st = some (.next st1)) :
    replay E patch old_data old_size new_size fuel (rounds + 1) st =
      replay E patch old_data old_size new_size fuel rounds st1 := by
  rw [replay, if_neg (by simpa using h)]
  simp only [hb]

theorem wrap64_natCast (n : Nat) (h : n < 4294967296) : wrap64 (n : Int) = n := by
  unfold wrap64; omega

theorem byte_diff_add (n o : Nat) (hn : n < 256) (ho : o < 256) :
    ((n + 256 - o) % 256 + o) % 256 = n := by
  omega

/-- The replay of a single tuple `(n, 0, skip)` over `n` bytes of old data. -/
theorem replay_single_tuple {σ : Type} (E : bz_engine σ) (old new patch ctrl_bytes : List Nat)
    (new_data : Mem) (cs ds es : mem_stream σ) (budget fuel rounds : Nat)
    (hlen : old.length = new.length) (hn : new.length < 4294967296)
    (hold : isBytes old) (hnew : isBytes new)
    (hcb : ctrl_bytes.length = 24)
    (hc0 : read_offset ctrl_bytes 0 = new.length) (hc1 : read_offset ctrl_bytes 8 = 0)
    (hctrl : stream_yields E patch budget cs ctrl_bytes)
    (hdiff : stream_yields E patch budget ds (byte_diff new old))
    (hfuel : budget ≤ fuel) (hrounds : 1 ≤ rounds) :
    ∃ st, replay E patch old old.length new.length fuel rounds
        { ctx := { ctrl := cs, diff := ds, extra := es }, oldpos := 0, newpos := 0,
          new_data := new_data } = some (BSPATCH_SUCCESS, st) ∧
      (∀ i : Nat, i < new.length → st.new_data i = byteAt new i) ∧
      (∀ j : Int, (j < 0 ∨ (new.length : Int) ≤ j) → st.new_data j = new_data j) := by
  rcases Nat.eq_zero_or_pos new.length with h0 | hpos
  · refine ⟨_, replay_done _ _ _ _ _ _ _ _ (by simp [h0]), ?_, fun j _ => rfl⟩
    intro i hi
    rw [h0] at hi
    exact absurd hi (Nat.not_lt_zero i)
  · obtain ⟨rounds, rfl⟩ : ∃ r, rounds = r + 1 := ⟨rounds - 1, by clear * - hrounds; omega⟩
    obtain ⟨c1, hr1, hy1⟩ := read_ctrl_of_stream_yields E patch budget fuel cs ctrl_bytes hctrl
      (by rw [hcb]; decide) hfuel
    obtain ⟨c2, hr2, hy2⟩ := read_ctrl_of_stream_yields E patch budget fuel c1
      (ctrl_bytes.drop 8) hy1 (by rw [List.length_drop, hcb]; decide) hfuel
    obtain ⟨c3, hr3, _⟩ := read_ctrl_of_stream_yields E patch budget fuel c2
      ((ctrl_bytes.drop 8).drop 8) hy2 (by rw [List.length_drop, List.length_drop, hcb]) hfuel
    rw [read_offset_drop, hc1] at hr2
    rw [hc0] at hr1
    have hdl := byte_diff_length new old hlen
    obtain ⟨d1, hpd, _⟩ := pull40_of_stream_yields E patch budget ds (byte_diff new old)
      new.length [] fuel hdiff (le_of_eq hdl.symm) hfuel
    rw [List.nil_append, List.take_of_length_le (le_of_eq hdl)] at hpd
    have hw : wrap64 ((0 : Int) + (new.length : Int)) = new.length := by
      rw [Int.zero_add]; exact wrap64_natCast _ hn
    have hw2 : wrap64 ((new.length : Int) + 0) = new.length := by
      rw [Int.add_zero]; exact wrap64_natCast _ hn
    have hbody := loop_body_next E patch old old.length new.length fuel
      { ctx := { ctrl := cs, diff := ds, extra := es }, oldpos := 0, newpos := 0,
        new_data := new_data } new.length 0 _ c1 c2 c3 d1 es (byte_diff new old) []
      hr1 hr2 hr3 (by simp only [hw]; clear * - hn; omega)
      (by rw [to_uint_of_lt _ hn]; exact hpd)
      (by simp only [hw, hw2]; clear * - hn; omega)
      (by simp [to_uint, pull40_zero])
    rw [replay_step _ _ _ _ _ _ _ _ _ (by simpa using hpos) hbody]
    simp only [hw, hw2, write_bytes_nil]
    refine ⟨_, replay_done _ _ _ _ _ _ _ _ (by simp), ?_, ?_⟩
    · intro i hi
      simp only [Int.toNat_ofNat]
      rw [add_old_eq old old.length 0 0 new.length 0 _ (le_refl _) (le_refl _)
        (by clear * - hn; omega)]
      have hwi : wrap64 ((0 : Int) + ((i : Int) - 0)) = i := by
        rw [Int.zero_add, Int.sub_zero]
        exact wrap64_natCast _ (lt_trans hi hn)
      rw [if_pos ⟨by clear * - hi; omega, by clear * - hi; omega, by rw [hwi]; clear * - hi; omega,
        by rw [hwi]; clear * - hi hlen; omega⟩, hwi]
      simp only [write_bytes, Int.toNat_ofNat]
      rw [if_pos ⟨by clear * - hi; omega, by rw [hdl]; clear * - hi; omega⟩]
      simp only [Int.sub_zero, Int.toNat_ofNat]
      rw [byteAt_byte_diff new old i hi (by rw [hlen]; exact hi)]
      exact byte_diff_add _ _ (byteAt_lt new hnew i) (byteAt_lt old hold i)
    · intro j hj
      simp only [Int.toNat_ofNat]
      rw [add_old_eq old old.length 0 0 new.length 0 _ (le_refl _) (le_refl _)
        (by clear * - hn; omega)]
      rw [if_neg (by clear * - hj; omega)]
      simp only [write_bytes]
      rw [if_neg (by rw [hdl]; clear * - hj; omega)]

/-! ## `apply_bsdiff40` and `bspatch_apply_bytes` on a well-formed BSDIFF40 header -/

theorem extra_len_eq (patch_size c d : Int) (h32 : 32 ≤ patch_size)
    (hmax : patch_size ≤ 9223372036854775807) (hc : 0 ≤ c) (hd : 0 ≤ d)
    (hfit : 32 + c + d ≤ patch_size) :
    wrap64 (wrap64 (wrap64 (patch_size - 32) - c) - d) = patch_size - 32 - c - d := by
  unfold wrap64; omega

/-- With segment lengths that are non-negative and fit the buffer, and three
successful engine initialisations, `apply_bsdiff40` is the replay loop started
on the three segment streams. -/
theorem apply_bsdiff40_eq_replay {σ : Type} (E : bz_engine σ) (fuel : Nat)
    (old_data : List Nat) (old_size : Int) (patch_data : List Nat) (patch_size : Int)
    (new_data : Mem) (new_size : Int) (s0 s1 s2 : σ)
    (h32 : 32 ≤ patch_size) (hmax : patch_size ≤ 9223372036854775807)
    (hc : 0 ≤ read_offset patch_data 8) (hd : 0 ≤ read_offset patch_data 16)
    (hfit : 32 + read_offset patch_data 8 + read_offset patch_data 16 ≤ patch_size)
    (hi0 : E.init 0 = some s0) (hi1 : E.init 1 = some s1) (hi2 : E.init 2 = some s2) :
    apply_bsdiff40 E fuel old_data old_size patch_data patch_size new_data new_size =
      (replay E patch_data old_data old_size new_size fuel fuel
        { ctx :=
            { ctrl := segment_stream s0 32 (read_offset patch_data 8),
              diff := segment_stream s1 (32 + read_offset patch_data 8)
                (read_offset patch_data 16),
              extra := segment_stream s2
                (32 + read_offset patch_data 8 + read_offset patch_data 16)
                (patch_size - 32 - read_offset patch_data 8 - read_offset patch_data 16) },
          oldpos := 0, newpos := 0, new_data := new_data }).map
        (fun r => (r.1, r.2.new_data)) := by
  have hx := extra_len_eq patch_size _ _ h32 hmax hc hd hfit
  have hnx : ¬ (patch_size - 32 - read_offset patch_data 8 - read_offset patch_data 16 < 0) := by
    generalize read_offset patch_data 8 = c at *
    generalize read_offset patch_data 16 = d at *
    clear * - hfit
    omega
  have hneg : ¬ (read_offset patch_data 8 < 0 ∨ read_offset patch_data 16 < 0) := by
    generalize read_offset patch_data 8 = c at *
    generalize read_offset patch_data 16 = d at *
    clear * - hc hd
    omega
  simp only [apply_bsdiff40, hx, if_neg hnx, if_neg hneg, hi0, hi1, hi2]
  cases replay E patch_data old_data old_size new_size fuel fuel _ <;> rfl

/-- On a recognised BSDIFF40 patch whose declared output size is non-negative
and within the capacity, `bspatch_apply_bytes` is `apply_bsdiff40` run with
the declared size, and `*new_size` is set to it on success. -/
theorem bspatch_apply_bytes_40 {σ : Type} (E : bz_engine σ) (bspatch : bspatch_fn σ)
    (fuel : Nat) (old_data : List Nat) (old_size : Int) (patch_data : List Nat)
    (patch_size : Int) (new_data : Mem) (capacity : Int)
    (hfmt : detect_format patch_data patch_size = PATCH_FORMAT_40)
    (hsz : 0 ≤ read_offset patch_data 24) (hcap : read_offset patch_data 24 ≤ capacity) :
    bspatch_apply_bytes E bspatch fuel (some old_data) old_size (some patch_data) patch_size
        (some new_data) (some capacity) =
      (apply_bsdiff40 E fuel old_data old_size patch_data patch_size new_data
        (read_offset patch_data 24)).map
        (fun r => (r.1, some r.2,
          some (if r.1 = BSPATCH_SUCCESS then read_offset patch_data 24 else capacity))) := by
  have hns : bspatch_new_size (some patch_data) patch_size = read_offset patch_data 24 := by
    rw [bspatch_new_size_40 _ _ hfmt, if_neg (not_lt.mpr hsz)]
  simp only [bspatch_apply_bytes, bspatch_apply_bytes_nonnull, hns, hfmt,
    if_neg (not_lt.mpr hsz), if_neg (not_lt.mpr hcap)]
  cases apply_bsdiff40 E fuel old_data old_size patch_data patch_size new_data
    (read_offset patch_data 24) <;> rfl

/-- C1: round trip for the single-tuple BSDIFF40 patch. For byte arrays `old`
and `new` of the same length `n < 2^32`, a patch recognised as BSDIFF40 whose
header declares output size `n` and segment lengths that are non-negative and
fit the buffer, whose control stream decompresses to the one tuple
`(copyLen = n, insertLen = 0, oldSkip = 0)` and whose diff stream decompresses
to `new[i] - old[i] mod 256`: with capacity at least `n` and enough fuel,
`bspatch_apply_bytes` returns `BSPATCH_SUCCESS`, reports `n` in `*new_size`,
leaves the first `n` output bytes equal to `new` and touches no other byte. -/
theorem single_tuple_round_trip {σ : Type} (E : bz_engine σ) (bspatch : bspatch_fn σ)
    (old new patch_data ctrl_bytes : List Nat) (patch_size capacity : Int) (new_data : Mem)
    (s0 s1 s2 : σ) (budget fuel : Nat)
    (hlen : old.length = new.length) (hn : new.length < 4294967296)
    (hold : isBytes old) (hnew : isBytes new)
    (hfmt : detect_format patch_data patch_size = PATCH_FORMAT_40)
    (hmax : patch_size ≤ 9223372036854775807)
    (hsize : read_offset patch_data 24 = new.length)
    (hc : 0 ≤ read_offset patch_data 8) (hd : 0 ≤ read_offset patch_data 16)
    (hfit : 32 + read_offset patch_data 8 + read_offset patch_data 16 ≤ patch_size)
    (hi0 : E.init 0 = some s0) (hi1 : E.init 1 = some s1) (hi2 : E.init 2 = some s2)
    (hcb : ctrl_bytes.length = 24)
    (hc0 : read_offset ctrl_bytes 0 = new.length) (hc1 : read_offset ctrl_bytes 8 = 0)
    (hc2 : read_offset ctrl_bytes 16 = 0)
    (hctrl : stream_yields E patch_data budget
      (segment_stream s0 32 (read_offset patch_data 8)) ctrl_bytes)
    (hdiff : stream_yields E patch_data budget
      (segment_stream s1 (32 + read_offset patch_data 8) (read_offset patch_data 16))
      (byte_diff new old))
    (hcap : (new.length : Int) ≤ capacity) (hfuel : budget + 1 ≤ fuel) :
    ∃ mem, bspatch_apply_bytes E bspatch fuel (some old) old.length (some patch_data)
        patch_size (some new_data) (some capacity)
        = some (BSPATCH_SUCCESS, some mem, some (new.length : Int)) ∧
      (∀ i : Nat, i < new.length → mem i = byteAt new i) ∧
      (∀ j : Int, (j < 0 ∨ (new.length : Int) ≤ j) → mem j = new_data j) := by
  have _ := hc2
  have h32 := (detect_format_40_size _ _ hfmt).1
  rw [bspatch_apply_bytes_40 E bspatch fuel old old.length patch_data patch_size new_data
    capacity hfmt (by rw [hsize]; exact Int.natCast_nonneg _) (by rw [hsize]; exact hcap)]
  rw [apply_bsdiff40_eq_replay E fuel old old.length patch_data patch_size new_data _ s0 s1 s2
    h32 hmax hc hd hfit hi0 hi1 hi2, hsize]
  obtain ⟨st, hrep, hnew_bytes, hframe⟩ := replay_single_tuple E old new patch_data ctrl_bytes
    new_data _ _ (segment_stream s2 (32 + read_offset patch_data 8 + read_offset patch_data 16)
      (patch_size - 32 - read_offset patch_data 8 - read_offset patch_data 16))
    budget fuel fuel hlen hn hold hnew hcb hc0 hc1 hctrl hdiff
    (Nat.le_of_succ_le hfuel) (le_trans (Nat.le_add_left 1 budget) hfuel)
  rw [hrep]
  exact ⟨st.new_data, rfl, hnew_bytes, hframe⟩

/-! ## The stored-block engine yields the bytes of its block -/

theorem stream_yields_succ {σ : Type} (E : bz_engine σ) (patch : List Nat) (b : Nat)
    (s : mem_stream σ) (pending : List Nat)
    (h : ∀ k : Nat, 0 < k → k ≤ pending.length →
      (BZ2_bzDecompress E patch (refill s) k).1 ≠ BZ_OTHER ∧
      (BZ2_bzDecompress E patch (refill s) k).2.2 =
        pending.take (BZ2_bzDecompress E patch (refill s) k).2.2.length ∧
      stream_yields E patch b (BZ2_bzDecompress E patch (refill s) k).2.1
        (pending.drop (BZ2_bzDecompress E patch (refill s) k).2.2.length)) :
    stream_yields E patch (b + 1) s pending := by
  cases pending with
  | nil => exact stream_yields_nil E patch _ s
  | cons d ds => exact h

theorem drop_block (pre D post : List Nat) (j : Nat) (hj : j ≤ D.length) :
    (pre ++ (D.length :: D) ++ post).drop (pre.length + 1 + j) = D.drop j ++ post := by
  rw [List.append_assoc, Nat.add_assoc, List.drop_append]
  rw [List.cons_append, Nat.add_comm 1 j, List.drop_succ_cons, List.drop_append_of_le_length hj]

theorem refill_of_avail_in {σ : Type} (s : mem_stream σ) (h : s.avail_in ≠ 0) : refill s = s := by
  unfold refill
  rw [if_neg (fun hc => h hc.1)]

/-- Inside a block with `r` bytes to go and at least `r` input bytes at hand,
the stored-block engine yields the last `r` bytes of the block. -/
theorem stored_body_yields (resume : Bool) (pre D post : List Nat) (data size : Int) :
    ∀ (r avail_in : Nat) (pos : Int), 0 < r → r ≤ D.length → r ≤ avail_in →
      stream_yields (stored_engine resume) (pre ++ (D.length :: D) ++ post) r
        { state := body r, next_in := ((pre.length + 1 + (D.length - r) : Nat) : Int),
          avail_in := avail_in, data := data, size := size, pos := pos }
        (D.drop (D.length - r)) := by
  intro r
  induction r using Nat.strong_induction_on with
  | _ r ih =>
    intro avail_in pos hr hrD hra
    obtain ⟨b, rfl⟩ : ∃ b, r = b + 1 := ⟨r - 1, by omega⟩
    apply stream_yields_succ
    intro k hk hkl
    have hlen : (D.drop (D.length - (b + 1))).length = b + 1 := by
      rw [List.length_drop]; omega
    rw [hlen] at hkl
    rw [refill_of_avail_in _ (by show avail_in ≠ 0; omega)]
    simp only [BZ2_bzDecompress, stored_engine, stored_decompress, Int.toNat_ofNat,
      drop_block pre D post _ (Nat.sub_le _ _)]
    have hin : ((D.drop (D.length - (b + 1)) ++ post).take avail_in).length ≥ b + 1 := by
      rw [List.length_take, List.length_append, hlen]; omega
    have hm : min (b + 1) (min ((D.drop (D.length - (b + 1)) ++ post).take avail_in).length k)
        = k := by omega
    rw [hm]
    have hout : (((D.drop (D.length - (b + 1)) ++ post).take avail_in).take k).take k
        = (D.drop (D.length - (b + 1))).take k := by
      rw [List.take_take, List.take_take, Nat.min_self, Nat.min_eq_left (by omega),
        List.take_append_of_le_length (by omega)]
    rw [hout]
    have hl : ((D.drop (D.length - (b + 1))).take k).length = k := by
      rw [List.length_take, hlen]; omega
    rw [hl]
    refine ⟨by split <;> simp, rfl, ?_⟩
    rw [List.drop_drop]
    by_cases hkb : k = b + 1
    · have : D.drop (D.length - (b + 1) + k) = [] := by
        rw [List.drop_eq_nil_iff]; omega
      rw [this]
      exact stream_yields_nil _ _ _ _
    · rw [if_neg hkb]
      have hmin : min k avail_in = k := by omega
      have hidx : (((pre.length + 1 + (D.length - (b + 1)) : Nat) : Int) + ((min k avail_in : Nat) : Int))
          = ((pre.length + 1 + (D.length - (b + 1 - k)) : Nat) : Int) := by
        rw [hmin]; omega
      have hd : D.length - (b + 1) + k = D.length - (b + 1 - k) := by omega
      rw [hidx, hd, hmin]
      have hstep := ih (b + 1 - k) (by omega) (avail_in - k) pos (by omega) (by omega) (by omega)
      have hmono : ∀ (m n : Nat) (s : mem_stream stored_state) (p : List Nat), m ≤ n →
          stream_yields (stored_engine resume) (pre ++ (D.length :: D) ++ post) m s p →
          stream_yields (stored_engine resume) (pre ++ (D.length :: D) ++ post) n s p := by
        intro m n s p hmn
        induction hmn with
        | refl => exact id
        | step _ ih2 => exact fun h => stream_yields_mono _ _ _ _ _ (ih2 h)
      exact hmono _ _ _ _ (by omega) hstep

/-- The stored-block engine, started on a segment of at most 4096 bytes that
begins with the block `D.length :: D`, yields `D`. -/
theorem stored_segment_yields (resume : Bool) (pre D post : List Nat) (size : Int)
    (hD : 0 < D.length) (hsize : (D.length : Int) + 1 ≤ size) (hmax : size ≤ 4096) :
    stream_yields (stored_engine resume) (pre ++ (D.length :: D) ++ post) (D.length + 1)
      (segment_stream header (pre.length : Int) size) D := by
  apply stream_yields_succ
  intro k hk hkl
  obtain ⟨sz, rfl⟩ : ∃ sz : Nat, size = (sz : Int) := ⟨size.toNat, by omega⟩
  have hw1 : wrap64 ((sz : Int) - 0) = sz := by unfold wrap64; omega
  have hw2 : wrap64 ((0 : Int) + (sz : Int)) = sz := by unfold wrap64; omega
  have hu : to_uint (sz : Int) = sz := by unfold to_uint; omega
  have hrefill : refill (segment_stream header (pre.length : Int) (sz : Int)) =
      { state := header, next_in := (pre.length : Int) + 0, avail_in := sz,
        data := (pre.length : Int), size := (sz : Int), pos := (sz : Int) } := by
    simp only [refill, segment_stream]
    rw [if_pos ⟨trivial, by omega⟩]
    simp only [hw1, hu]
    rw [if_neg (by omega), hw2]
  rw [hrefill]
  have hdrop : (pre ++ (D.length :: D) ++ post).drop (pre.length) = D.length :: (D ++ post) := by
    rw [List.append_assoc, List.drop_left]; rfl
  obtain ⟨sz1, rfl⟩ : ∃ m, sz = m + 1 := ⟨sz - 1, by omega⟩
  simp only [BZ2_bzDecompress, stored_engine, stored_decompress, Int.add_zero, Int.toNat_ofNat,
    hdrop, List.take_succ_cons, stored_header]
  rw [if_neg (by omega)]
  simp only [List.take_nil, List.length_nil, List.take_zero, List.drop_zero]
  refine ⟨by simp, trivial, ?_⟩
  have h := stored_body_yields resume pre D post (pre.length : Int) ((sz1 + 1 : Nat) : Int)
    D.length (sz1 + 1 - min 1 (sz1 + 1)) ((sz1 + 1 : Nat) : Int) hD (le_refl _) (by omega)
  simp only [Nat.sub_self, Nat.add_zero, List.drop_zero] at h
  have hn : ((pre.length : Int) + ((min 1 (sz1 + 1) : Nat) : Int)) = ((pre.length + 1 : Nat) : Int) := by
    omega
  rw [hn]
  exact h

theorem stream_yields_le {σ : Type} (E : bz_engine σ) (patch : List Nat) (m n : Nat)
    (s : mem_stream σ) (pending : List Nat) (hmn : m ≤ n)
    (h : stream_yields E patch m s pending) : stream_yields E patch n s pending := by
  induction hmn with
  | refl => exact h
  | step _ ih => exact stream_yields_mono _ _ _ _ _ ih

/-- The control stream of the `hello` patch yields the tuple `(5, 0, 0)`. -/
theorem hello_ctrl_yields :
    stream_yields (stored_engine false) hello_patch 25
      (segment_stream header 32 (read_offset hello_patch 8))
      (field 5 ++ field 0 ++ field 0) := by
  have h := stored_segment_yields false (BSPATCH_MAGIC_40 ++ field 25 ++ field 6 ++ field 5)
    (field 5 ++ field 0 ++ field 0) ([5, 15, 10, 6, 0, 245] ++ [0]) 25 (by decide)
    (by decide) (by decide)
  rw [show BSPATCH_MAGIC_40 ++ field 25 ++ field 6 ++ field 5 ++
      ((field 5 ++ field 0 ++ field 0).length :: (field 5 ++ field 0 ++ field 0)) ++
      ([5, 15, 10, 6, 0, 245] ++ [0]) = hello_patch from by decide,
    show (((BSPATCH_MAGIC_40 ++ field 25 ++ field 6 ++ field 5).length : Nat) : Int) = 32
      from by decide,
    show (field 5 ++ field 0 ++ field 0).length + 1 = 25 from by decide] at h
  rw [show read_offset hello_patch 8 = 25 from by decide]
  exact h

/-- The diff stream of the `hello` patch yields `world - hello`. -/
theorem hello_diff_yields :
    stream_yields (stored_engine false) hello_patch 25
      (segment_stream header (32 + read_offset hello_patch 8) (read_offset hello_patch 16))
      (byte_diff [119, 111, 114, 108, 100] [104, 101, 108, 108, 111]) := by
  have h := stored_segment_yields false
    (BSPATCH_MAGIC_40 ++ field 25 ++ field 6 ++ field 5 ++
      (([24] : List Nat) ++ field 5 ++ field 0 ++ field 0))
    [15, 10, 6, 0, 245] [0] 6 (by decide) (by decide) (by decide)
  rw [show BSPATCH_MAGIC_40 ++ field 25 ++ field 6 ++ field 5 ++
      (([24] : List Nat) ++ field 5 ++ field 0 ++ field 0) ++
      (([15, 10, 6, 0, 245] : List Nat).length :: [15, 10, 6, 0, 245]) ++ [0] = hello_patch
      from by decide,
    show (((BSPATCH_MAGIC_40 ++ field 25 ++ field 6 ++ field 5 ++
      (([24] : List Nat) ++ field 5 ++ field 0 ++ field 0)).length : Nat) : Int) = 57
      from by decide] at h
  rw [show (32 : Int) + read_offset hello_patch 8 = 57 from by decide,
    show read_offset hello_patch 16 = 6 from by decide,
    show byte_diff [119, 111, 114, 108, 100] [104, 101, 108, 108, 111] = [15, 10, 6, 0, 245]
      from by decide]
  exact stream_yields_le _ _ _ 25 _ _ (by decide) h

/-- C1 at the `hello` patch: with the stored-block engine, `hello` and the
patch give `world`. -/
theorem single_tuple_round_trip_witness :
    ∃ mem, bspatch_apply_bytes (stored_engine false) bspatch_stub 26
        (some [104, 101, 108, 108, 111]) (([104, 101, 108, 108, 111] : List Nat).length : Int)
        (some hello_patch) 63 (some (fun _ => 0)) (some 5)
        = some (BSPATCH_SUCCESS, some mem,
            some ((([119, 111, 114, 108, 100] : List Nat).length : Nat) : Int)) ∧
      (∀ i : Nat, i < ([119, 111, 114, 108, 100] : List Nat).length →
        mem i = byteAt [119, 111, 114, 108, 100] i) ∧
      (∀ j : Int, (j < 0 ∨ ((([119, 111, 114, 108, 100] : List Nat).length : Nat) : Int) ≤ j) →
        mem j = 0) :=
  single_tuple_round_trip (stored_engine false) bspatch_stub [104, 101, 108, 108, 111]
    [119, 111, 114, 108, 100] hello_patch (field 5 ++ field 0 ++ field 0) 63 5 (fun _ => 0)
    header header header 25 26 rfl (by decide) (by decide) (by decide) (by decide) (by decide)
    (by decide) (by decide) (by decide) (by decide) rfl rfl rfl rfl (by decide) (by decide)
    (by decide) hello_ctrl_yields hello_diff_yields (by decide) (by decide)

/-! ## Segment lengths against the buffer length -/

/-- Segment lengths that overrun the buffer are rejected as long as the
subtraction `patch_size - 32 - ctrl_len - diff_len` does not leave the range
of `int64_t`. -/
theorem segment_overrun_rejected {σ : Type} (E : bz_engine σ) (bspatch : bspatch_fn σ)
    (fuel : Nat) (old_data : List Nat) (old_size : Int) (patch_data : List Nat)
    (patch_size : Int) (new_data : Mem) (capacity : Int)
    (hfmt : detect_format patch_data patch_size = PATCH_FORMAT_40)
    (hsz : 0 ≤ read_offset patch_data 24) (hcap : read_offset patch_data 24 ≤ capacity)
    (hc : 0 ≤ read_offset patch_data 8) (hd : 0 ≤ read_offset patch_data 16)
    (hover : 32 + read_offset patch_data 8 + read_offset patch_data 16 > patch_size)
    (hrange : -9223372036854775808 ≤
      patch_size - 32 - read_offset patch_data 8 - read_offset patch_data 16) :
    bspatch_apply_bytes E bspatch fuel (some old_data) old_size (some patch_data) patch_size
        (some new_data) (some capacity)
      = some (BSPATCH_ERROR_CORRUPT_PATCH, some new_data, some capacity) := by
  have h32 := (detect_format_40_size _ _ hfmt).1
  rw [bspatch_apply_bytes_40 E bspatch fuel old_data old_size patch_data patch_size new_data
    capacity hfmt hsz hcap]
  have hneg : ¬ (read_offset patch_data 8 < 0 ∨ read_offset patch_data 16 < 0) := by
    generalize read_offset patch_data 8 = c at *
    generalize read_offset patch_data 16 = d at *
    clear * - hc hd
    omega
  have hx : wrap64 (wrap64 (wrap64 (patch_size - 32) - read_offset patch_data 8) -
      read_offset patch_data 16) < 0 := by
    generalize read_offset patch_data 8 = c at *
    generalize read_offset patch_data 16 = d at *
    clear * - hc hd hover hrange h32
    unfold wrap64
    omega
  simp only [apply_bsdiff40, if_neg hneg, if_pos hx]
  rfl

/-- C3 (failing input): the 32-byte BSDIFF40 header `overflow_patch` declares a
control and a diff segment of `2^63 - 1` bytes each, far beyond the buffer, and
an output of 0 bytes. The subtraction `patch_size - 32 - ctrl_len - diff_len`
wraps around to 2, the test `extra_len < 0` does not fire, and
`bspatch_apply_bytes` returns `BSPATCH_SUCCESS` instead of
`BSPATCH_ERROR_CORRUPT_PATCH`. -/
theorem overflowing_segment_lengths_accepted :
    overflow_patch.length = 32 ∧
    detect_format overflow_patch 32 = PATCH_FORMAT_40 ∧
    read_offset overflow_patch 8 = 9223372036854775807 ∧
    read_offset overflow_patch 16 = 9223372036854775807 ∧
    read_offset overflow_patch 24 = 0 ∧
    wrap64 (wrap64 (wrap64 (32 - 32) - read_offset overflow_patch 8) -
      read_offset overflow_patch 16) = 2 ∧
    bspatch_apply_bytes (stored_engine false) bspatch_stub 0 (some []) 0 (some overflow_patch) 32
        (some (fun _ => 0)) (some 0)
      = some (BSPATCH_SUCCESS, some (fun _ => 0), some 0) := by
  refine ⟨by decide, by decide, by decide, by decide, by decide, by decide, ?_⟩
  rfl

/-! ## Control tuples that overshoot -/

/-- C6 (failing input): `overshoot_patch` declares an output of 2 bytes. Its
first tuple `(1, 0, 0)` moves `newpos` to 1; for its second tuple
`(2^63 - 1, 0, 0)` the sum `newpos + ctrl[0]` wraps around to `-2^63`, the test
`newpos + ctrl[0] > new_size` does not fire, and the diff pull stores the bytes
8 and 9 at offsets 1 and 2 before the run ends with
`BSPATCH_ERROR_CORRUPT_PATCH`: offset 2 lies outside `[0, 2)`. -/
theorem overshooting_tuple_written :
    read_offset overshoot_patch 24 = 2 ∧
    read_offset max_field 0 = 9223372036854775807 ∧
    wrap64 (1 + read_offset max_field 0) = -9223372036854775808 ∧
    observe 4 (bspatch_apply_bytes (stored_engine false) bspatch_stub 20 (some [1, 1]) 2
        (some overshoot_patch) 86 (some (fun _ => 0)) (some 2))
      = some (BSPATCH_ERROR_CORRUPT_PATCH, [8, 8, 9, 0], some 2) := by
  refine ⟨by decide, by decide, by decide, by decide!⟩

/-! ## End of stream inside a pull -/

/-- The pull loops of `apply_bsdiff40` have no test of their own for the end
of the stream; they rely on the engine. The control segment of
`short_ctrl_patch` ends its first stream after 4 of the 8 bytes of the first
control value. On an engine that would start on the next stream when called
again (which libbzip2 does not), `bz2_mem_read` returns -1 at that point while
the pull loop of `apply_bsdiff40` calls the engine again and the run goes on to
`BSPATCH_SUCCESS`. On an engine that reports an error when called after the end
of its stream the run ends with `BSPATCH_ERROR_CORRUPT_PATCH`. -/
theorem resuming_engine_goes_on :
    (BZ2_bzDecompress (stored_engine true) short_ctrl_patch
        (BZ2_bzDecompress (stored_engine true) short_ctrl_patch
          (refill (segment_stream header 32 26)) 8).2.1 8).1 = BZ_STREAM_END ∧
    (bz2_mem_read (stored_engine true) short_ctrl_patch 20 (segment_stream header 32 26) 8).map
        (fun r => (r.1, r.2.2))
      = some (-1, [5, 0, 0, 0]) ∧
    observe 5 (bspatch_apply_bytes (stored_engine true) bspatch_stub 20
        (some [104, 101, 108, 108, 111]) 5 (some short_ctrl_patch) 65 (some (fun _ => 0))
        (some 5))
      = some (BSPATCH_SUCCESS, [119, 111, 114, 108, 100], some 5) ∧
    observe 5 (bspatch_apply_bytes (stored_engine false) bspatch_stub 20
        (some [104, 101, 108, 108, 111]) 5 (some short_ctrl_patch) 65 (some (fun _ => 0))
        (some 5))
      = some (BSPATCH_ERROR_CORRUPT_PATCH, [0, 0, 0, 0, 0], some 5) := by
  refine ⟨by decide!, by decide!, by decide!, by decide!⟩

/-! ## The addition loop and reads outside the old data -/

theorem read_offset_inInt64 (buf : List Nat) (off : Nat) : inInt64 (read_offset buf off) := by
  unfold read_offset
  split
  · exact wrap64_inInt64 _
  · unfold read_offset_magnitude shift_add
    exact wrap64_inInt64 _

theorem read_ctrl_inInt64 {σ : Type} (E : bz_engine σ) (patch : List Nat) (fuel : Nat)
    (s s1 : mem_stream σ) (x : Int) (h : read_ctrl E patch fuel s = some (some x, s1)) :
    inInt64 x := by
  unfold read_ctrl at h
  split at h
  · cases h
  · cases h
  · simp only [Option.some.injEq, Prod.mk.injEq] at h
    rw [← h.1]
    exact read_offset_inInt64 _ _

theorem to_uint_lt (x : Int) : to_uint x < 4294967296 := by
  unfold to_uint; omega

/-- A pull never stores more than the bytes asked for, and stores exactly
that many when it ends normally. -/
theorem pull40_length {σ : Type} (E : bz_engine σ) (patch : List Nat) :
    ∀ (fuel : Nat) (s : mem_stream σ) (k : Nat) (acc : List Nat) (ok : Bool)
      (s1 : mem_stream σ) (out : List Nat),
      pull40 E patch fuel s k acc = some (ok, s1, out) →
      out.length ≤ acc.length + k ∧ (ok = true → out.length = acc.length + k) := by
  intro fuel
  induction fuel with
  | zero =>
    intro s k acc ok s1 out h
    rcases Nat.eq_zero_or_pos k with rfl | hk
    · rw [pull40_zero] at h
      simp only [Option.some.injEq, Prod.mk.injEq] at h
      obtain ⟨_, _, rfl⟩ := h
      exact ⟨le_refl _, fun _ => rfl⟩
    · rw [pull40, if_neg (by omega)] at h
      cases h
  | succ f ih =>
    intro s k acc ok s1 out h
    rcases Nat.eq_zero_or_pos k with rfl | hk
    · rw [pull40_zero] at h
      simp only [Option.some.injEq, Prod.mk.injEq] at h
      obtain ⟨_, _, rfl⟩ := h
      exact ⟨le_refl _, fun _ => rfl⟩
    · rw [pull40_succ E patch f s k acc hk] at h
      have hle := BZ2_bzDecompress_length_le E patch (refill s) k
      split at h
      · simp only [Option.some.injEq, Prod.mk.injEq] at h
        obtain ⟨rfl, _, rfl⟩ := h
        rw [List.length_append]
        exact ⟨by omega, fun hc => by cases hc⟩
      · obtain ⟨h1, h2⟩ := ih _ _ _ _ _ _ h
        rw [List.length_append] at h1 h2
        exact ⟨by omega, fun hc => by have := h2 hc; omega⟩

theorem wrap64_inj (a b : Int) (h : wrap64 a = wrap64 b)
    (h1 : -18446744073709551616 < a - b) (h2 : a - b < 18446744073709551616) : a = b := by
  unfold wrap64 at h; omega

theorem wrap64_succ (i : Int) (h0 : 0 ≤ i) (h1 : i < 9223372036854775807) :
    wrap64 (i + 1) = i + 1 := by
  unfold wrap64; omega

/-- The addition loop leaves every offset alone that is not `newpos + i` for
one of its indices `i`. -/
theorem add_old_outside (old_data : List Nat) (old_size oldpos newpos : Int) (j : Int) :
    ∀ (count : Nat) (i0 : Int) (mem : Mem), 0 ≤ i0 → i0 + count ≤ 9223372036854775807 →
      (∀ i : Int, i0 ≤ i → i < i0 + count → wrap64 (newpos + i) ≠ j) →
      add_old old_data old_size oldpos newpos count i0 mem j = mem j := by
  intro count
  induction count with
  | zero => intro i0 mem _ _ _; rfl
  | succ n ih =>
    intro i0 mem h0 hb hne
    have hw := wrap64_succ i0 h0 (by push_cast at hb; omega)
    simp only [add_old, hw]
    rw [ih (i0 + 1) _ (by omega) (by push_cast at hb ⊢; omega)
      (fun i hi1 hi2 => hne i (by omega) (by push_cast at hi2 ⊢; omega))]
    have hj : j ≠ wrap64 (newpos + i0) :=
      fun hc => hne i0 (le_refl _) (by push_cast; omega) hc.symm
    split
    · exact Function.update_noteq hj _ _
    · rfl

/-- What the addition loop leaves at offset `newpos + i` for one of its
indices `i`: the old byte at `oldpos + i` is added exactly when that index
lies in `[0, old_size)`. -/
theorem add_old_at (old_data : List Nat) (old_size oldpos newpos : Int) :
    ∀ (count : Nat) (i0 : Int) (mem : Mem), 0 ≤ i0 → i0 + count ≤ 9223372036854775807 →
      ∀ i : Int, i0 ≤ i → i < i0 + count →
      add_old old_data old_size oldpos newpos count i0 mem (wrap64 (newpos + i)) =
        if wrap64 (oldpos + i) ≥ 0 ∧ wrap64 (oldpos + i) < old_size then
          (mem (wrap64 (newpos + i)) + byteAt old_data (wrap64 (oldpos + i)).toNat) % 256
        else mem (wrap64 (newpos + i)) := by
  intro count
  induction count with
  | zero => intro i0 mem _ _ i h1 h2; exfalso; push_cast at h2; omega
  | succ n ih =>
    intro i0 mem h0 hb i hi1 hi2
    have hw := wrap64_succ i0 h0 (by push_cast at hb; omega)
    simp only [add_old, hw]
    rcases eq_or_lt_of_le hi1 with rfl | hlt
    · rw [add_old_outside old_data old_size oldpos newpos _ n (i0 + 1) _ (by omega)
        (by push_cast at hb ⊢; omega)]
      · split
        · rw [Function.update_same]
        · rfl
      · intro i hi3 hi4 hc
        have := wrap64_inj _ _ hc (by push_cast at hb hi4; omega) (by push_cast at hb hi4; omega)
        omega
    · rw [ih (i0 + 1) _ (by omega) (by push_cast at hb ⊢; omega) i (by omega)
        (by push_cast at hi2 ⊢; omega)]
      have hne : wrap64 (newpos + i) ≠ wrap64 (newpos + i0) := by
        intro hc
        have := wrap64_inj _ _ hc (by push_cast at hb hi2; omega) (by push_cast at hb hi2; omega)
        omega
      have hm : (if wrap64 (oldpos + i0) ≥ 0 ∧ wrap64 (oldpos + i0) < old_size then
            Function.update mem (wrap64 (newpos + i0))
              ((mem (wrap64 (newpos + i0)) + byteAt old_data (wrap64 (oldpos + i0)).toNat) % 256)
          else mem) (wrap64 (newpos + i)) = mem (wrap64 (newpos + i)) := by
        split
        · exact Function.update_noteq hne _ _
        · rfl
      rw [hm]

/-- The body of the replay loop once the tuple is read and accepted and the
diff pull has ended normally: what is left is the second bounds check and the
extra pull. -/
theorem loop_body_after_diff {σ : Type} (E : bz_engine σ) (patch old_data : List Nat)
    (old_size new_size : Int) (fuel : Nat) (st : loop_state σ) (ctrl0 ctrl1 ctrl2 : Int)
    (c1 c2 c3 d1 : mem_stream σ) (out_diff : List Nat)
    (h1 : read_ctrl E patch fuel st.ctx.ctrl = some (some ctrl0, c1))
    (h2 : read_ctrl E patch fuel c1 = some (some ctrl1, c2))
    (h3 : read_ctrl E patch fuel c2 = some (some ctrl2, c3))
    (hchk : ¬ (ctrl0 < 0 ∨ ctrl1 < 0 ∨ wrap64 (st.newpos + ctrl0) > new_size))
    (hd : pull40 E patch fuel st.ctx.diff (to_uint ctrl0) [] = some (true, d1, out_diff)) :
    loop_body E patch old_data old_size new_size fuel st =
      if wrap64 (wrap64 (st.newpos + ctrl0) + ctrl1) > new_size then
        some (.cleanup BSPATCH_ERROR_CORRUPT_PATCH
          { ctx := { st.ctx with ctrl := c3, diff := d1 },
            oldpos := wrap64 (st.oldpos + ctrl0), newpos := wrap64 (st.newpos + ctrl0),
            new_data := add_old old_data old_size st.oldpos st.newpos ctrl0.toNat 0
              (write_bytes st.new_data st.newpos out_diff) })
      else
        match pull40 E patch fuel st.ctx.extra (to_uint ctrl1) [] with
        | none => none
        | some (ok, e1, out) =>
          if ok = false then
            some (.cleanup BSPATCH_ERROR_CORRUPT_PATCH
              { ctx := { ctrl := c3, diff := d1, extra := e1 },
                oldpos := wrap64 (st.oldpos + ctrl0), newpos := wrap64 (st.newpos + ctrl0),
                new_data := write_bytes
                  (add_old old_data old_size st.oldpos st.newpos ctrl0.toNat 0
                    (write_bytes st.new_data st.newpos out_diff))
                  (wrap64 (st.newpos + ctrl0)) out })
          else
            some (.next
              { ctx := { ctrl := c3, diff := d1, extra := e1 },
                oldpos := wrap64 (wrap64 (st.oldpos + ctrl0) + ctrl2),
                newpos := wrap64 (wrap64 (st.newpos + ctrl0) + ctrl1),
                new_data := write_bytes
                  (add_old old_data old_size st.oldpos st.newpos ctrl0.toNat 0
                    (write_bytes st.new_data st.newpos out_diff))
                  (wrap64 (st.newpos + ctrl0)) out }) := by
  simp only [loop_body, h1, h2, h3, hd, if_neg hchk]
  simp only [Bool.true_eq_false, if_false]

theorem old_index_out_of_range (oldpos i old_size : Int) (hop : inInt64 oldpos) (h0 : 0 ≤ i)
    (h1 : i ≤ 9223372036854775807) (h : oldpos + i < 0 ∨ old_size ≤ oldpos + i) :
    ¬ (wrap64 (oldpos + i) ≥ 0 ∧ wrap64 (oldpos + i) < old_size) := by
  unfold inInt64 at hop; unfold wrap64; omega

theorem old_index_in_range (oldpos i old_size : Int) (hos : inInt64 old_size)
    (h : 0 ≤ oldpos + i ∧ oldpos + i < old_size) :
    wrap64 (oldpos + i) = oldpos + i := by
  unfold inInt64 at hos; unfold wrap64; omega

theorem extra_disjoint (newpos ctrl0 i : Int) (len : Nat)
    (hc0 : ctrl0 ≤ 9223372036854775807) (h0 : 0 ≤ i) (h1 : i < ctrl0)
    (hlen : len < 4294967296) :
    ¬ (wrap64 (newpos + ctrl0) ≤ wrap64 (newpos + i) ∧
      wrap64 (newpos + i) < wrap64 (newpos + ctrl0) + len) := by
  unfold wrap64; omega

theorem write_bytes_outside (mem : Mem) (off : Int) (bytes : List Nat) (j : Int)
    (h : ¬ (off ≤ j ∧ j < off + bytes.length)) : write_bytes mem off bytes j = mem j := by
  unfold write_bytes
  rw [if_neg h]

theorem write_bytes_inside (mem : Mem) (off : Int) (bytes : List Nat) (i : Int) (h0 : 0 ≤ i)
    (h1 : i < bytes.length) : write_bytes mem off bytes (off + i) = byteAt bytes i.toNat := by
  unfold write_bytes
  rw [if_pos ⟨by omega, by omega⟩]
  congr 2
  omega

/-- C9: reads outside the old data add nothing and are no error. In one pass
through the loop body of `apply_bsdiff40`, started from any `int64_t` cursor
values, suppose the control tuple `(ctrl0, ctrl1, ctrl2)` is read and accepted
by the first bounds check and the diff pull ends normally with the bytes
`out_diff`. Then `out_diff` has `(unsigned int)ctrl0` bytes and, however the
pass ends, for every `i` in `[0, ctrl0)`: if `oldpos + i < 0` or
`oldpos + i >= old_size`, the output byte at `newpos + i` is the byte the diff
pull left there (`out_diff[i]` for the bytes pulled), and if `oldpos + i` lies
in `[0, old_size)` it is that byte plus `old_data[oldpos + i]` modulo 256.
Whether the pass ends in `goto cleanup` depends on the second bounds check and
the extra pull only: when both go well the pass ends normally. -/
theorem out_of_range_reads_add_nothing {σ : Type} (E : bz_engine σ)
    (patch old_data : List Nat) (old_size new_size : Int) (fuel : Nat) (st : loop_state σ)
    (ctrl0 ctrl1 ctrl2 : Int) (c1 c2 c3 d1 : mem_stream σ) (out_diff : List Nat)
    (hop : inInt64 st.oldpos) (hos : inInt64 old_size)
    (h1 : read_ctrl E patch fuel st.ctx.ctrl = some (some ctrl0, c1))
    (h2 : read_ctrl E patch fuel c1 = some (some ctrl1, c2))
    (h3 : read_ctrl E patch fuel c2 = some (some ctrl2, c3))
    (hchk : ¬ (ctrl0 < 0 ∨ ctrl1 < 0 ∨ wrap64 (st.newpos + ctrl0) > new_size))
    (hd : pull40 E patch fuel st.ctx.diff (to_uint ctrl0) [] = some (true, d1, out_diff)) :
    out_diff.length = to_uint ctrl0 ∧
    (∀ r, loop_body E patch old_data old_size new_size fuel st = some r →
      ∀ i : Int, 0 ≤ i → i < ctrl0 →
        ((st.oldpos + i < 0 ∨ old_size ≤ st.oldpos + i) →
          r.state.new_data (wrap64 (st.newpos + i)) =
            write_bytes st.new_data st.newpos out_diff (wrap64 (st.newpos + i)) ∧
          (i < out_diff.length → st.newpos + i ≤ 9223372036854775807 →
            -9223372036854775808 ≤ st.newpos →
            r.state.new_data (st.newpos + i) = byteAt out_diff i.toNat)) ∧
        ((0 ≤ st.oldpos + i ∧ st.oldpos + i < old_size) →
          r.state.new_data (wrap64 (st.newpos + i)) =
            (write_bytes st.new_data st.newpos out_diff (wrap64 (st.newpos + i)) +
              byteAt old_data (st.oldpos + i).toNat) % 256)) ∧
    (∀ e1 out_extra, ¬ wrap64 (wrap64 (st.newpos + ctrl0) + ctrl1) > new_size →
      pull40 E patch fuel st.ctx.extra (to_uint ctrl1) [] = some (true, e1, out_extra) →
      ∃ st1, loop_body E patch old_data old_size new_size fuel st = some (.next st1)) := by
  have hc0 : 0 ≤ ctrl0 := by clear * - hchk; omega
  have hc0max : ctrl0 ≤ 9223372036854775807 := (read_ctrl_inInt64 E patch fuel _ _ _ h1).2
  have hlen : out_diff.length = to_uint ctrl0 := by
    have := (pull40_length E patch fuel _ _ _ _ _ _ hd).2 rfl
    simpa using this
  have hbody := loop_body_after_diff E patch old_data old_size new_size fuel st ctrl0 ctrl1 ctrl2
    c1 c2 c3 d1 out_diff h1 h2 h3 hchk hd
  have hcount : (0 : Int) + (ctrl0.toNat : Int) ≤ 9223372036854775807 := by
    clear * - hc0 hc0max; omega
  -- the memory right after the addition loop
  have hadd : ∀ i : Int, 0 ≤ i → i < ctrl0 →
      add_old old_data old_size st.oldpos st.newpos ctrl0.toNat 0
          (write_bytes st.new_data st.newpos out_diff) (wrap64 (st.newpos + i)) =
        if wrap64 (st.oldpos + i) ≥ 0 ∧ wrap64 (st.oldpos + i) < old_size then
          (write_bytes st.new_data st.newpos out_diff (wrap64 (st.newpos + i)) +
            byteAt old_data (wrap64 (st.oldpos + i)).toNat) % 256
        else write_bytes st.new_data st.newpos out_diff (wrap64 (st.newpos + i)) :=
    fun i hi0 hi1 => add_old_at old_data old_size st.oldpos st.newpos ctrl0.toNat 0 _
      (le_refl _) hcount i hi0 (by clear * - hi1 hc0; omega)
  -- the memory at the end of the pass agrees with it on the copied span
  have hend : ∀ r, loop_body E patch old_data old_size new_size fuel st = some r →
      ∀ i : Int, 0 ≤ i → i < ctrl0 →
        r.state.new_data (wrap64 (st.newpos + i)) =
          add_old old_data old_size st.oldpos st.newpos ctrl0.toNat 0
            (write_bytes st.new_data st.newpos out_diff) (wrap64 (st.newpos + i)) := by
    intro r hr i hi0 hi1
    rw [hbody] at hr
    split at hr
    · simp only [Option.some.injEq] at hr
      rw [← hr]; rfl
    · rcases hpe : pull40 E patch fuel st.ctx.extra (to_uint ctrl1) [] with _ | ⟨ok, e1, out⟩
      · rw [hpe] at hr; cases hr
      · rw [hpe] at hr
        have hol : out.length < 4294967296 := by
          have h := (pull40_length E patch fuel _ _ _ _ _ _ hpe).1
          have h2 := to_uint_lt ctrl1
          simp only [List.length_nil, Nat.zero_add] at h
          exact lt_of_le_of_lt h h2
        have hdis := extra_disjoint st.newpos ctrl0 i out.length hc0max hi0 hi1 hol
        cases ok
        · simp only [if_true, Option.some.injEq] at hr
          rw [← hr]
          exact write_bytes_outside _ _ _ _ hdis
        · simp only [Bool.true_eq_false, if_false, Option.some.injEq] at hr
          rw [← hr]
          exact write_bytes_outside _ _ _ _ hdis
  refine ⟨hlen, ?_, ?_⟩
  · intro r hr i hi0 hi1
    have he := hend r hr i hi0 hi1
    have ha := hadd i hi0 hi1
    refine ⟨fun hoor => ?_, fun hin => ?_⟩
    · have hno := old_index_out_of_range st.oldpos i old_size hop hi0
        (by clear * - hi1 hc0max; omega) hoor
      rw [if_neg hno] at ha
      refine ⟨he.trans ha, fun hil hnw hnl => ?_⟩
      have hw : wrap64 (st.newpos + i) = st.newpos + i :=
        wrap64_of_inInt64 ⟨by clear * - hnl hi0; omega, hnw⟩
      rw [hw] at he ha
      rw [he, ha]
      exact write_bytes_inside _ _ _ _ hi0 hil
    · have hw := old_index_in_range st.oldpos i old_size hos hin
      rw [hw, if_pos ⟨hin.1, hin.2⟩] at ha
      exact he.trans ha
  · intro e1 out_extra hchk2 hpe
    exact ⟨_, loop_body_next E patch old_data old_size new_size fuel st ctrl0 ctrl1 ctrl2
      c1 c2 c3 d1 e1 out_diff out_extra h1 h2 h3 hchk hd hchk2 hpe⟩

/-- C9 on `rewind_patch`: the whole run gives 11, 22, 30, 40, 51, 62, and in
the second pass, entered with `oldpos = -2`, the bytes at offsets 2 and 3 are
the raw diff bytes 30 and 40 while the bytes at offsets 4 and 5 are the diff
bytes 50 and 60 plus the old bytes 1 and 2. -/
theorem out_of_range_reads_add_nothing_witness :
    observe 6 (bspatch_apply_bytes (stored_engine false) bspatch_stub 20 (some [1, 2, 3, 4]) 4
        (some rewind_patch) 89 (some (fun _ => 0)) (some 6))
      = some (BSPATCH_SUCCESS, [11, 22, 30, 40, 51, 62], some 6) ∧
    (∀ r, loop_body (stored_engine false) rewind_patch [1, 2, 3, 4] 4 6 20 rewind_state = some r →
      r.state.new_data 2 = 30 ∧ r.state.new_data 3 = 40 ∧
      r.state.new_data 4 = 51 ∧ r.state.new_data 5 = 62) := by
  refine ⟨by decide!, ?_⟩
  intro r hr
  have h := (out_of_range_reads_add_nothing (stored_engine false) rewind_patch [1, 2, 3, 4] 4 6
    20 rewind_state 4 0 0
    { state := body 16, next_in := 65, avail_in := 16, data := 32, size := 49, pos := 49 }
    { state := body 8, next_in := 73, avail_in := 8, data := 32, size := 49, pos := 49 }
    { state := idle, next_in := 81, avail_in := 0, data := 32, size := 49, pos := 49 }
    { state := idle, next_in := 88, avail_in := 0, data := 81, size := 7, pos := 7 }
    [30, 40, 50, 60] (by decide) (by decide) (by decide!) (by decide!) (by decide!)
    (by decide) (by decide!)).2.1 r hr
  have e0 := ((h 0 (by decide) (by decide)).1 (Or.inl (by decide))).2 (by decide) (by decide)
    (by decide)
  have e1 := ((h 1 (by decide) (by decide)).1 (Or.inl (by decide))).2 (by decide) (by decide)
    (by decide)
  have e2 := (h 2 (by decide) (by decide)).2 ⟨by decide, by decide⟩
  have e3 := (h 3 (by decide) (by decide)).2 ⟨by decide, by decide⟩
  exact ⟨e0, e1, e2, e3⟩

/-! ## Format detection is unambiguous -/

/-- C18: `detect_format` returns `PATCH_FORMAT_40` exactly when the length is at
least 32 and the first 8 bytes are `BSDIFF40`, returns `PATCH_FORMAT_43` exactly
when the length is at least 24 and the first 16 bytes are `ENDSLEY/BSDIFF43`,
and returns `PATCH_FORMAT_UNKNOWN` exactly when neither holds; no buffer
satisfies both conditions. -/
theorem detect_format_unambiguous (patch_data : List Nat) (patch_size : Int) :
    (detect_format patch_data patch_size = PATCH_FORMAT_40 ↔
      32 ≤ patch_size ∧ patch_data.take 8 = BSPATCH_MAGIC_40) ∧
    (detect_format patch_data patch_size = PATCH_FORMAT_43 ↔
      24 ≤ patch_size ∧ patch_data.take 16 = BSPATCH_MAGIC_43) ∧
    (detect_format patch_data patch_size = PATCH_FORMAT_UNKNOWN ↔
      ¬ (32 ≤ patch_size ∧ patch_data.take 8 = BSPATCH_MAGIC_40) ∧
      ¬ (24 ≤ patch_size ∧ patch_data.take 16 = BSPATCH_MAGIC_43)) ∧
    ¬ ((32 ≤ patch_size ∧ patch_data.take 8 = BSPATCH_MAGIC_40) ∧
      (24 ≤ patch_size ∧ patch_data.take 16 = BSPATCH_MAGIC_43)) := by
  have hex : ¬ ((32 ≤ patch_size ∧ patch_data.take 8 = BSPATCH_MAGIC_40) ∧
      (24 ≤ patch_size ∧ patch_data.take 16 = BSPATCH_MAGIC_43)) :=
    fun h => magic_43_excludes_40 patch_data h.2.2 h.1.2
  unfold detect_format HEADER_SIZE_40 HEADER_SIZE_43
  by_cases h40 : patch_size ≥ 32 ∧ patch_data.take 8 = BSPATCH_MAGIC_40
  · have h43 : ¬ (patch_size ≥ 24 ∧ patch_data.take 16 = BSPATCH_MAGIC_43) :=
      fun h => hex ⟨h40, h⟩
    rw [if_pos h40]
    exact ⟨⟨fun _ => h40, fun _ => rfl⟩, ⟨(fun h => by cases h), fun h => absurd h h43⟩,
      ⟨(fun h => by cases h), fun h => absurd h40 h.1⟩, hex⟩
  · rw [if_neg h40]
    by_cases h43 : patch_size ≥ 24 ∧ patch_data.take 16 = BSPATCH_MAGIC_43
    · rw [if_pos h43]
      exact ⟨⟨(fun h => by cases h), fun h => absurd h h40⟩, ⟨fun _ => h43, fun _ => rfl⟩,
        ⟨(fun h => by cases h), fun h => absurd h43 h.2⟩, hex⟩
    · rw [if_neg h43]
      exact ⟨⟨(fun h => by cases h), fun h => absurd h h40⟩,
        ⟨(fun h => by cases h), fun h => absurd h h43⟩, ⟨fun _ => ⟨h40, h43⟩, fun _ => rfl⟩, hex⟩

/-! ## Return values -/

/-- A pass through the loop body ends in `goto cleanup` with
`BSPATCH_ERROR_CORRUPT_PATCH`, or at the end of the body with `newpos` not
above `new_size`. -/
theorem loop_body_result {σ : Type} (E : bz_engine σ) (patch old_data : List Nat)
    (old_size new_size : Int) (fuel : Nat) (st : loop_state σ) (r : body_result σ)
    (h : loop_body E patch old_data old_size new_size fuel st = some r) :
    (∃ st1, r = .cleanup BSPATCH_ERROR_CORRUPT_PATCH st1) ∨
    (∃ st1, r = .next st1 ∧ st1.newpos ≤ new_size) := by
  rcases h1 : read_ctrl E patch fuel st.ctx.ctrl with _ | ⟨_ | ctrl0, c1⟩
  · simp only [loop_body, h1] at h
    cases h
  · simp only [loop_body, h1, Option.some.injEq] at h
    exact Or.inl ⟨_, h.symm⟩
  rcases h2 : read_ctrl E patch fuel c1 with _ | ⟨_ | ctrl1, c2⟩
  · simp only [loop_body, h1, h2] at h
    cases h
  · simp only [loop_body, h1, h2, Option.some.injEq] at h
    exact Or.inl ⟨_, h.symm⟩
  rcases h3 : read_ctrl E patch fuel c2 with _ | ⟨_ | ctrl2, c3⟩
  · simp only [loop_body, h1, h2, h3] at h
    cases h
  · simp only [loop_body, h1, h2, h3, Option.some.injEq] at h
    exact Or.inl ⟨_, h.symm⟩
  by_cases hchk : ctrl0 < 0 ∨ ctrl1 < 0 ∨ wrap64 (st.newpos + ctrl0) > new_size
  · simp only [loop_body, h1, h2, h3, if_pos hchk, Option.some.injEq] at h
    exact Or.inl ⟨_, h.symm⟩
  rcases hd : pull40 E patch fuel st.ctx.diff (to_uint ctrl0) [] with _ | ⟨ok, d1, out⟩
  · simp only [loop_body, h1, h2, h3, if_neg hchk, hd] at h
    cases h
  cases ok
  · simp only [loop_body, h1, h2, h3, if_neg hchk, hd, if_true, Option.some.injEq] at h
    exact Or.inl ⟨_, h.symm⟩
  rw [loop_body_after_diff E patch old_data old_size new_size fuel st ctrl0 ctrl1 ctrl2
    c1 c2 c3 d1 out h1 h2 h3 hchk hd] at h
  by_cases hchk2 : wrap64 (wrap64 (st.newpos + ctrl0) + ctrl1) > new_size
  · rw [if_pos hchk2] at h
    simp only [Option.some.injEq] at h
    exact Or.inl ⟨_, h.symm⟩
  rw [if_neg hchk2] at h
  rcases he : pull40 E patch fuel st.ctx.extra (to_uint ctrl1) [] with _ | ⟨ok, e1, out2⟩
  · rw [he] at h
    cases h
  rw [he] at h
  cases ok
  · simp only [if_true, Option.some.injEq] at h
    exact Or.inl ⟨_, h.symm⟩
  · simp only [Bool.true_eq_false, if_false, Option.some.injEq] at h
    exact Or.inr ⟨_, h.symm, not_lt.mp hchk2⟩

/-- The replay loop ends with `BSPATCH_ERROR_CORRUPT_PATCH`, or with
`BSPATCH_SUCCESS` and `newpos` not below `new_size`, and then exactly
`new_size` when the loop was entered with `newpos` not above `new_size`. -/
theorem replay_result {σ : Type} (E : bz_engine σ) (patch old_data : List Nat)
    (old_size new_size : Int) (fuel : Nat) :
    ∀ (rounds : Nat) (st st1 : loop_state σ) (result : Int),
      replay E patch old_data old_size new_size fuel rounds st = some (result, st1) →
      result = BSPATCH_ERROR_CORRUPT_PATCH ∨
      (result = BSPATCH_SUCCESS ∧ new_size ≤ st1.newpos ∧
        (st.newpos ≤ new_size → st1.newpos = new_size)) := by
  intro rounds
  induction rounds with
  | zero =>
    intro st st1 result h
    unfold replay at h
    split at h
    · simp only [Option.some.injEq, Prod.mk.injEq] at h
      obtain ⟨rfl, rfl⟩ := h
      have hge : new_size ≤ st.newpos := not_lt.mp (by assumption)
      exact Or.inr ⟨rfl, hge, fun hle => le_antisymm hle hge⟩
    · cases h
  | succ n ih =>
    intro st st1 result h
    by_cases hlt : st.newpos < new_size
    · rcases hb : loop_body E patch old_data old_size new_size fuel st with _ | r
      · rw [replay, if_neg (by simpa using hlt)] at h
        simp only [hb] at h
        cases h
      · rcases loop_body_result E patch old_data old_size new_size fuel st r hb with
          ⟨st2, rfl⟩ | ⟨st2, rfl, hle2⟩
        · rw [replay, if_neg (by simpa using hlt)] at h
          simp only [hb, Option.some.injEq, Prod.mk.injEq] at h
          exact Or.inl h.1.symm
        · rw [replay_step _ _ _ _ _ _ _ _ _ hlt hb] at h
          rcases ih st2 st1 result h with h1 | ⟨h1, h2, h3⟩
          · exact Or.inl h1
          · exact Or.inr ⟨h1, h2, fun _ => h3 hle2⟩
    · rw [replay_done _ _ _ _ _ _ _ _ hlt] at h
      simp only [Option.some.injEq, Prod.mk.injEq] at h
      obtain ⟨rfl, rfl⟩ := h
      have hge : new_size ≤ st.newpos := not_lt.mp hlt
      exact Or.inr ⟨rfl, hge, fun hle => le_antisymm hle hge⟩

/-- The values `apply_bsdiff40` can return. -/
theorem apply_bsdiff40_result {σ : Type} (E : bz_engine σ) (fuel : Nat) (old_data : List Nat)
    (old_size : Int) (patch_data : List Nat) (patch_size : Int) (new_data mem : Mem)
    (new_size result : Int)
    (h : apply_bsdiff40 E fuel old_data old_size patch_data patch_size new_data new_size
      = some (result, mem)) :
    result = BSPATCH_SUCCESS ∨ result = BSPATCH_ERROR_CORRUPT_PATCH ∨
      result = BSPATCH_ERROR_MEMORY := by
  unfold apply_bsdiff40 at h
  simp only at h
  split at h
  · simp only [Option.some.injEq, Prod.mk.injEq] at h
    exact Or.inr (Or.inl h.1.symm)
  split at h
  · simp only [Option.some.injEq, Prod.mk.injEq] at h
    exact Or.inr (Or.inl h.1.symm)
  split at h
  · split at h
    · cases h
    · rename_i r st hrep
      simp only [Option.some.injEq, Prod.mk.injEq] at h
      rcases replay_result _ _ _ _ _ _ _ _ _ _ hrep with h1 | ⟨h1, _⟩
      · exact Or.inr (Or.inl (h.1 ▸ h1))
      · exact Or.inl (h.1 ▸ h1)
  · simp only [Option.some.injEq, Prod.mk.injEq] at h
    exact Or.inr (Or.inr h.1.symm)

/-- The values `apply_bsdiff43` can return. -/
theorem apply_bsdiff43_result {σ : Type} (E : bz_engine σ) (bspatch : bspatch_fn σ)
    (fuel : Nat) (old_data : List Nat) (old_size : Int) (patch_data : List Nat)
    (patch_size : Int) (new_data mem : Mem) (new_size result : Int)
    (h : apply_bsdiff43 E bspatch fuel old_data old_size patch_data patch_size new_data new_size
      = some (result, mem)) :
    result = BSPATCH_SUCCESS ∨ result = BSPATCH_ERROR_CORRUPT_PATCH ∨
      result = BSPATCH_ERROR_MEMORY := by
  unfold apply_bsdiff43 at h
  split at h
  · simp only [Option.some.injEq, Prod.mk.injEq] at h
    exact Or.inr (Or.inr h.1.symm)
  · simp only at h
    split at h
    · cases h
    · simp only [Option.some.injEq, Prod.mk.injEq] at h
      rw [← h.1]
      split
      · exact Or.inr (Or.inl rfl)
      · exact Or.inl rfl

/-- A negative result of `bspatch_new_size` is one of its two error codes. -/
theorem bspatch_new_size_neg (patch_data : Option (List Nat)) (patch_size : Int)
    (h : bspatch_new_size patch_data patch_size < 0) :
    bspatch_new_size patch_data patch_size = BSPATCH_ERROR_INVALID_PATCH ∨
    bspatch_new_size patch_data patch_size = BSPATCH_ERROR_CORRUPT_PATCH := by
  cases patch_data with
  | none => exact Or.inl rfl
  | some p =>
    rcases hd : detect_format p patch_size with _ | _ | _
    · exact Or.inl (bspatch_new_size_unknown _ _ hd)
    · rw [bspatch_new_size_40 _ _ hd] at h ⊢
      split
      · exact Or.inr rfl
      · rename_i hn; rw [if_neg hn] at h; exact absurd h hn
    · rw [bspatch_new_size_43 _ _ hd] at h ⊢
      split
      · exact Or.inr rfl
      · rename_i hn; rw [if_neg hn] at h; exact absurd h hn

/-- The ways a call of `bspatch_apply_bytes` with non-null arguments returns:
with the negative result of `bspatch_new_size`, with
`BSPATCH_ERROR_SIZE_MISMATCH`, or with the result of the engine of the detected
format. -/
theorem bspatch_apply_bytes_nonnull_cases {σ : Type} (E : bz_engine σ)
    (bspatch : bspatch_fn σ) (fuel : Nat) (old_data : List Nat) (old_size : Int)
    (patch_data : List Nat) (patch_size : Int) (new_data : Mem) (new_size : Int)
    (r : apply_result)
    (h : bspatch_apply_bytes_nonnull E bspatch fuel old_data old_size patch_data patch_size
      new_data new_size = some r) :
    (bspatch_new_size (some patch_data) patch_size < 0 ∧
      r = ⟨bspatch_new_size (some patch_data) patch_size, new_data, new_size⟩) ∨
    (0 ≤ bspatch_new_size (some patch_data) patch_size ∧
      new_size < bspatch_new_size (some patch_data) patch_size ∧
      r = ⟨BSPATCH_ERROR_SIZE_MISMATCH, new_data,
        bspatch_new_size (some patch_data) patch_size⟩) ∨
    (0 ≤ bspatch_new_size (some patch_data) patch_size ∧
      bspatch_new_size (some patch_data) patch_size ≤ new_size ∧
      ∃ result mem,
        ((detect_format patch_data patch_size = PATCH_FORMAT_40 ∧
            apply_bsdiff40 E fuel old_data old_size patch_data patch_size new_data
              (bspatch_new_size (some patch_data) patch_size) = some (result, mem)) ∨
          (detect_format patch_data patch_size = PATCH_FORMAT_43 ∧
            apply_bsdiff43 E bspatch fuel old_data old_size patch_data patch_size new_data
              (bspatch_new_size (some patch_data) patch_size) = some (result, mem))) ∧
        r = ⟨result, mem,
          if result = BSPATCH_SUCCESS then bspatch_new_size (some patch_data) patch_size
          else new_size⟩) := by
  unfold bspatch_apply_bytes_nonnull at h
  simp only at h
  by_cases hneg : bspatch_new_size (some patch_data) patch_size < 0
  · rw [if_pos hneg] at h
    simp only [Option.some.injEq] at h
    left
    refine ⟨hneg, ?_⟩
    rw [← h]
    have hw : wrap32 (bspatch_new_size (some patch_data) patch_size) =
        bspatch_new_size (some patch_data) patch_size := by
      rcases bspatch_new_size_neg _ _ hneg with h1 | h1 <;> rw [h1] <;> decide
    rw [hw]
  rw [if_neg hneg] at h
  by_cases hcap : new_size < bspatch_new_size (some patch_data) patch_size
  · rw [if_pos hcap] at h
    simp only [Option.some.injEq] at h
    exact Or.inr (Or.inl ⟨not_lt.mp hneg, hcap, h.symm⟩)
  rw [if_neg hcap] at h
  right; right
  refine ⟨not_lt.mp hneg, not_lt.mp hcap, ?_⟩
  rcases hd : detect_format patch_data patch_size with _ | _ | _
  · exact absurd (bspatch_new_size_unknown _ _ hd ▸ (by decide :
      BSPATCH_ERROR_INVALID_PATCH < 0)) hneg
  · rcases ha : apply_bsdiff40 E fuel old_data old_size patch_data patch_size new_data
        (bspatch_new_size (some patch_data) patch_size) with _ | ⟨result, mem⟩
    · simp only [hd, ha] at h
      cases h
    · simp only [hd, ha, Option.some.injEq] at h
      exact ⟨result, mem, Or.inl ⟨rfl, rfl⟩, h.symm⟩
  · rcases ha : apply_bsdiff43 E bspatch fuel old_data old_size patch_data patch_size new_data
        (bspatch_new_size (some patch_data) patch_size) with _ | ⟨result, mem⟩
    · simp only [hd, ha] at h
      cases h
    · simp only [hd, ha, Option.some.injEq] at h
      exact ⟨result, mem, Or.inr ⟨rfl, rfl⟩, h.symm⟩

/-- The values `bspatch_apply_bytes` can return. -/
theorem bspatch_apply_bytes_ret {σ : Type} (E : bz_engine σ) (bspatch : bspatch_fn σ)
    (fuel : Nat) (old_data : Option (List Nat)) (old_size : Int)
    (patch_data : Option (List Nat)) (patch_size : Int) (new_data : Option Mem)
    (new_size : Option Int) (ret : Int) (m : Option Mem) (s : Option Int)
    (h : bspatch_apply_bytes E bspatch fuel old_data old_size patch_data patch_size new_data
      new_size = some (ret, m, s)) :
    ret = BSPATCH_SUCCESS ∨ ret = BSPATCH_ERROR_INVALID_PATCH ∨
    ret = BSPATCH_ERROR_CORRUPT_PATCH ∨ ret = BSPATCH_ERROR_MEMORY ∨
    ret = BSPATCH_ERROR_SIZE_MISMATCH := by
  have hnull : (some (BSPATCH_ERROR_INVALID_PATCH, new_data, new_size) :
      Option (Int × Option Mem × Option Int)) = some (ret, m, s) →
      ret = BSPATCH_SUCCESS ∨ ret = BSPATCH_ERROR_INVALID_PATCH ∨
      ret = BSPATCH_ERROR_CORRUPT_PATCH ∨ ret = BSPATCH_ERROR_MEMORY ∨
      ret = BSPATCH_ERROR_SIZE_MISMATCH := by
    intro h
    simp only [Option.some.injEq, Prod.mk.injEq] at h
    exact Or.inr (Or.inl h.1.symm)
  rcases old_data with _ | od
  · exact hnull h
  rcases patch_data with _ | pd
  · exact hnull h
  rcases new_data with _ | nd
  · exact hnull h
  rcases new_size with _ | ns
  · exact hnull h
  simp only [bspatch_apply_bytes, Option.map_eq_some'] at h
  obtain ⟨r, hr, hret⟩ := h
  simp only [Prod.mk.injEq] at hret
  rw [← hret.1]
  rcases bspatch_apply_bytes_nonnull_cases E bspatch fuel od old_size pd patch_size nd ns r hr
    with ⟨hneg, rfl⟩ | ⟨_, _, rfl⟩ | ⟨_, _, result, mem, hrun, rfl⟩
  · rcases bspatch_new_size_neg _ _ hneg with h1 | h1
    · exact Or.inr (Or.inl h1)
    · exact Or.inr (Or.inr (Or.inl h1))
  · exact Or.inr (Or.inr (Or.inr (Or.inr rfl)))
  · have h3 : result = BSPATCH_SUCCESS ∨ result = BSPATCH_ERROR_CORRUPT_PATCH ∨
        result = BSPATCH_ERROR_MEMORY := by
      rcases hrun with ⟨_, h40⟩ | ⟨_, h43⟩
      · exact apply_bsdiff40_result _ _ _ _ _ _ _ _ _ _ h40
      · exact apply_bsdiff43_result _ _ _ _ _ _ _ _ _ _ _ h43
    rcases h3 with h3 | h3 | h3
    · exact Or.inl h3
    · exact Or.inr (Or.inr (Or.inl h3))
    · exact Or.inr (Or.inr (Or.inr (Or.inl h3)))

/-- C13: `bspatch_error_string` is a lookup defined on every integer: it maps
0, -1, -2, -3, -4, -5 to six pairwise distinct descriptions and every other
integer to `Unknown error`; and every negative value `bspatch_new_size` returns
and every value other than `BSPATCH_SUCCESS` that `bspatch_apply_bytes`
returns has a description other than `Unknown error`. -/
theorem error_string_lookup :
    bspatch_error_string 0 = "Success" ∧
    bspatch_error_string (-1) = "Invalid patch file" ∧
    bspatch_error_string (-2) = "Corrupt patch file" ∧
    bspatch_error_string (-3) = "Memory allocation failed" ∧
    bspatch_error_string (-4) = "I/O error" ∧
    bspatch_error_string (-5) = "Buffer size mismatch" ∧
    (∀ c : Int, c ≠ 0 → c ≠ -1 → c ≠ -2 → c ≠ -3 → c ≠ -4 → c ≠ -5 →
      bspatch_error_string c = "Unknown error") ∧
    ["Success", "Invalid patch file", "Corrupt patch file", "Memory allocation failed",
      "I/O error", "Buffer size mismatch"].Nodup ∧
    (∀ (patch_data : Option (List Nat)) (patch_size : Int),
      bspatch_new_size patch_data patch_size < 0 →
      bspatch_error_string (bspatch_new_size patch_data patch_size) ≠ "Unknown error") ∧
    (∀ (σ : Type) (E : bz_engine σ) (bspatch : bspatch_fn σ) (fuel : Nat)
      (old_data : Option (List Nat)) (old_size : Int) (patch_data : Option (List Nat))
      (patch_size : Int) (new_data : Option Mem) (new_size : Option Int) (ret : Int)
      (m : Option Mem) (s : Option Int),
      bspatch_apply_bytes E bspatch fuel old_data old_size patch_data patch_size new_data
        new_size = some (ret, m, s) →
      ret ≠ BSPATCH_SUCCESS → bspatch_error_string ret ≠ "Unknown error") := by
  refine ⟨by decide, by decide, by decide, by decide, by decide, by decide, ?_, by decide,
    ?_, ?_⟩
  · intro c h0 h1 h2 h3 h4 h5
    simp only [bspatch_error_string, BSPATCH_SUCCESS, BSPATCH_ERROR_INVALID_PATCH,
      BSPATCH_ERROR_CORRUPT_PATCH, BSPATCH_ERROR_MEMORY, BSPATCH_ERROR_IO,
      BSPATCH_ERROR_SIZE_MISMATCH, if_neg h0, if_neg h1, if_neg h2, if_neg h3, if_neg h4,
      if_neg h5]
  · intro patch_data patch_size hneg
    rcases bspatch_new_size_neg _ _ hneg with h | h <;> rw [h] <;> decide
  · intro σ E bspatch fuel old_data old_size patch_data patch_size new_data new_size ret m s h
      hne
    rcases bspatch_apply_bytes_ret E bspatch fuel old_data old_size patch_data patch_size
      new_data new_size ret m s h with h | h | h | h | h
    · exact absurd h hne
    all_goals (rw [h]; decide)

/-! ## An output of zero bytes, and what a call leaves in `*new_size` -/

/-- C19: a BSDIFF40 patch that declares an output of 0 bytes is accepted
without any decompression. For every recognised BSDIFF40 buffer whose control
and diff lengths are non-negative and fit the buffer and whose output-size
field decodes to 0, with a capacity of at least 0 and the three engine
initialisations succeeding, `bspatch_apply_bytes` returns `BSPATCH_SUCCESS`,
sets `*new_size` to 0 and leaves the output memory as it was. This holds for
every amount of fuel, also for none, which admits no decompress call, and
whatever the engine would do with the bytes behind the header. -/
theorem empty_output_accepted {σ : Type} (E : bz_engine σ) (bspatch : bspatch_fn σ)
    (fuel : Nat) (old_data : List Nat) (old_size : Int) (patch_data : List Nat)
    (patch_size : Int) (new_data : Mem) (capacity : Int) (s0 s1 s2 : σ)
    (hfmt : detect_format patch_data patch_size = PATCH_FORMAT_40)
    (hmax : patch_size ≤ 9223372036854775807)
    (hc : 0 ≤ read_offset patch_data 8) (hd : 0 ≤ read_offset patch_data 16)
    (hfit : 32 + read_offset patch_data 8 + read_offset patch_data 16 ≤ patch_size)
    (hsize : read_offset patch_data 24 = 0) (hcap : 0 ≤ capacity)
    (hi0 : E.init 0 = some s0) (hi1 : E.init 1 = some s1) (hi2 : E.init 2 = some s2) :
    bspatch_apply_bytes E bspatch fuel (some old_data) old_size (some patch_data) patch_size
        (some new_data) (some capacity)
      = some (BSPATCH_SUCCESS, some new_data, some 0) := by
  have h32 := (detect_format_40_size _ _ hfmt).1
  rw [bspatch_apply_bytes_40 E bspatch fuel old_data old_size patch_data patch_size new_data
    capacity hfmt (by rw [hsize]) (by rw [hsize]; exact hcap)]
  rw [apply_bsdiff40_eq_replay E fuel old_data old_size patch_data patch_size new_data _ s0 s1
    s2 h32 hmax hc hd hfit hi0 hi1 hi2, hsize]
  rw [replay_done _ _ _ _ _ _ _ _ (by simp)]
  rfl

/-- C19 at the 34-byte patch `BSDIFF40`, lengths 1 and 1, output size 0 and
two payload bytes that are no stored block. -/
theorem empty_output_accepted_witness :
    bspatch_apply_bytes (stored_engine false) bspatch_stub 0 (some [1, 2, 3]) 3
        (some (BSPATCH_MAGIC_40 ++ field 1 ++ field 1 ++ field 0 ++ [200, 201])) 34
        (some (fun _ => 7)) (some 0)
      = some (BSPATCH_SUCCESS, some (fun _ => 7), some 0) :=
  empty_output_accepted (stored_engine false) bspatch_stub 0 [1, 2, 3] 3
    (BSPATCH_MAGIC_40 ++ field 1 ++ field 1 ++ field 0 ++ [200, 201]) 34 (fun _ => 7) 0
    header header header (by decide) (by decide) (by decide) (by decide) (by decide)
    (by decide) (by decide) rfl rfl rfl

/-- C20: `bspatch_apply_bytes` changes `*new_size` only when it returns
`BSPATCH_ERROR_SIZE_MISMATCH` or `BSPATCH_SUCCESS`. Whenever a call returns
(null arguments included): with any other value, so in particular with
`BSPATCH_ERROR_INVALID_PATCH`, `BSPATCH_ERROR_CORRUPT_PATCH` or
`BSPATCH_ERROR_MEMORY`, `*new_size` is as it was passed in; with
`BSPATCH_ERROR_INVALID_PATCH` the output memory is as it was; and when
`bspatch_new_size` reports an error for the patch, that error is returned and
output memory and `*new_size` are as they were. -/
theorem new_size_frame {σ : Type} (E : bz_engine σ) (bspatch : bspatch_fn σ) (fuel : Nat)
    (old_data : Option (List Nat)) (old_size : Int) (patch_data : Option (List Nat))
    (patch_size : Int) (new_data : Option Mem) (new_size : Option Int) (ret : Int)
    (m : Option Mem) (s : Option Int)
    (h : bspatch_apply_bytes E bspatch fuel old_data old_size patch_data patch_size new_data
      new_size = some (ret, m, s)) :
    (ret ≠ BSPATCH_ERROR_SIZE_MISMATCH → ret ≠ BSPATCH_SUCCESS → s = new_size) ∧
    (ret = BSPATCH_ERROR_INVALID_PATCH ∨ ret = BSPATCH_ERROR_CORRUPT_PATCH ∨
      ret = BSPATCH_ERROR_MEMORY → s = new_size) ∧
    (ret = BSPATCH_ERROR_INVALID_PATCH → m = new_data) ∧
    (bspatch_new_size patch_data patch_size < 0 →
      old_data ≠ none → new_data ≠ none → new_size ≠ none →
      ret = bspatch_new_size patch_data patch_size ∧ m = new_data ∧ s = new_size) := by
  have hmain : (ret ≠ BSPATCH_ERROR_SIZE_MISMATCH → ret ≠ BSPATCH_SUCCESS → s = new_size) ∧
      (ret = BSPATCH_ERROR_INVALID_PATCH → m = new_data) ∧
      (bspatch_new_size patch_data patch_size < 0 →
        old_data ≠ none → new_data ≠ none → new_size ≠ none →
        ret = bspatch_new_size patch_data patch_size ∧ m = new_data ∧ s = new_size) := by
    have hnull : (some (BSPATCH_ERROR_INVALID_PATCH, new_data, new_size) :
        Option (Int × Option Mem × Option Int)) = some (ret, m, s) →
        (old_data = none ∨ patch_data = none ∨ new_data = none ∨ new_size = none) →
        (ret ≠ BSPATCH_ERROR_SIZE_MISMATCH → ret ≠ BSPATCH_SUCCESS → s = new_size) ∧
        (ret = BSPATCH_ERROR_INVALID_PATCH → m = new_data) ∧
        (bspatch_new_size patch_data patch_size < 0 →
          old_data ≠ none → new_data ≠ none → new_size ≠ none →
          ret = bspatch_new_size patch_data patch_size ∧ m = new_data ∧ s = new_size) := by
      intro h hn
      simp only [Option.some.injEq, Prod.mk.injEq] at h
      obtain ⟨rfl, rfl, rfl⟩ := h
      refine ⟨fun _ _ => rfl, fun _ => rfl, fun _ h1 h2 h3 => ?_⟩
      rcases hn with hn | hn | hn | hn
      · exact absurd hn h1
      · rw [hn]; exact ⟨rfl, rfl, rfl⟩
      · exact absurd hn h2
      · exact absurd hn h3
    rcases old_data with _ | od
    · exact hnull h (Or.inl rfl)
    rcases patch_data with _ | pd
    · exact hnull h (Or.inr (Or.inl rfl))
    rcases new_data with _ | nd
    · exact hnull h (Or.inr (Or.inr (Or.inl rfl)))
    rcases new_size with _ | ns
    · exact hnull h (Or.inr (Or.inr (Or.inr rfl)))
    simp only [bspatch_apply_bytes, Option.map_eq_some'] at h
    obtain ⟨r, hr, hret⟩ := h
    simp only [Prod.mk.injEq] at hret
    obtain ⟨rfl, rfl, rfl⟩ := hret
    rcases bspatch_apply_bytes_nonnull_cases E bspatch fuel od old_size pd patch_size nd ns r hr
      with ⟨hneg, rfl⟩ | ⟨hnn, _, rfl⟩ | ⟨hnn, _, result, mem, hrun, rfl⟩
    · exact ⟨fun _ _ => rfl, fun _ => rfl, fun _ _ _ _ => ⟨rfl, rfl, rfl⟩⟩
    · refine ⟨fun h1 _ => absurd rfl h1, fun h1 => ?_,
        fun hneg => absurd hneg (not_lt.mpr hnn)⟩
      have h2 : BSPATCH_ERROR_SIZE_MISMATCH = BSPATCH_ERROR_INVALID_PATCH := h1
      exact absurd h2 (by decide)
    · have h3 : result = BSPATCH_SUCCESS ∨ result = BSPATCH_ERROR_CORRUPT_PATCH ∨
          result = BSPATCH_ERROR_MEMORY := by
        rcases hrun with ⟨_, h40⟩ | ⟨_, h43⟩
        · exact apply_bsdiff40_result _ _ _ _ _ _ _ _ _ _ h40
        · exact apply_bsdiff43_result _ _ _ _ _ _ _ _ _ _ _ h43
      refine ⟨fun _ h2 => ?_, fun h1 => ?_, fun hneg => absurd hneg (not_lt.mpr hnn)⟩
      · show some (if result = BSPATCH_SUCCESS then _ else ns) = some ns
        rw [if_neg h2]
      · exfalso
        have h1 : result = BSPATCH_ERROR_INVALID_PATCH := h1
        rcases h3 with h3 | h3 | h3 <;> rw [h3] at h1 <;> exact absurd h1 (by decide)
  refine ⟨hmain.1, fun hr => hmain.1 ?_ ?_, hmain.2.1, hmain.2.2⟩
  · rcases hr with hr | hr | hr <;> rw [hr] <;> decide
  · rcases hr with hr | hr | hr <;> rw [hr] <;> decide

/-- C20 at `short_ctrl_patch` with an engine that does not resume after the
end of a stream: the call returns `BSPATCH_ERROR_CORRUPT_PATCH`, which is
neither the size-mismatch code nor success, and the capacity 9 passed in
`*new_size` is still there. -/
theorem new_size_frame_witness :
    bspatch_apply_bytes (stored_engine false) bspatch_stub 20
        (some [104, 101, 108, 108, 111]) 5 (some short_ctrl_patch) 65
        (some ((fun _ => 0) : Mem)) (some 9)
      = some (BSPATCH_ERROR_CORRUPT_PATCH, some ((fun _ => 0) : Mem), some 9) ∧
    (BSPATCH_ERROR_CORRUPT_PATCH ≠ BSPATCH_ERROR_SIZE_MISMATCH ∧
      BSPATCH_ERROR_CORRUPT_PATCH ≠ BSPATCH_SUCCESS) ∧
    (some 9 : Option Int) = some 9 :=
  ⟨rfl, ⟨by decide, by decide⟩,
    (new_size_frame (stored_engine false) bspatch_stub 20
      (some [104, 101, 108, 108, 111]) 5 (some short_ctrl_patch) 65
      (some ((fun _ => 0) : Mem)) (some 9)
      BSPATCH_ERROR_CORRUPT_PATCH (some ((fun _ => 0) : Mem)) (some 9) rfl).1
      (by decide) (by decide)⟩

/-! ## The contract of `bz2_mem_read` -/

theorem bz2_mem_read_loop_zero {σ : Type} (E : bz_engine σ) (patch : List Nat) (fuel : Nat)
    (s : mem_stream σ) (acc : List Nat) :
    bz2_mem_read_loop E patch fuel s 0 acc = some (0, s, acc) := by
  unfold bz2_mem_read_loop; simp

theorem bz2_mem_read_loop_succ {σ : Type} (E : bz_engine σ) (patch : List Nat) (fuel : Nat)
    (s : mem_stream σ) (k : Nat) (acc : List Nat) (hk : 0 < k) :
    bz2_mem_read_loop E patch (fuel + 1) s k acc =
      if (BZ2_bzDecompress E patch (refill s) k).1 ≠ BZ_OK ∧
          (BZ2_bzDecompress E patch (refill s) k).1 ≠ BZ_STREAM_END then
        some (-1, (BZ2_bzDecompress E patch (refill s) k).2.1,
          acc ++ (BZ2_bzDecompress E patch (refill s) k).2.2)
      else if (BZ2_bzDecompress E patch (refill s) k).1 = BZ_STREAM_END ∧
          k - (BZ2_bzDecompress E patch (refill s) k).2.2.length > 0 then
        some (-1, (BZ2_bzDecompress E patch (refill s) k).2.1,
          acc ++ (BZ2_bzDecompress E patch (refill s) k).2.2)
      else bz2_mem_read_loop E patch fuel (BZ2_bzDecompress E patch (refill s) k).2.1
        (k - (BZ2_bzDecompress E patch (refill s) k).2.2.length)
        (acc ++ (BZ2_bzDecompress E patch (refill s) k).2.2) := by
  rw [bz2_mem_read_loop, if_neg (by omega)]

/-- The refill with input used up and source bytes left. -/
theorem refill_chunk {σ : Type} (s : mem_stream σ) (ha : s.avail_in = 0) (h0 : 0 ≤ s.pos)
    (h1 : s.pos < s.size) (h2 : s.size ≤ 9223372036854775807) :
    refill s = { s with next_in := s.data + s.pos,
                        avail_in := (min 4096 (s.size - s.pos)).toNat,
                        pos := s.pos + min 4096 (s.size - s.pos) } := by
  have hr : wrap64 (s.size - s.pos) = s.size - s.pos :=
    wrap64_of_inInt64 (by unfold inInt64; omega)
  have hchunk : (if wrap64 (s.size - s.pos) > 4096 then 4096
      else to_uint (wrap64 (s.size - s.pos))) = (min 4096 (s.size - s.pos)).toNat := by
    rw [hr]
    split
    · rw [min_eq_left (by omega)]; rfl
    · rw [min_eq_right (by omega)]
      unfold to_uint
      rw [Int.emod_eq_of_lt (by omega) (by omega)]
  have hpos : wrap64 (s.pos + ((min 4096 (s.size - s.pos)).toNat : Int))
      = s.pos + min 4096 (s.size - s.pos) := by
    have hm : 0 ≤ min 4096 (s.size - s.pos) := le_min (by decide) (by omega)
    rw [Int.toNat_of_nonneg hm]
    have hle : min 4096 (s.size - s.pos) ≤ s.size - s.pos := min_le_right _ _
    exact wrap64_of_inInt64 (by unfold inInt64; omega)
  unfold refill
  rw [if_pos ⟨ha, h1⟩]
  simp only [hchunk, hpos]

/-- The refill when there is input at hand or the source is used up. -/
theorem refill_idle {σ : Type} (s : mem_stream σ) (h : ¬ (s.avail_in = 0 ∧ s.pos < s.size)) :
    refill s = s := by
  unfold refill
  rw [if_neg h]

/-- The refill keeps `0 ≤ pos ≤ size`, and `size` and `data` as they are. -/
theorem refill_position {σ : Type} (s : mem_stream σ) (h0 : 0 ≤ s.pos) (h1 : s.pos ≤ s.size)
    (h2 : s.size ≤ 9223372036854775807) :
    0 ≤ (refill s).pos ∧ (refill s).pos ≤ (refill s).size ∧ (refill s).size = s.size ∧
      (refill s).data = s.data := by
  by_cases hc : s.avail_in = 0 ∧ s.pos < s.size
  · rw [refill_chunk s hc.1 h0 hc.2 h2]
    have hm : 0 ≤ min 4096 (s.size - s.pos) := le_min (by decide) (by omega)
    have hle : min 4096 (s.size - s.pos) ≤ s.size - s.pos := min_le_right _ _
    refine ⟨?_, ?_, rfl, rfl⟩
    · show 0 ≤ s.pos + min 4096 (s.size - s.pos)
      omega
    · show s.pos + min 4096 (s.size - s.pos) ≤ s.size
      omega
  · rw [refill_idle s hc]
    exact ⟨h0, h1, rfl, rfl⟩

/-- What a run of the loop of `bz2_mem_read` returns. -/
theorem bz2_mem_read_loop_result {σ : Type} (E : bz_engine σ) (patch : List Nat) :
    ∀ (fuel : Nat) (s : mem_stream σ) (k : Nat) (acc : List Nat) (ret : Int)
      (s1 : mem_stream σ) (out : List Nat),
      0 ≤ s.pos → s.pos ≤ s.size → s.size ≤ 9223372036854775807 →
      bz2_mem_read_loop E patch fuel s k acc = some (ret, s1, out) →
      (ret = 0 ∨ ret = -1) ∧ out.length ≤ acc.length + k ∧
      (ret = 0 → out.length = acc.length + k) ∧
      0 ≤ s1.pos ∧ s1.pos ≤ s1.size ∧ s1.size = s.size ∧ s1.data = s.data := by
  intro fuel
  induction fuel with
  | zero =>
    intro s k acc ret s1 out h0 h1 h2 h
    rcases Nat.eq_zero_or_pos k with rfl | hk
    · rw [bz2_mem_read_loop_zero] at h
      simp only [Option.some.injEq, Prod.mk.injEq] at h
      obtain ⟨rfl, rfl, rfl⟩ := h
      exact ⟨Or.inl rfl, le_refl _, fun _ => rfl, h0, h1, rfl, rfl⟩
    · rw [bz2_mem_read_loop, if_neg (by omega)] at h
      cases h
  | succ f ih =>
    intro s k acc ret s1 out h0 h1 h2 h
    rcases Nat.eq_zero_or_pos k with rfl | hk
    · rw [bz2_mem_read_loop_zero] at h
      simp only [Option.some.injEq, Prod.mk.injEq] at h
      obtain ⟨rfl, rfl, rfl⟩ := h
      exact ⟨Or.inl rfl, le_refl _, fun _ => rfl, h0, h1, rfl, rfl⟩
    · rw [bz2_mem_read_loop_succ E patch f s k acc hk] at h
      have hle := BZ2_bzDecompress_length_le E patch (refill s) k
      obtain ⟨hp0, hp1, hp2, hp3⟩ := refill_position s h0 h1 h2
      have hq : (BZ2_bzDecompress E patch (refill s) k).2.1.pos = (refill s).pos ∧
          (BZ2_bzDecompress E patch (refill s) k).2.1.size = (refill s).size ∧
          (BZ2_bzDecompress E patch (refill s) k).2.1.data = (refill s).data :=
        ⟨rfl, rfl, rfl⟩
      split at h
      · simp only [Option.some.injEq, Prod.mk.injEq] at h
        obtain ⟨rfl, rfl, rfl⟩ := h
        rw [List.length_append]
        refine ⟨Or.inr rfl, by omega, (fun hc => absurd hc (by decide)), ?_, ?_, ?_, ?_⟩
        · rw [hq.1]; exact hp0
        · rw [hq.1, hq.2.1]; exact hp1
        · rw [hq.2.1]; exact hp2
        · rw [hq.2.2]; exact hp3
      · split at h
        · simp only [Option.some.injEq, Prod.mk.injEq] at h
          obtain ⟨rfl, rfl, rfl⟩ := h
          rw [List.length_append]
          refine ⟨Or.inr rfl, by omega, (fun hc => absurd hc (by decide)), ?_, ?_, ?_, ?_⟩
          · rw [hq.1]; exact hp0
          · rw [hq.1, hq.2.1]; exact hp1
          · rw [hq.2.1]; exact hp2
          · rw [hq.2.2]; exact hp3
        · obtain ⟨r1, r2, r3, r4, r5, r6, r7⟩ := ih _ _ _ _ _ _
            (by rw [hq.1]; exact hp0) (by rw [hq.1, hq.2.1]; exact hp1)
            (by rw [hq.2.1, hp2]; exact h2) h
          rw [List.length_append] at r2 r3
          refine ⟨r1, by omega, (fun hc => by have := r3 hc; omega), r4, r5, ?_, ?_⟩
          · rw [r6, hq.2.1]; exact hp2
          · rw [r7, hq.2.2]; exact hp3

/-- C12: the contract of `bz2_mem_read`, for every engine, every patch buffer
and every length `0 ≤ n ≤ INT_MAX`, on a context with `0 ≤ pos ≤ size`.
(1) A call that returns, returns 0 or -1; it stores at most `n` bytes and,
when it returns 0, exactly `n`; its context still has `0 ≤ pos ≤ size` with
`size` and `data` unchanged. (2) In every round of the loop (room for `k > 0`
bytes left, `acc` stored so far): when the engine reports a status other than
`BZ_OK` and `BZ_STREAM_END`, or reports `BZ_STREAM_END` having stored fewer
than `k` bytes, the function returns -1 at once; otherwise the loop goes on
with the room that is left. (3) The refill at the head of a round: when no
input is at hand and `pos < size`, the engine is handed
`min(4096, size - pos)` bytes starting at `data + pos` and `pos` moves on by
that amount; otherwise the stream is left alone; either way `0 ≤ pos ≤ size`
holds afterwards, and the engine call changes neither `pos` nor `size`. -/
theorem bz2_mem_read_contract {σ : Type} (E : bz_engine σ) (patch : List Nat)
    (ctx : mem_stream σ) (n : Int) (hn0 : 0 ≤ n) (hn : n ≤ 2147483647)
    (hpos : 0 ≤ ctx.pos) (hps : ctx.pos ≤ ctx.size) (hsz : ctx.size ≤ 9223372036854775807) :
    (∀ (fuel : Nat) (ret : Int) (ctx1 : mem_stream σ) (out : List Nat),
      bz2_mem_read E patch fuel ctx n = some (ret, ctx1, out) →
      (ret = 0 ∨ ret = -1) ∧ (out.length : Int) ≤ n ∧ (ret = 0 → (out.length : Int) = n) ∧
      0 ≤ ctx1.pos ∧ ctx1.pos ≤ ctx1.size ∧ ctx1.size = ctx.size ∧ ctx1.data = ctx.data) ∧
    (∀ (fuel : Nat) (s : mem_stream σ) (k : Nat) (acc : List Nat), 0 < k →
      ((BZ2_bzDecompress E patch (refill s) k).1 = BZ_OTHER ∨
        ((BZ2_bzDecompress E patch (refill s) k).1 = BZ_STREAM_END ∧
          (BZ2_bzDecompress E patch (refill s) k).2.2.length < k) →
        bz2_mem_read_loop E patch (fuel + 1) s k acc =
          some (-1, (BZ2_bzDecompress E patch (refill s) k).2.1,
            acc ++ (BZ2_bzDecompress E patch (refill s) k).2.2)) ∧
      (¬ ((BZ2_bzDecompress E patch (refill s) k).1 = BZ_OTHER ∨
        ((BZ2_bzDecompress E patch (refill s) k).1 = BZ_STREAM_END ∧
          (BZ2_bzDecompress E patch (refill s) k).2.2.length < k)) →
        bz2_mem_read_loop E patch (fuel + 1) s k acc =
          bz2_mem_read_loop E patch fuel (BZ2_bzDecompress E patch (refill s) k).2.1
            (k - (BZ2_bzDecompress E patch (refill s) k).2.2.length)
            (acc ++ (BZ2_bzDecompress E patch (refill s) k).2.2))) ∧
    (∀ s : mem_stream σ, 0 ≤ s.pos → s.pos ≤ s.size → s.size ≤ 9223372036854775807 →
      (s.avail_in = 0 ∧ s.pos < s.size →
        refill s = { s with next_in := s.data + s.pos,
                            avail_in := (min 4096 (s.size - s.pos)).toNat,
                            pos := s.pos + min 4096 (s.size - s.pos) } ∧
        ∀ k : Nat, BZ2_bzDecompress E patch (refill s) k =
          ((E.decompress s.state ((patch.drop (s.data + s.pos).toNat).take
              (min 4096 (s.size - s.pos)).toNat) k).ret,
            (BZ2_bzDecompress E patch (refill s) k).2.1,
            (E.decompress s.state ((patch.drop (s.data + s.pos).toNat).take
              (min 4096 (s.size - s.pos)).toNat) k).produced.take k)) ∧
      (¬ (s.avail_in = 0 ∧ s.pos < s.size) → refill s = s) ∧
      0 ≤ (refill s).pos ∧ (refill s).pos ≤ (refill s).size ∧ (refill s).size = s.size ∧
      ∀ k : Nat, (BZ2_bzDecompress E patch (refill s) k).2.1.pos = (refill s).pos ∧
        (BZ2_bzDecompress E patch (refill s) k).2.1.size = s.size) := by
  refine ⟨?_, ?_, ?_⟩
  · intro fuel ret ctx1 out h
    have hu : to_uint n = n.toNat := by
      unfold to_uint
      rw [Int.emod_eq_of_lt hn0 (by omega)]
    unfold bz2_mem_read at h
    rw [hu] at h
    obtain ⟨r1, r2, r3, r4⟩ := bz2_mem_read_loop_result E patch fuel ctx _ _ _ _ _ hpos hps hsz h
    simp only [List.length_nil, Nat.zero_add] at r2 r3
    refine ⟨r1, by omega, (fun hc => by have := r3 hc; omega), r4⟩
  · intro fuel s k acc hk
    rw [bz2_mem_read_loop_succ E patch fuel s k acc hk]
    have hle := BZ2_bzDecompress_length_le E patch (refill s) k
    constructor
    · rintro (h | ⟨h1, h2⟩)
      · rw [if_pos (by rw [h]; exact ⟨by decide, by decide⟩)]
      · rw [if_neg (fun hc => hc.2 h1), if_pos ⟨h1, by omega⟩]
    · intro hnot
      have h1 : ¬ ((BZ2_bzDecompress E patch (refill s) k).1 ≠ BZ_OK ∧
          (BZ2_bzDecompress E patch (refill s) k).1 ≠ BZ_STREAM_END) := by
        intro hc
        apply hnot
        left
        cases hr : (BZ2_bzDecompress E patch (refill s) k).1
        · exact absurd hr hc.1
        · exact absurd hr hc.2
        · rfl
      have h2 : ¬ ((BZ2_bzDecompress E patch (refill s) k).1 = BZ_STREAM_END ∧
          k - (BZ2_bzDecompress E patch (refill s) k).2.2.length > 0) := by
        intro hc
        exact hnot (Or.inr ⟨hc.1, by omega⟩)
      rw [if_neg h1, if_neg h2]
  · intro s h0 h1 h2
    obtain ⟨p0, p1, p2, _⟩ := refill_position s h0 h1 h2
    refine ⟨fun hc => ⟨refill_chunk s hc.1 h0 hc.2 h2, fun k => ?_⟩, refill_idle s, p0, p1, p2,
      fun k => ⟨rfl, p2⟩⟩
    rw [refill_chunk s hc.1 h0 hc.2 h2]
    rfl

/-- C12 at the control segment of `hello_patch`: a read of 8 bytes returns 0
with exactly 8 bytes stored and the 25 source bytes handed over in one chunk. -/
theorem bz2_mem_read_contract_witness :
    bz2_mem_read (stored_engine false) hello_patch 20 (segment_stream header 32 25) 8
      = some (0, { state := body 16, next_in := 41, avail_in := 16, data := 32, size := 25,
                   pos := 25 }, [5, 0, 0, 0, 0, 0, 0, 0]) ∧
    refill (segment_stream header 32 25)
      = { state := header, next_in := 32, avail_in := 25, data := 32, size := 25, pos := 25 } ∧
    ((([5, 0, 0, 0, 0, 0, 0, 0] : List Nat).length : Int) = 8) :=
  ⟨by decide!, by decide!,
    ((bz2_mem_read_contract (stored_engine false) hello_patch (segment_stream header 32 25) 8
      (by decide) (by decide) (by decide) (by decide) (by decide)).1 20 0
      { state := body 16, next_in := 41, avail_in := 16, data := 32, size := 25, pos := 25 }
      [5, 0, 0, 0, 0, 0, 0, 0] (by decide!)).2.2.1 rfl⟩

/-! ## Reads of the old data -/

/-- C16: the old data is read in bounds. The only read of `old_data` in
`apply_bsdiff40` is the one in its addition loop. For every old buffer that
holds `old_size` bytes and every value of the cursors `oldpos` and `newpos`
(whatever the control tuples made of them, sums taken modulo 2^64), every
count, index and output memory, each read of the loop is at an index in
`[0, old_size)` inside the buffer: the loop with checked reads never fails and
computes what the loop of the code computes. -/
theorem old_reads_in_bounds (old_data : List Nat) (old_size : Int)
    (hold : old_size ≤ old_data.length) (oldpos newpos : Int) :
    (∀ index : Int, (0 ≤ index ∧ index < old_size) →
      old_read old_data old_size index = some (byteAt old_data index.toNat)) ∧
    (∀ index : Int, ¬ (0 ≤ index ∧ index < old_size) →
      old_read old_data old_size index = none) ∧
    ∀ (count : Nat) (i : Int) (mem : Mem),
      add_old_checked old_data old_size oldpos newpos count i mem
        = some (add_old old_data old_size oldpos newpos count i mem) := by
  have hin : ∀ index : Int, (0 ≤ index ∧ index < old_size) →
      old_read old_data old_size index = some (byteAt old_data index.toNat) := by
    intro index h
    unfold old_read
    rw [if_pos ⟨h.1, h.2, by omega⟩]
  refine ⟨hin, ?_, ?_⟩
  · intro index h
    unfold old_read
    rw [if_neg (fun hc => h ⟨hc.1, hc.2.1⟩)]
  · intro count
    induction count with
    | zero => intro i mem; rfl
    | succ c ih =>
      intro i mem
      unfold add_old_checked add_old
      by_cases hg : wrap64 (oldpos + i) ≥ 0 ∧ wrap64 (oldpos + i) < old_size
      · simp only [if_pos hg, hin _ hg]
        exact ih _ _
      · simp only [if_neg hg]
        exact ih _ _

/-- C16 on the four bytes `[1, 2, 3, 4]` with the old cursor at -2: six rounds
of the loop, of which the first two and the last have their index outside the
old data. -/
theorem old_reads_in_bounds_witness :
    add_old_checked [1, 2, 3, 4] 4 (-2) 0 7 0 (fun _ => 0)
      = some (add_old [1, 2, 3, 4] 4 (-2) 0 7 0 (fun _ => 0)) ∧
    (List.range 8).map (fun j => add_old [1, 2, 3, 4] 4 (-2) 0 7 0 (fun _ => 0) j)
      = [0, 0, 1, 2, 3, 4, 0, 0] :=
  ⟨(old_reads_in_bounds [1, 2, 3, 4] 4 (by decide) (-2) 0).2.2 7 0 (fun _ => 0), by decide!⟩

/-! ## Copy lengths of 2^32 and more -/

/-- With no old data the addition loop changes nothing. -/
theorem add_old_empty (old_data : List Nat) (old_size oldpos newpos : Int)
    (h : old_size ≤ 0) :
    ∀ (count : Nat) (i : Int) (mem : Mem),
      add_old old_data old_size oldpos newpos count i mem = mem := by
  intro count
  induction count with
  | zero => intro i mem; rfl
  | succ c ih =>
    intro i mem
    unfold add_old
    have hg : ¬ (wrap64 (oldpos + i) ≥ 0 ∧ wrap64 (oldpos + i) < old_size) := by
      intro hc
      have h1 := hc.1
      have h2 := hc.2
      generalize wrap64 (oldpos + i) = w at h1 h2
      omega
    simp only [if_neg hg]
    exact ih _ _

/-- The one pass of the replay loop over `big_copy_patch`. -/
theorem big_copy_loop_body (new_data : Mem) :
    loop_body (stored_engine false) big_copy_patch [] 0 4294967296 20
        { ctx := { ctrl := segment_stream header 32 25, diff := segment_stream header 57 2,
                   extra := segment_stream header 59 1 },
          oldpos := 0, newpos := 0, new_data := new_data }
      = some (.next
        { ctx := { ctrl := { state := idle, next_in := 57, avail_in := 0, data := 32,
                             size := 25, pos := 25 },
                   diff := segment_stream header 57 2,
                   extra := segment_stream header 59 1 },
          oldpos := 4294967296, newpos := 4294967296, new_data := new_data }) := by
  have h1 : read_ctrl (stored_engine false) big_copy_patch 20 (segment_stream header 32 25)
      = some (some 4294967296,
          { state := body 16, next_in := 41, avail_in := 16, data := 32, size := 25,
            pos := 25 }) := by decide!
  have h2 : read_ctrl (stored_engine false) big_copy_patch 20
        { state := body 16, next_in := 41, avail_in := 16, data := 32, size := 25, pos := 25 }
      = some (some 0,
          { state := body 8, next_in := 49, avail_in := 8, data := 32, size := 25,
            pos := 25 }) := by decide!
  have h3 : read_ctrl (stored_engine false) big_copy_patch 20
        { state := body 8, next_in := 49, avail_in := 8, data := 32, size := 25, pos := 25 }
      = some (some 0,
          { state := idle, next_in := 57, avail_in := 0, data := 32, size := 25,
            pos := 25 }) := by decide!
  have hc : ¬ ((4294967296 : Int) < 0 ∨ (0 : Int) < 0 ∨
      wrap64 (0 + 4294967296) > 4294967296) := by decide
  have hd : pull40 (stored_engine false) big_copy_patch 20 (segment_stream header 57 2)
      (to_uint 4294967296) [] = some (true, segment_stream header 57 2, []) := by decide!
  have hc2 : ¬ wrap64 (wrap64 (0 + 4294967296) + 0) > 4294967296 := by decide
  have he : pull40 (stored_engine false) big_copy_patch 20 (segment_stream header 59 1)
      (to_uint 0) [] = some (true, segment_stream header 59 1, []) := by decide!
  have hb := loop_body_next (stored_engine false) big_copy_patch [] 0 4294967296 20
    { ctx := { ctrl := segment_stream header 32 25, diff := segment_stream header 57 2,
               extra := segment_stream header 59 1 },
      oldpos := 0, newpos := 0, new_data := new_data }
    4294967296 0 0
    { state := body 16, next_in := 41, avail_in := 16, data := 32, size := 25, pos := 25 }
    { state := body 8, next_in := 49, avail_in := 8, data := 32, size := 25, pos := 25 }
    { state := idle, next_in := 57, avail_in := 0, data := 32, size := 25, pos := 25 }
    (segment_stream header 57 2) (segment_stream header 59 1) [] []
    h1 h2 h3 hc hd hc2 he
  rw [hb]
  simp only [write_bytes_nil, add_old_empty [] 0 0 0 (le_refl _)]
  have h1 : wrap64 (wrap64 ((0 : Int) + 4294967296) + 0) = 4294967296 := by decide
  rw [h1]

/-- The run of `bspatch_apply_bytes` on `big_copy_patch`. -/
theorem big_copy_run (new_data : Mem) :
    bspatch_apply_bytes (stored_engine false) bspatch_stub 20 (some []) 0
        (some big_copy_patch) 60 (some new_data) (some 4294967296)
      = some (BSPATCH_SUCCESS, some new_data, some 4294967296) := by
  have h24 : read_offset big_copy_patch 24 = 4294967296 := by decide
  have h8 : read_offset big_copy_patch 8 = 25 := by decide
  have h16 : read_offset big_copy_patch 16 = 2 := by decide
  rw [bspatch_apply_bytes_40 (stored_engine false) bspatch_stub 20 [] 0 big_copy_patch 60
    new_data 4294967296 (by decide) (by rw [h24]; decide) (by rw [h24])]
  rw [apply_bsdiff40_eq_replay (stored_engine false) 20 [] 0 big_copy_patch 60 new_data _
    header header header (by decide) (by decide) (by rw [h8]; decide) (by rw [h16]; decide)
    (by rw [h8, h16]; decide) rfl rfl rfl]
  rw [h24, h8, h16]
  have hs : ((60 : Int) - 32 - 25 - 2) = 1 := by decide
  have hs1 : ((32 : Int) + 25) = 57 := by decide
  have hs2 : ((32 : Int) + 25 + 2) = 59 := by decide
  rw [hs, hs2, hs1]
  rw [show (20 : Nat) = 19 + 1 from rfl]
  rw [replay_step _ _ _ _ _ _ 19 _ _ (show (0 : Int) < 4294967296 by decide)
    (big_copy_loop_body new_data)]
  rw [replay_done _ _ _ _ _ _ _ _ (show ¬ (4294967296 : Int) < 4294967296 by decide)]
  rfl

/-- On success `*new_size` holds the size that `bspatch_new_size` gives for the
patch. -/
theorem success_new_size {σ : Type} (E : bz_engine σ) (bspatch : bspatch_fn σ) (fuel : Nat)
    (old_data : Option (List Nat)) (old_size : Int) (patch_data : Option (List Nat))
    (patch_size : Int) (new_data : Option Mem) (new_size : Option Int)
    (m : Option Mem) (s : Option Int)
    (h : bspatch_apply_bytes E bspatch fuel old_data old_size patch_data patch_size new_data
      new_size = some (BSPATCH_SUCCESS, m, s)) :
    s = some (bspatch_new_size patch_data patch_size) := by
  have hnull : (some (BSPATCH_ERROR_INVALID_PATCH, new_data, new_size) :
      Option (Int × Option Mem × Option Int)) = some (BSPATCH_SUCCESS, m, s) →
      s = some (bspatch_new_size patch_data patch_size) := by
    intro h
    simp only [Option.some.injEq, Prod.mk.injEq] at h
    exact absurd h.1 (by decide)
  rcases old_data with _ | od
  · exact hnull h
  rcases patch_data with _ | pd
  · exact hnull h
  rcases new_data with _ | nd
  · exact hnull h
  rcases new_size with _ | ns
  · exact hnull h
  simp only [bspatch_apply_bytes, Option.map_eq_some'] at h
  obtain ⟨r, hr, hret⟩ := h
  simp only [Prod.mk.injEq] at hret
  obtain ⟨h1, _, h3⟩ := hret
  rw [← h3]
  rcases bspatch_apply_bytes_nonnull_cases E bspatch fuel od old_size pd patch_size nd ns r hr
    with ⟨hneg, rfl⟩ | ⟨_, _, rfl⟩ | ⟨_, _, result, mem, _, rfl⟩
  · exfalso
    have h1 : bspatch_new_size (some pd) patch_size = BSPATCH_SUCCESS := h1
    rw [h1] at hneg
    exact absurd hneg (by decide)
  · exfalso
    have h1 : BSPATCH_ERROR_SIZE_MISMATCH = BSPATCH_SUCCESS := h1
    exact absurd h1 (by decide)
  · have h1 : result = BSPATCH_SUCCESS := h1
    show some (if result = BSPATCH_SUCCESS then _ else ns) = _
    rw [if_pos h1]

/-- C15 (failing input): the copy length is cut to 32 bits before it is used
as the number of bytes to pull. The tuple `(2^32, 0, 0)` of `big_copy_patch`
passes validation against the declared output size 2^32; the number of bytes
requested from the diff stream is `(unsigned int)ctrl[0] = 0`, not 2^32: the
pass through the loop body leaves the diff stream as it was before its first
engine call and the output memory unchanged, and advances `newpos` by 2^32. -/
theorem copy_length_truncated (new_data : Mem) :
    read_offset big_copy_patch 24 = 4294967296 ∧
    read_ctrl (stored_engine false) big_copy_patch 20 (segment_stream header 32 25)
      = some (some 4294967296,
          { state := body 16, next_in := 41, avail_in := 16, data := 32, size := 25,
            pos := 25 }) ∧
    ¬ (4294967296 < (0 : Int) ∨ (0 : Int) < 0 ∨ wrap64 (0 + 4294967296) > 4294967296) ∧
    to_uint 4294967296 = 0 ∧
    pull40 (stored_engine false) big_copy_patch 20 (segment_stream header 57 2)
        (to_uint 4294967296) []
      = some (true, segment_stream header 57 2, []) ∧
    loop_body (stored_engine false) big_copy_patch [] 0 4294967296 20
        { ctx := { ctrl := segment_stream header 32 25, diff := segment_stream header 57 2,
                   extra := segment_stream header 59 1 },
          oldpos := 0, newpos := 0, new_data := new_data }
      = some (.next
        { ctx := { ctrl := { state := idle, next_in := 57, avail_in := 0, data := 32,
                             size := 25, pos := 25 },
                   diff := segment_stream header 57 2,
                   extra := segment_stream header 59 1 },
          oldpos := 4294967296, newpos := 4294967296, new_data := new_data }) :=
  ⟨by decide, by decide!, by decide, by decide, by decide!, big_copy_loop_body new_data⟩

/-- C11 (failing input): success without the declared number of output bytes.
`bspatch_new_size` gives 2^32 for `big_copy_patch`; `bspatch_apply_bytes` on
it, with no old data and a capacity of 2^32, returns `BSPATCH_SUCCESS` and sets
`*new_size` to 2^32, and the output memory is what it was before the call: not
one of the 2^32 bytes was produced. -/
theorem success_without_output (new_data : Mem) :
    bspatch_new_size (some big_copy_patch) 60 = 4294967296 ∧
    bspatch_apply_bytes (stored_engine false) bspatch_stub 20 (some []) 0
        (some big_copy_patch) 60 (some new_data) (some 4294967296)
      = some (BSPATCH_SUCCESS, some new_data, some 4294967296) :=
  ⟨by decide, big_copy_run new_data⟩

/-! ## Termination of the pull loops -/

theorem sticky_engine_progress : makes_progress sticky_engine := by
  intro s input k hk hok
  change (sticky_decompress s input k).ret = BZ_OK at hok
  change 0 < min (sticky_decompress s input k).consumed input.length ∨
    0 < ((sticky_decompress s input k).produced.take k).length
  unfold sticky_decompress at hok ⊢
  by_cases hc : s = idle ∨ input = []
  · rw [if_pos hc] at hok
    cases hok
  · rw [if_neg hc] at hok ⊢
    rcases input with _ | ⟨n, rest⟩
    · exact absurd (Or.inr rfl) hc
    · rcases s with _ | j | _
      · left
        simp only [stored_decompress, stored_header] at hok ⊢
        by_cases hn : n = 0
        · rw [if_pos hn] at hok
          cases hok
        · rw [if_neg hn]
          simp
      · left
        simp only [stored_decompress] at hok ⊢
        by_cases hm : min j (min (n :: rest).length k) = j
        · rw [if_pos hm] at hok
          cases hok
        · simp only [List.length_cons] at hm ⊢
          omega
      · exact absurd (Or.inl rfl) hc

/-- With the source used up, a pull loop of `apply_bsdiff40` that still wants
output never returns on `sticky_engine`: every call reports `BZ_STREAM_END`,
which the loop does not test for. -/
theorem pull40_exhausted (patch : List Nat) :
    ∀ (fuel : Nat) (s : mem_stream stored_state) (k : Nat) (acc : List Nat), 0 < k →
      s.avail_in = 0 → ¬ s.pos < s.size → pull40 sticky_engine patch fuel s k acc = none := by
  intro fuel
  induction fuel with
  | zero =>
    intro s k acc hk _ _
    rw [pull40, if_neg (by omega)]
  | succ f ih =>
    intro s k acc hk ha hp
    have hr : refill s = s := refill_idle s (fun hc => hp hc.2)
    have hstep : BZ2_bzDecompress sticky_engine patch s k =
        (BZ_STREAM_END, { s with state := idle, next_in := s.next_in + (0 : Nat),
                                 avail_in := 0 }, []) := by
      simp [BZ2_bzDecompress, sticky_engine, sticky_decompress, ha]
    rw [pull40_succ _ _ _ _ _ _ hk, hr, hstep]
    simp only [ne_eq, not_true_eq_false, and_false, if_false, List.length_nil, Nat.sub_zero]
    exact ih _ _ _ hk rfl hp

/-- The first pull of the control loop on `truncated_patch` never returns. -/
theorem truncated_ctrl_pull (fuel : Nat) :
    pull40 sticky_engine truncated_patch fuel (segment_stream header 32 4) 8 [] = none := by
  have h1 : BZ2_bzDecompress sticky_engine truncated_patch
      (refill (segment_stream header 32 4)) 8
      = (BZ_OK, { state := body 24, next_in := 33, avail_in := 3, data := 32, size := 4,
                  pos := 4 }, []) := by decide!
  have h2 : BZ2_bzDecompress sticky_engine truncated_patch
      (refill { state := body 24, next_in := 33, avail_in := 3, data := 32, size := 4,
                pos := 4 }) 8
      = (BZ_OK, { state := body 21, next_in := 36, avail_in := 0, data := 32, size := 4,
                  pos := 4 }, [5, 0, 0]) := by decide!
  rcases fuel with _ | _ | f
  · rw [pull40, if_neg (by decide)]
  · rw [pull40_succ _ _ _ _ _ _ (by decide), h1]
    simp only [ne_eq, not_true_eq_false, false_and, if_false, List.length_nil, Nat.sub_zero,
      List.append_nil]
    rw [pull40, if_neg (by decide)]
  · rw [pull40_succ _ _ _ _ _ _ (by decide), h1]
    simp only [ne_eq, not_true_eq_false, false_and, if_false, List.length_nil, Nat.sub_zero,
      List.append_nil]
    rw [pull40_succ _ _ _ _ _ _ (by decide), h2]
    simp only [ne_eq, not_true_eq_false, false_and, if_false]
    exact pull40_exhausted _ _ _ _ _ (by decide) rfl (by decide)

/-- When the first pull of a pass never returns, the replay loop never returns. -/
theorem replay_stuck {σ : Type} (E : bz_engine σ) (patch old_data : List Nat)
    (old_size new_size : Int) (st : loop_state σ) (h : st.newpos < new_size)
    (hp : ∀ fuel, pull40 E patch fuel st.ctx.ctrl 8 [] = none) (fuel rounds : Nat) :
    replay E patch old_data old_size new_size fuel rounds st = none := by
  have hb : loop_body E patch old_data old_size new_size fuel st = none := by
    simp only [loop_body, read_ctrl, hp fuel]
  rcases rounds with _ | r
  · rw [replay, if_neg (by simpa using h)]
  · rw [replay, if_neg (by simpa using h)]
    simp only [hb]

/-- The run of `bspatch_apply_bytes` on `truncated_patch` never returns. -/
theorem truncated_run (fuel : Nat) (old_data : List Nat) (old_size : Int) (new_data : Mem) :
    bspatch_apply_bytes sticky_engine bspatch_stub fuel (some old_data) old_size
        (some truncated_patch) 36 (some new_data) (some 5) = none := by
  have h24 : read_offset truncated_patch 24 = 5 := by decide
  have h8 : read_offset truncated_patch 8 = 4 := by decide
  have h16 : read_offset truncated_patch 16 = 0 := by decide
  rw [bspatch_apply_bytes_40 sticky_engine bspatch_stub fuel old_data old_size truncated_patch
    36 new_data 5 (by decide) (by rw [h24]; decide) (by rw [h24])]
  rw [apply_bsdiff40_eq_replay sticky_engine fuel old_data old_size truncated_patch 36 new_data
    _ header header header (by decide) (by decide) (by rw [h8]; decide) (by rw [h16])
    (by rw [h8, h16]; decide) rfl rfl rfl]
  rw [h24, h8, h16]
  rw [replay_stuck _ _ _ _ _ _ (show (0 : Int) < 5 by decide) truncated_ctrl_pull]
  rfl

/-- The refill keeps the number of source bytes that are at hand or still to
come. -/
theorem refill_supply {σ : Type} (s : mem_stream σ) (h0 : 0 ≤ s.pos) (_ : s.pos ≤ s.size)
    (h2 : s.size ≤ 9223372036854775807) :
    (refill s).avail_in + ((refill s).size - (refill s).pos).toNat
      = s.avail_in + (s.size - s.pos).toNat := by
  by_cases hc : s.avail_in = 0 ∧ s.pos < s.size
  · rw [refill_chunk s hc.1 h0 hc.2 h2]
    have hm : 0 ≤ min 4096 (s.size - s.pos) := le_min (by decide) (by omega)
    have hle : min 4096 (s.size - s.pos) ≤ s.size - s.pos := min_le_right _ _
    show (min 4096 (s.size - s.pos)).toNat + (s.size - (s.pos + min 4096 (s.size - s.pos))).toNat
      = s.avail_in + (s.size - s.pos).toNat
    rw [hc.1]
    generalize min 4096 (s.size - s.pos) = c at hm hle
    omega
  · rw [refill_idle s hc]

/-- The loop of `bz2_mem_read` returns on every engine that makes progress:
a fuel of the output wanted plus the source bytes at hand and to come is
enough. -/
theorem bz2_mem_read_loop_terminates {σ : Type} (E : bz_engine σ) (hE : makes_progress E)
    (patch : List Nat) :
    ∀ (fuel : Nat) (s : mem_stream σ) (k : Nat) (acc : List Nat),
      0 ≤ s.pos → s.pos ≤ s.size → s.size ≤ 9223372036854775807 →
      k + s.avail_in + (s.size - s.pos).toNat ≤ fuel →
      ∃ r, bz2_mem_read_loop E patch fuel s k acc = some r := by
  intro fuel
  induction fuel with
  | zero =>
    intro s k acc _ _ _ hf
    have hk : k = 0 := by omega
    rw [hk, bz2_mem_read_loop_zero]
    exact ⟨_, rfl⟩
  | succ f ih =>
    intro s k acc h0 h1 h2 hf
    rcases Nat.eq_zero_or_pos k with rfl | hk
    · rw [bz2_mem_read_loop_zero]
      exact ⟨_, rfl⟩
    · rw [bz2_mem_read_loop_succ E patch f s k acc hk]
      obtain ⟨p0, p1, p2, _⟩ := refill_position s h0 h1 h2
      have hsup := refill_supply s h0 h1 h2
      have hle := BZ2_bzDecompress_length_le E patch (refill s) k
      split
      · exact ⟨_, rfl⟩
      · split
        · exact ⟨_, rfl⟩
        · rename_i hn1 hn2
          rcases hret : (BZ2_bzDecompress E patch (refill s) k).1 with _ | _ | _
          · -- BZ_OK: input was taken or output stored
            have hprog := hE (refill s).state
              ((patch.drop (refill s).next_in.toNat).take (refill s).avail_in) k hk hret
            have hlen : ((patch.drop (refill s).next_in.toNat).take (refill s).avail_in).length
                ≤ (refill s).avail_in := by
              rw [List.length_take]; exact min_le_left _ _
            have hav : (BZ2_bzDecompress E patch (refill s) k).2.1.avail_in
                = (refill s).avail_in - min (E.decompress (refill s).state
                    ((patch.drop (refill s).next_in.toNat).take (refill s).avail_in) k).consumed
                    (refill s).avail_in := rfl
            have hout : (BZ2_bzDecompress E patch (refill s) k).2.2
                = (E.decompress (refill s).state
                    ((patch.drop (refill s).next_in.toNat).take (refill s).avail_in)
                    k).produced.take k := rfl
            have hps : (BZ2_bzDecompress E patch (refill s) k).2.1.pos = (refill s).pos := rfl
            have hsz : (BZ2_bzDecompress E patch (refill s) k).2.1.size = (refill s).size := rfl
            apply ih
            · rw [hps]; exact p0
            · rw [hps, hsz]; exact p1
            · rw [hsz, p2]; exact h2
            · rw [hps, hsz, hav, hout]
              rw [← hout] at hprog ⊢
              generalize (BZ2_bzDecompress E patch (refill s) k).2.2.length = n at hprog hle ⊢
              generalize (E.decompress (refill s).state
                ((patch.drop (refill s).next_in.toNat).take (refill s).avail_in) k).consumed
                = c at hprog ⊢
              generalize ((patch.drop (refill s).next_in.toNat).take
                (refill s).avail_in).length = l at hprog hlen
              generalize ((refill s).size - (refill s).pos).toNat = rest at hsup ⊢
              generalize (refill s).avail_in = a at hsup hlen ⊢
              generalize (s.size - s.pos).toNat = rest0 at hsup hf
              clear * - hprog hle hlen hsup hf hk
              omega
          · -- BZ_STREAM_END with no output missing: the next round returns
            have hz : k - (BZ2_bzDecompress E patch (refill s) k).2.2.length = 0 := by
              have := not_and.mp hn2 hret
              omega
            rw [hz, bz2_mem_read_loop_zero]
            exact ⟨_, rfl⟩
          · exact absurd ⟨by rw [hret]; decide, by rw [hret]; decide⟩ hn1

/-- C17 (failing input): a pull loop of `apply_bsdiff40` that does not
terminate. The engine `sticky_engine` makes progress in every call. The
control segment of `truncated_patch` is used up after 3 of the 8 bytes of the
first control value, and from then on every call reports `BZ_STREAM_END`.
`bz2_mem_read` on that segment returns -1; the control pull of
`apply_bsdiff40` has not returned after any number of engine calls, and so
`bspatch_apply_bytes` has not returned for any fuel, old data or output
memory. -/
theorem truncated_segment_spins :
    makes_progress sticky_engine ∧
    detect_format truncated_patch 36 = PATCH_FORMAT_40 ∧
    bspatch_new_size (some truncated_patch) 36 = 5 ∧
    (bz2_mem_read sticky_engine truncated_patch 20 (segment_stream header 32 4) 8
      = some (-1, { state := idle, next_in := 36, avail_in := 0, data := 32, size := 4,
                    pos := 4 }, [5, 0, 0])) ∧
    (∀ fuel : Nat,
      pull40 sticky_engine truncated_patch fuel (segment_stream header 32 4) 8 [] = none) ∧
    (∀ (fuel : Nat) (old_data : List Nat) (old_size : Int) (new_data : Mem),
      bspatch_apply_bytes sticky_engine bspatch_stub fuel (some old_data) old_size
        (some truncated_patch) 36 (some new_data) (some 5) = none) :=
  ⟨sticky_engine_progress, by decide, by decide, by decide!, truncated_ctrl_pull,
    truncated_run⟩

/-! ## The replay against the reference definition -/

theorem wrap64_add_wrap64 (a b : Int) : wrap64 (wrap64 a + b) = wrap64 (a + b) := by
  unfold wrap64; omega

theorem byteAt_append (a b : List Nat) (j : Nat) :
    byteAt (a ++ b) j = if j < a.length then byteAt a j else byteAt b (j - a.length) := by
  unfold byteAt
  split
  · rename_i h
    rw [List.getD_append _ _ _ _ h]
  · rename_i h
    rw [List.getD_append_right _ _ _ _ (not_lt.mp h)]

theorem reference_copy_length (old_data : List Nat) (old_size oldpos : Int) (diff : List Nat)
    (copyLen : Nat) : (reference_copy old_data old_size oldpos diff copyLen).length = copyLen := by
  simp [reference_copy]

theorem byteAt_reference_copy (old_data : List Nat) (old_size oldpos : Int) (diff : List Nat)
    (copyLen j : Nat) (h : j < copyLen) :
    byteAt (reference_copy old_data old_size oldpos diff copyLen) j =
      if 0 ≤ oldpos + (j : Int) ∧ oldpos + (j : Int) < old_size then
        (byteAt diff j + byteAt old_data (oldpos + (j : Int)).toNat) % 256
      else byteAt diff j := by
  have hlen : j < (reference_copy old_data old_size oldpos diff copyLen).length := by
    rw [reference_copy_length]; exact h
  show (reference_copy old_data old_size oldpos diff copyLen).getD j 0 = _
  rw [List.getD_eq_getElem _ _ hlen]
  simp only [reference_copy, List.getElem_map, List.getElem_range]

theorem copy_total_nonneg (ts : List (Int × Int × Int)) (h : tuples_valid ts) :
    0 ≤ copy_total ts := by
  induction ts with
  | nil => simp [copy_total]
  | cons t ts ih =>
    have h1 : 0 ≤ t.1 ∧ t.1 < 4294967296 ∧ 0 ≤ t.2.1 ∧ t.2.1 < 4294967296 :=
      h t (List.mem_cons_self _ _)
    have h2 := ih (fun u hu => h u (List.mem_cons_of_mem _ hu))
    simp only [copy_total, List.map_cons, List.sum_cons] at h2 ⊢
    omega

theorem insert_total_nonneg (ts : List (Int × Int × Int)) (h : tuples_valid ts) :
    0 ≤ insert_total ts := by
  induction ts with
  | nil => simp [insert_total]
  | cons t ts ih =>
    have h1 : 0 ≤ t.1 ∧ t.1 < 4294967296 ∧ 0 ≤ t.2.1 ∧ t.2.1 < 4294967296 :=
      h t (List.mem_cons_self _ _)
    have h2 := ih (fun u hu => h u (List.mem_cons_of_mem _ hu))
    simp only [insert_total, List.map_cons, List.sum_cons] at h2 ⊢
    omega

/-- The reference output has as many bytes as the tuples' lengths add up to. -/
theorem reference_replay_length (old_data : List Nat) (old_size : Int) :
    ∀ (ts : List (Int × Int × Int)) (oldpos : Int) (diff extra : List Nat),
      tuples_valid ts → insert_total ts ≤ extra.length →
      ((reference_replay old_data old_size ts oldpos diff extra).length : Int)
        = copy_total ts + insert_total ts := by
  intro ts
  induction ts with
  | nil => intro _ _ _ _ _; simp [reference_replay, copy_total, insert_total]
  | cons t ts ih =>
    intro oldpos diff extra hv hx
    obtain ⟨c0, c1, c2⟩ := t
    have h1 : 0 ≤ c0 ∧ c0 < 4294967296 ∧ 0 ≤ c1 ∧ c1 < 4294967296 :=
      hv (c0, c1, c2) (List.mem_cons_self _ _)
    have hv2 : tuples_valid ts := fun u hu => hv u (List.mem_cons_of_mem _ hu)
    have hn := insert_total_nonneg ts hv2
    simp only [insert_total, List.map_cons, List.sum_cons] at hx hn
    have hx2 : insert_total ts ≤ ((extra.drop c1.toNat).length : Int) := by
      simp only [insert_total, List.length_drop]
      omega
    have := ih (wrap64 (oldpos + (c0 + c2))) (diff.drop c0.toNat) (extra.drop c1.toNat) hv2 hx2
    simp only [reference_replay, List.length_append, reference_copy_length, List.length_take,
      copy_total, insert_total, List.map_cons, List.sum_cons] at this ⊢
    omega

/-- What one tuple leaves in the output memory: the `copyLen + insertLen`
bytes from `newpos` on are the reconstructed bytes followed by the inserted
ones, and every other byte is as before. -/
theorem tuple_memory (old_data : List Nat) (old_size oldpos newpos : Int) (mem : Mem)
    (diff extra : List Nat) (k0 k1 : Nat) (hos : inInt64 old_size) (hop : inInt64 oldpos)
    (hnp : 0 ≤ newpos) (hmax : newpos + k0 + k1 ≤ 9223372036854775807)
    (hd : k0 ≤ diff.length) (he : k1 ≤ extra.length) (j : Int) :
    write_bytes (add_old old_data old_size oldpos newpos k0 0
      (write_bytes mem newpos (diff.take k0))) (newpos + k0) (extra.take k1) j =
      if newpos ≤ j ∧ j < newpos + k0 + k1 then
        byteAt (reference_copy old_data old_size oldpos diff k0 ++ extra.take k1)
          (j - newpos).toNat
      else mem j := by
  have hlt : (extra.take k1).length = k1 := by rw [List.length_take]; omega
  have hld : (diff.take k0).length = k0 := by rw [List.length_take]; omega
  by_cases hx : newpos + k0 ≤ j ∧ j < newpos + k0 + k1
  · -- an inserted byte
    rw [if_pos ⟨by omega, by omega⟩]
    have hj : j = (newpos + k0) + (j - (newpos + k0)) := by omega
    rw [hj, write_bytes_inside _ _ _ _ (by omega) (by rw [hlt]; omega)]
    rw [byteAt_append, reference_copy_length, if_neg (by omega)]
    congr 1
    omega
  · rw [write_bytes_outside _ _ _ _ (by rw [hlt]; exact hx)]
    have hadd := add_old_eq old_data old_size oldpos newpos k0 0
      (write_bytes mem newpos (diff.take k0)) (le_refl _) hnp (by omega) j
    simp only [add_zero] at hadd
    rw [hadd]
    by_cases hc : newpos ≤ j ∧ j < newpos + k0
    · -- a reconstructed byte
      have hr : newpos ≤ j ∧ j < newpos + k0 + k1 := ⟨hc.1, by omega⟩
      have hj : j = newpos + (j - newpos) := by omega
      have hw : write_bytes mem newpos (diff.take k0) j = byteAt diff (j - newpos).toNat := by
        rw [hj, write_bytes_inside _ _ _ _ (by omega) (by rw [hld]; omega)]
        rw [byteAt_take _ _ _ (by omega)]
        congr 2
        omega
      have hcast : (((j - newpos).toNat : Nat) : Int) = j - newpos := by omega
      have h5 : (j - newpos).toNat < k0 := by omega
      rw [if_pos hr, hw, byteAt_append, reference_copy_length, if_pos h5,
        byteAt_reference_copy _ _ _ _ _ _ h5, hcast]
      by_cases hin : 0 ≤ oldpos + (j - newpos) ∧ oldpos + (j - newpos) < old_size
      · have hl : newpos ≤ j ∧ j < newpos + (k0 : Int) ∧ 0 ≤ wrap64 (oldpos + (j - newpos)) ∧
            wrap64 (oldpos + (j - newpos)) < old_size := by
          rw [old_index_in_range oldpos (j - newpos) old_size hos hin]
          exact ⟨hc.1, hc.2, hin.1, hin.2⟩
        rw [if_pos hl, if_pos hin, old_index_in_range oldpos (j - newpos) old_size hos hin]
      · have hout := old_index_out_of_range oldpos (j - newpos) old_size hop (by omega)
          (by omega) (by omega)
        have hl : ¬ (newpos ≤ j ∧ j < newpos + (k0 : Int) ∧
            0 ≤ wrap64 (oldpos + (j - newpos)) ∧ wrap64 (oldpos + (j - newpos)) < old_size) :=
          fun h => hout ⟨h.2.2.1, h.2.2.2⟩
        rw [if_neg hl, if_neg hin]
    · have hl : ¬ (newpos ≤ j ∧ j < newpos + (k0 : Int) ∧
          0 ≤ wrap64 (oldpos + (j - newpos)) ∧ wrap64 (oldpos + (j - newpos)) < old_size) :=
        fun h => hc ⟨h.1, h.2.1⟩
      have hr : ¬ (newpos ≤ j ∧ j < newpos + k0 + k1) := by omega
      rw [if_neg hl, write_bytes_outside _ _ _ _ (by rw [hld]; exact hc), if_neg hr]

theorem to_uint_of_range (x : Int) (h0 : 0 ≤ x) (h1 : x < 4294967296) :
    to_uint x = x.toNat := by
  unfold to_uint
  rw [Int.emod_eq_of_lt h0 h1]

theorem copy_total_cons (t : Int × Int × Int) (ts : List (Int × Int × Int)) :
    copy_total (t :: ts) = t.1 + copy_total ts := by
  simp [copy_total]

theorem insert_total_cons (t : Int × Int × Int) (ts : List (Int × Int × Int)) :
    insert_total (t :: ts) = t.2.1 + insert_total ts := by
  simp [insert_total]

theorem wrap64_in_range (x : Int) (h0 : 0 ≤ x) (h1 : x ≤ 9223372036854775807) :
    wrap64 x = x := by
  unfold wrap64; omega

/-- The replay loop against the reference definition, from any state of the
loop: when the control stream yields `n` tuples with lengths in `[0, 2^32)`
that add up to what is missing up to `new_size`, and the diff and extra streams
yield enough bytes, the loop ends with `BSPATCH_SUCCESS` and the output memory
holds the reference bytes from `newpos` up to `new_size` and is unchanged
elsewhere. -/
theorem replay_reference {σ : Type} (E : bz_engine σ) (patch old_data : List Nat)
    (old_size new_size : Int) (budget fuel : Nat) (hos : inInt64 old_size)
    (hN : new_size ≤ 9223372036854775807) (hbf : budget ≤ fuel) :
    ∀ (n : Nat) (ctrl diff extra : List Nat) (st : loop_state σ) (rounds : Nat),
      24 * n ≤ ctrl.length →
      tuples_valid (control_tuples ctrl n) →
      st.newpos + (copy_total (control_tuples ctrl n) + insert_total (control_tuples ctrl n))
        = new_size →
      0 ≤ st.newpos → inInt64 st.oldpos →
      copy_total (control_tuples ctrl n) ≤ diff.length →
      insert_total (control_tuples ctrl n) ≤ extra.length →
      stream_yields E patch budget st.ctx.ctrl ctrl →
      stream_yields E patch budget st.ctx.diff diff →
      stream_yields E patch budget st.ctx.extra extra →
      n ≤ rounds →
      ∃ st1, replay E patch old_data old_size new_size fuel rounds st
          = some (BSPATCH_SUCCESS, st1) ∧
        ∀ j : Int, st1.new_data j =
          if st.newpos ≤ j ∧ j < new_size then
            byteAt (reference_replay old_data old_size (control_tuples ctrl n) st.oldpos diff
              extra) (j - st.newpos).toNat
          else st.new_data j := by
  intro n
  induction n with
  | zero =>
    intro ctrl diff extra st rounds _ _ hsum _ _ _ _ _ _ _ _
    simp only [control_tuples, copy_total, insert_total, List.map_nil, List.sum_nil,
      add_zero] at hsum
    refine ⟨st, replay_done _ _ _ _ _ _ _ _ (by rw [hsum]; exact lt_irrefl _), fun j => ?_⟩
    rw [if_neg (by rw [hsum]; intro h; exact absurd (lt_of_le_of_lt h.1 h.2) (lt_irrefl _))]
  | succ n ih =>
    intro ctrl diff extra st rounds hlen hv hsum hnp hop hdl hel hyc hyd hye hr
    have hts : control_tuples ctrl (n + 1) =
        (read_offset ctrl 0, read_offset ctrl 8, read_offset ctrl 16) ::
          control_tuples (ctrl.drop 24) n := rfl
    rw [hts] at hv hsum hdl hel ⊢
    have hv0 : 0 ≤ read_offset ctrl 0 ∧ read_offset ctrl 0 < 4294967296 ∧
        0 ≤ read_offset ctrl 8 ∧ read_offset ctrl 8 < 4294967296 :=
      hv _ (List.mem_cons_self _ _)
    have hv2 : tuples_valid (control_tuples (ctrl.drop 24) n) :=
      fun u hu => hv u (List.mem_cons_of_mem _ hu)
    have hcn := copy_total_nonneg _ hv2
    have hin := insert_total_nonneg _ hv2
    rw [copy_total_cons, insert_total_cons] at hsum
    rw [copy_total_cons] at hdl
    rw [insert_total_cons] at hel
    simp only at hsum hdl hel
    generalize hc0 : read_offset ctrl 0 = c0 at *
    generalize hc1 : read_offset ctrl 8 = c1 at *
    generalize hc2 : read_offset ctrl 16 = c2 at *
    generalize hct : copy_total (control_tuples (ctrl.drop 24) n) = ct at *
    generalize hit : insert_total (control_tuples (ctrl.drop 24) n) = it at *
    by_cases hlt : st.newpos < new_size
    · obtain ⟨rounds, rfl⟩ : ∃ r, rounds = r + 1 := ⟨rounds - 1, by clear * - hr; omega⟩
      -- the three control values
      obtain ⟨s1, hr1, hy1⟩ := read_ctrl_of_stream_yields E patch budget fuel st.ctx.ctrl ctrl
        hyc (by clear * - hlen; omega) hbf
      obtain ⟨s2, hr2, hy2⟩ := read_ctrl_of_stream_yields E patch budget fuel s1 (ctrl.drop 8)
        hy1 (by rw [List.length_drop]; clear * - hlen; omega) hbf
      obtain ⟨s3, hr3, hy3⟩ := read_ctrl_of_stream_yields E patch budget fuel s2
        ((ctrl.drop 8).drop 8) hy2
        (by rw [List.length_drop, List.length_drop]; clear * - hlen; omega) hbf
      rw [hc0] at hr1
      rw [read_offset_drop, hc1] at hr2
      rw [List.drop_drop, read_offset_drop, hc2] at hr3
      rw [List.drop_drop, List.drop_drop] at hy3
      -- the lengths as naturals
      obtain ⟨k0, rfl⟩ : ∃ k : Nat, c0 = (k : Int) := ⟨c0.toNat, by clear * - hv0; omega⟩
      obtain ⟨k1, rfl⟩ : ∃ k : Nat, c1 = (k : Int) := ⟨c1.toNat, by clear * - hv0; omega⟩
      have hk0 : k0 < 4294967296 := by clear * - hv0; omega
      have hk1 : k1 < 4294967296 := by clear * - hv0; omega
      have hk0d : k0 ≤ diff.length := by clear * - hdl hcn; omega
      have hk1e : k1 ≤ extra.length := by clear * - hel hin; omega
      have hfit : st.newpos + k0 + k1 ≤ new_size := by clear * - hsum hcn hin; omega
      have hw1 : wrap64 (st.newpos + (k0 : Int)) = st.newpos + k0 :=
        wrap64_in_range _ (by clear * - hnp; omega) (by clear * - hfit hN; omega)
      have hw2 : wrap64 (st.newpos + (k0 : Int) + (k1 : Int)) = st.newpos + k0 + k1 :=
        wrap64_in_range _ (by clear * - hnp; omega) (by clear * - hfit hN; omega)
      -- the two pulls
      obtain ⟨d1, hpd, hyd1⟩ := pull40_of_stream_yields E patch budget st.ctx.diff diff k0 []
        fuel hyd hk0d hbf
      obtain ⟨e1, hpe, hye1⟩ := pull40_of_stream_yields E patch budget st.ctx.extra extra k1 []
        fuel hye hk1e hbf
      rw [List.nil_append] at hpd hpe
      have hb := loop_body_next E patch old_data old_size new_size fuel st (k0 : Int) (k1 : Int)
        c2 s1 s2 s3 d1 e1 (diff.take k0) (extra.take k1) hr1 hr2 hr3
        (by rw [hw1]; clear * - hfit; omega)
        (by rw [to_uint_of_lt k0 hk0]; exact hpd)
        (by rw [hw1, hw2]; clear * - hfit; omega)
        (by rw [to_uint_of_lt k1 hk1]; exact hpe)
      rw [hw1, hw2, Int.toNat_ofNat] at hb
      obtain ⟨st2, hb2, hnp2, hop2, hnd2, hsc, hsd, hse⟩ : ∃ st2 : loop_state σ,
          loop_body E patch old_data old_size new_size fuel st = some (.next st2) ∧
          st2.newpos = st.newpos + k0 + k1 ∧
          st2.oldpos = wrap64 (wrap64 (st.oldpos + (k0 : Int)) + c2) ∧
          st2.new_data = write_bytes (add_old old_data old_size st.oldpos st.newpos k0 0
            (write_bytes st.new_data st.newpos (diff.take k0))) (st.newpos + k0)
            (extra.take k1) ∧
          st2.ctx.ctrl = s3 ∧ st2.ctx.diff = d1 ∧ st2.ctx.extra = e1 :=
        ⟨_, hb, rfl, rfl, rfl, rfl, rfl, rfl⟩
      rw [replay_step _ _ _ _ _ _ rounds _ _ hlt hb2]
      obtain ⟨st1, hrun, hmem⟩ := ih (ctrl.drop 24) (diff.drop k0) (extra.drop k1) st2 rounds
        (by rw [List.length_drop]; clear * - hlen; omega)
        hv2
        (by rw [hct, hit, hnp2]; clear * - hsum; omega)
        (by rw [hnp2]; clear * - hnp; omega)
        (by rw [hop2]; exact wrap64_inInt64 _)
        (by rw [hct, List.length_drop]; clear * - hdl hk0d; omega)
        (by rw [hit, List.length_drop]; clear * - hel hk1e; omega)
        (by rw [hsc]; exact hy3) (by rw [hsd]; exact hyd1) (by rw [hse]; exact hye1)
        (by clear * - hr; omega)
      refine ⟨st1, hrun, fun j => ?_⟩
      rw [hmem j, hnp2, hop2, hnd2]
      simp only [reference_replay, Int.toNat_ofNat]
      have hmem0 := tuple_memory old_data old_size st.oldpos st.newpos st.new_data diff extra
        k0 k1 hos hop hnp (by clear * - hfit hN; omega) hk0d hk1e j
      have hold : wrap64 (wrap64 (st.oldpos + (k0 : Int)) + c2)
          = wrap64 (st.oldpos + ((k0 : Int) + c2)) := by
        rw [wrap64_add_wrap64, add_assoc]
      have hlen2 : (reference_copy old_data old_size st.oldpos diff k0 ++ extra.take k1).length
          = k0 + k1 := by
        rw [List.length_append, reference_copy_length, List.length_take]
        clear * - hk1e; omega
      by_cases hj : st.newpos + k0 + k1 ≤ j ∧ j < new_size
      · -- a byte of a later tuple
        have hj0 : st.newpos ≤ j ∧ j < new_size := ⟨by clear * - hj; omega, hj.2⟩
        have hidx : ¬ (j - st.newpos).toNat < k0 + k1 := by clear * - hj; omega
        have hsub : (j - st.newpos).toNat - (k0 + k1) = (j - (st.newpos + k0 + k1)).toNat := by
          clear * - hj; omega
        rw [if_pos hj, if_pos hj0, byteAt_append, hlen2, if_neg hidx, hsub, hold]
      · rw [if_neg hj, hmem0]
        by_cases hj1 : st.newpos ≤ j ∧ j < st.newpos + k0 + k1
        · have hj0 : st.newpos ≤ j ∧ j < new_size := ⟨hj1.1, by clear * - hj1 hfit; omega⟩
          have hidx : (j - st.newpos).toNat < k0 + k1 := by clear * - hj1; omega
          rw [if_pos hj1, if_pos hj0, byteAt_append
            (reference_copy old_data old_size st.oldpos diff k0 ++ extra.take k1), hlen2,
            if_pos hidx]
        · have hj0 : ¬ (st.newpos ≤ j ∧ j < new_size) := by clear * - hj hj1; omega
          rw [if_neg hj1, if_neg hj0]
    · -- nothing is missing: the loop is over and the remaining tuples are empty
      have hz : (reference_replay old_data old_size
          ((c0, c1, c2) :: control_tuples (ctrl.drop 24) n) st.oldpos diff extra).length = 0 := by
        have hl := reference_replay_length old_data old_size
          ((c0, c1, c2) :: control_tuples (ctrl.drop 24) n) st.oldpos diff extra hv
          (by rw [insert_total_cons, hit]; exact hel)
        rw [copy_total_cons, insert_total_cons, hct, hit] at hl
        simp only at hl
        clear * - hl hsum hlt hv0 hcn hin
        omega
      refine ⟨st, replay_done _ _ _ _ _ _ _ _ hlt, fun j => ?_⟩
      rw [if_neg (by clear * - hlt; omega)]

/-- C14: the replay of `apply_bsdiff40` computes the reference output. Take
any old data, any patch buffer with a valid BSDIFF40 layout (segment lengths
non-negative and within the buffer, engine initialisations succeeding) whose
control, diff and extra segments decompress to `ctrl`, `diff` and `extra`, and
suppose the first `n` control tuples have copy and insert lengths in
`[0, 2^32)` that add up to `new_size`, with enough diff and extra bytes for
them. Then, with enough fuel, `apply_bsdiff40` returns `BSPATCH_SUCCESS`, the
`new_size` bytes of the output buffer are those of `reference_replay` (per
tuple the reconstructed bytes, then the inserted bytes, the old cursor
starting at 0), and the memory outside the buffer is unchanged. -/
theorem replay_matches_reference {σ : Type} (E : bz_engine σ) (fuel budget : Nat)
    (old_data : List Nat) (old_size : Int) (patch_data : List Nat) (patch_size : Int)
    (new_data : Mem) (new_size : Int) (s0 s1 s2 : σ) (n : Nat) (ctrl diff extra : List Nat)
    (hos : inInt64 old_size)
    (h32 : 32 ≤ patch_size) (hmax : patch_size ≤ 9223372036854775807)
    (hc : 0 ≤ read_offset patch_data 8) (hd : 0 ≤ read_offset patch_data 16)
    (hfit : 32 + read_offset patch_data 8 + read_offset patch_data 16 ≤ patch_size)
    (hi0 : E.init 0 = some s0) (hi1 : E.init 1 = some s1) (hi2 : E.init 2 = some s2)
    (hyc : stream_yields E patch_data budget
      (segment_stream s0 32 (read_offset patch_data 8)) ctrl)
    (hyd : stream_yields E patch_data budget
      (segment_stream s1 (32 + read_offset patch_data 8) (read_offset patch_data 16)) diff)
    (hye : stream_yields E patch_data budget
      (segment_stream s2 (32 + read_offset patch_data 8 + read_offset patch_data 16)
        (patch_size - 32 - read_offset patch_data 8 - read_offset patch_data 16)) extra)
    (hlen : 24 * n ≤ ctrl.length)
    (hv : tuples_valid (control_tuples ctrl n))
    (hsum : copy_total (control_tuples ctrl n) + insert_total (control_tuples ctrl n) = new_size)
    (hN : new_size ≤ 9223372036854775807)
    (hdl : copy_total (control_tuples ctrl n) ≤ diff.length)
    (hel : insert_total (control_tuples ctrl n) ≤ extra.length)
    (hbf : budget ≤ fuel) (hn : n ≤ fuel) :
    ∃ mem, apply_bsdiff40 E fuel old_data old_size patch_data patch_size new_data new_size
        = some (BSPATCH_SUCCESS, mem) ∧
      ((reference_replay old_data old_size (control_tuples ctrl n) 0 diff extra).length : Int)
        = new_size ∧
      (∀ j : Nat, (j : Int) < new_size →
        mem j = byteAt (reference_replay old_data old_size (control_tuples ctrl n) 0 diff extra)
          j) ∧
      (∀ j : Int, (j < 0 ∨ new_size ≤ j) → mem j = new_data j) := by
  rw [apply_bsdiff40_eq_replay E fuel old_data old_size patch_data patch_size new_data new_size
    s0 s1 s2 h32 hmax hc hd hfit hi0 hi1 hi2]
  obtain ⟨st1, hrun, hmem⟩ := replay_reference E patch_data old_data old_size new_size budget
    fuel hos hN hbf n ctrl diff extra
    { ctx :=
        { ctrl := segment_stream s0 32 (read_offset patch_data 8),
          diff := segment_stream s1 (32 + read_offset patch_data 8)
            (read_offset patch_data 16),
          extra := segment_stream s2
            (32 + read_offset patch_data 8 + read_offset patch_data 16)
            (patch_size - 32 - read_offset patch_data 8 - read_offset patch_data 16) },
      oldpos := 0, newpos := 0, new_data := new_data }
    fuel hlen hv (by rw [hsum]; exact zero_add _) (le_refl _)
    (show inInt64 (0 : Int) by decide) hdl hel hyc hyd hye hn
  rw [hrun]
  refine ⟨st1.new_data, rfl, ?_, ?_, ?_⟩
  · rw [reference_replay_length old_data old_size _ 0 diff extra hv hel, hsum]
  · intro j hj
    rw [hmem j]
    have h1 : ((0 : Int) ≤ (j : Int) ∧ (j : Int) < new_size) := ⟨Int.ofNat_nonneg j, hj⟩
    have h2 : ((j : Int) - 0).toNat = j := by omega
    simp only [if_pos h1, h2]
  · intro j hj
    rw [hmem j]
    have h1 : ¬ ((0 : Int) ≤ j ∧ j < new_size) := by omega
    simp only [if_neg h1]

/-- The control stream of `mixed_patch` yields its two tuples. -/
theorem mixed_ctrl_yields :
    stream_yields (stored_engine false) mixed_patch 49
      (segment_stream header 32 (read_offset mixed_patch 8)) mixed_ctrl := by
  have h := stored_segment_yields false (BSPATCH_MAGIC_40 ++ field 49 ++ field 6 ++ field 6)
    mixed_ctrl (([5] ++ mixed_diff) ++ ([1] ++ mixed_extra)) 49 (by decide) (by decide)
    (by decide)
  rw [show BSPATCH_MAGIC_40 ++ field 49 ++ field 6 ++ field 6 ++
      (mixed_ctrl.length :: mixed_ctrl) ++ (([5] ++ mixed_diff) ++ ([1] ++ mixed_extra))
      = mixed_patch from by decide,
    show (((BSPATCH_MAGIC_40 ++ field 49 ++ field 6 ++ field 6).length : Nat) : Int) = 32
      from by decide,
    show mixed_ctrl.length + 1 = 49 from by decide] at h
  rw [show read_offset mixed_patch 8 = 49 from by decide]
  exact h

/-- The diff stream of `mixed_patch` yields its five bytes. -/
theorem mixed_diff_yields :
    stream_yields (stored_engine false) mixed_patch 49
      (segment_stream header (32 + read_offset mixed_patch 8) (read_offset mixed_patch 16))
      mixed_diff := by
  have h := stored_segment_yields false
    (BSPATCH_MAGIC_40 ++ field 49 ++ field 6 ++ field 6 ++ ([48] ++ mixed_ctrl))
    mixed_diff ([1] ++ mixed_extra) 6 (by decide) (by decide) (by decide)
  rw [show BSPATCH_MAGIC_40 ++ field 49 ++ field 6 ++ field 6 ++ ([48] ++ mixed_ctrl) ++
      (mixed_diff.length :: mixed_diff) ++ ([1] ++ mixed_extra) = mixed_patch from by decide,
    show (((BSPATCH_MAGIC_40 ++ field 49 ++ field 6 ++ field 6 ++
      (([48] : List Nat) ++ mixed_ctrl)).length : Nat) : Int) = 81 from by decide] at h
  rw [show (32 : Int) + read_offset mixed_patch 8 = 81 from by decide,
    show read_offset mixed_patch 16 = 6 from by decide]
  exact stream_yields_le _ _ _ 49 _ _ (by decide) h

/-- The extra stream of `mixed_patch` yields its one byte. -/
theorem mixed_extra_yields :
    stream_yields (stored_engine false) mixed_patch 49
      (segment_stream header (32 + read_offset mixed_patch 8 + read_offset mixed_patch 16)
        (89 - 32 - read_offset mixed_patch 8 - read_offset mixed_patch 16))
      mixed_extra := by
  have h := stored_segment_yields false
    (BSPATCH_MAGIC_40 ++ field 49 ++ field 6 ++ field 6 ++ ([48] ++ mixed_ctrl) ++
      ([5] ++ mixed_diff))
    mixed_extra [] 2 (by decide) (by decide) (by decide)
  rw [show BSPATCH_MAGIC_40 ++ field 49 ++ field 6 ++ field 6 ++ ([48] ++ mixed_ctrl) ++
      ([5] ++ mixed_diff) ++ (mixed_extra.length :: mixed_extra) ++ [] = mixed_patch
      from by decide,
    show (((BSPATCH_MAGIC_40 ++ field 49 ++ field 6 ++ field 6 ++
      (([48] : List Nat) ++ mixed_ctrl) ++ (([5] : List Nat) ++ mixed_diff)).length : Nat) : Int)
      = 87 from by decide] at h
  rw [show (32 : Int) + read_offset mixed_patch 8 + read_offset mixed_patch 16 = 87
      from by decide,
    show (89 : Int) - 32 - read_offset mixed_patch 8 - read_offset mixed_patch 16 = 2
      from by decide]
  exact stream_yields_le _ _ _ 49 _ _ (by decide) h

/-- C14 at `mixed_patch` and the old data `[1, 2, 3, 4]`: the reference
output is `[11, 22, 77, 30, 40, 51]` (the second tuple reads the old data at
-2, -1 and 0), and `apply_bsdiff40` with the stored-block engine produces it. -/
theorem replay_matches_reference_witness :
    control_tuples mixed_ctrl 2 = [(2, 1, -4), (3, 0, 0)] ∧
    reference_replay [1, 2, 3, 4] 4 (control_tuples mixed_ctrl 2) 0 mixed_diff mixed_extra
      = [11, 22, 77, 30, 40, 51] ∧
    ∃ mem, apply_bsdiff40 (stored_engine false) 49 [1, 2, 3, 4] 4 mixed_patch 89 (fun _ => 0) 6
        = some (BSPATCH_SUCCESS, mem) ∧
      ((reference_replay [1, 2, 3, 4] 4 (control_tuples mixed_ctrl 2) 0 mixed_diff
        mixed_extra).length : Int) = 6 ∧
      (∀ j : Nat, (j : Int) < 6 →
        mem j = byteAt (reference_replay [1, 2, 3, 4] 4 (control_tuples mixed_ctrl 2) 0
          mixed_diff mixed_extra) j) ∧
      (∀ j : Int, (j < 0 ∨ 6 ≤ j) → mem j = 0) :=
  ⟨by decide, by decide,
    replay_matches_reference (stored_engine false) 49 49 [1, 2, 3, 4] 4 mixed_patch 89
      (fun _ => 0) 6 header header header 2 mixed_ctrl mixed_diff mixed_extra
      (by decide) (by decide) (by decide) (by decide) (by decide) (by decide) rfl rfl rfl
      mixed_ctrl_yields mixed_diff_yields mixed_extra_yields (by decide) (by decide) (by decide)
      (by decide) (by decide) (by decide) (by decide) (by decide)⟩

/-! ## End of stream with output missing -/

end FlutterBspatch
